import Mathlib

/-!
# st-launcher: a verification development of `launcher.js`

A shallow embedding of the launcher's process-wide state and of its operations,
followed by the properties proved about them:

* the API key aggregator: `startAggregator`, `getNextKey`,
  `handleAggregatorProxy`, `stopAggregator`, and the aggregator as a transition
  system in which proxied requests complete at any later time;
* the filesystem as a tree, `copyDirSync`, and the version manager:
  `getVersionPath`, `isVersionInstalled`, `switchVersion`, `uninstallVersion`,
  `isSillyTavernDir`, `getVersionsList`;
* the log buffer: `addLog`;
* the process supervisor: `startServer` before its spawn, its readiness
  polling as a system of timer and probe events, and the handle, the children
  and the grace timers of `stopServer` as a transition system.

Conventions of the embedding:
* a JavaScript `Set` of strings is the list of its members in insertion order,
  without duplicates;
* `null` / `undefined` results are `none`;
* the answers of the world outside (the account endpoint, the upstream, the
  liveness probes, `parseFloat`, `JSON.parse`) are inputs of the operations;
* log lines (`addLog`) only touch `serverLogs`, which no operation reads, and
  are left out of the other operations.
-/

namespace Launcher

/-! ## The key pool of the aggregator -/

/-- A JavaScript number as produced by `parseFloat`: not-a-number, the two
infinities, or a finite double, written `mantissa * 2 ^ exponent`. -/
inductive JSNumber where
  | nan
  | negInf
  | posInf
  | fin (mantissa : Int) (exponent : Int)
  deriving DecidableEq, Repr

namespace JSNumber

/-- Truthiness of a number: everything but `NaN` and zero. -/
def truthy : JSNumber → Bool
  | nan => false
  | negInf => true
  | posInf => true
  | fin m _ => decide (m ≠ 0)

/-- The JavaScript expression `x || 0`. -/
def orZero (x : JSNumber) : JSNumber :=
  if x.truthy then x else fin 0 0

/-- The JavaScript comparison `x > 0`. -/
def gtZero : JSNumber → Bool
  | nan => false
  | negInf => false
  | posInf => true
  | fin m _ => decide (0 < m)

end JSNumber

/-- One entry of `userApiKeys`: `{ key, balance }`. -/
structure KeyRecord where
  key : String
  balance : JSNumber
  deriving DecidableEq, Repr

/-- One element of `data.msg` in the answer of the account endpoint; `balance`
is the raw field, before `parseFloat`. -/
structure OrderItem where
  api_key : String
  balance : String
  deriving DecidableEq, Repr

/-- The `userInfo` object handed to `startAggregator`. -/
structure UserInfo where
  userId : Option String
  uid : Option String
  userEmail : Option String
  password : Option String
  invitationCode : Option String
  deriving DecidableEq, Repr

/-- The aggregator's module-level variables. -/
structure AggState where
  aggregatorEnabled : Bool
  userApiKeys : List KeyRecord
  currentKeyIndex : Nat
  failedKeys : List String
  aggregatorUserToken : Option String
  aggregatorUserInfo : Option UserInfo
  deriving DecidableEq, Repr

/-- The values the module-level variables are initialised with. -/
def AggState.init : AggState :=
  { aggregatorEnabled := false
    userApiKeys := []
    currentKeyIndex := 0
    failedKeys := []
    aggregatorUserToken := none
    aggregatorUserInfo := none }

/-- The `{ success, message }` object returned by the control operations. -/
structure Result where
  success : Bool
  message : String
  keysCount : Option Nat := none
  deriving DecidableEq, Repr

/-- `failedKeys.has(k)`. -/
def setHas (failed : List String) (k : String) : Bool :=
  failed.contains k

/-- `failedKeys.add(k)`: a member is not added twice. -/
def setAdd (failed : List String) (k : String) : List String :=
  if failed.contains k then failed else failed ++ [k]

/-- `userApiKeys.filter(k => !failedKeys.has(k.key))`. -/
def availableKeys (s : AggState) : List KeyRecord :=
  s.userApiKeys.filter (fun k => !(setHas s.failedKeys k.key))

/-- `getNextKey()`: the returned entry (`none` for `null`/`undefined`) and the
state afterwards. -/
def getNextKey (s : AggState) : Option KeyRecord × AggState :=
  let available := availableKeys s
  if available.length = 0 then
    let s1 := { s with failedKeys := [] }
    if s.userApiKeys.length = 0 then (none, s1)
    else (s.userApiKeys[0]?, s1)
  else
    let idx := (s.currentKeyIndex + 1) % available.length
    (available[idx]?, { s with currentKeyIndex := idx })

/-- The entries returned by `n` sequential `getNextKey()` calls, oldest first,
and the state after them. -/
def getNextKeyTimes : Nat → AggState → List (Option KeyRecord) × AggState
  | 0, s => ([], s)
  | n + 1, s =>
    let r := getNextKey s
    let rest := getNextKeyTimes n r.2
    (r.1 :: rest.1, rest.2)

/-- The state after `n` sequential `getNextKey()` calls. -/
def stateAfter (n : Nat) (s : AggState) : AggState :=
  (getNextKeyTimes n s).2

/-- The entry returned by the `i`-th of a run of sequential `getNextKey()`
calls, `i = 1, 2, ...` (`none` for `i = 0`). -/
def nthReturned (i : Nat) (s : AggState) : Option KeyRecord :=
  match i with
  | 0 => none
  | j + 1 => (getNextKey (stateAfter j s)).1

/-- How many of the returned entries carry the key `k`. -/
def timesReturned (k : String) (rs : List (Option KeyRecord)) : Nat :=
  rs.countP (fun r => decide (r.map KeyRecord.key = some k))

/-- The number of `m < B` with `m % K = j`, for `j < K`. -/
def residueBelow (K j B : Nat) : Nat :=
  B / K + if j < B % K then 1 else 0

/-! ## Starting and stopping the aggregator -/

/-- The field `data.msg` of the account endpoint's JSON answer: missing (or
otherwise falsy), a string, or a list of orders. -/
inductive MsgField where
  | absent
  | text (s : String)
  | list (items : List OrderItem)
  deriving DecidableEq, Repr

/-- What `fetch(DAIDAI_API/api/general/orders)` followed by `response.json()`
gives: an exception, or the parsed object with its `code` and `msg`. -/
inductive AccountResponse where
  | threw (error : String)
  | json (code : Int) (msg : MsgField)
  deriving DecidableEq, Repr

/-- `data.msg.map(item => (key, parseFloat(item.balance) || 0)).filter(k => k.balance > 0)`;
`parseFloat` is the JavaScript builtin, taken as a parameter. -/
def usableKeys (parseFloat : String → JSNumber) (items : List OrderItem) : List KeyRecord :=
  (items.map (fun item =>
    ({ key := item.api_key, balance := (parseFloat item.balance).orZero } : KeyRecord))).filter
      (fun k => k.balance.gtZero)

/-- The guard at the head of `startAggregator`: the aggregator is already
running with a non-empty pool. -/
def startAggregatorGuard (s : AggState) : Bool :=
  s.aggregatorEnabled && decide (s.userApiKeys.length > 0)

/-- The part of `startAggregator(userToken, userInfo)` that runs once the
account endpoint has answered with `resp`, after the two `await`s that follow
the guard; `s` is the state of the aggregator at that moment. -/
def startAggregatorAnswer (parseFloat : String → JSNumber) (userToken : String)
    (userInfo : UserInfo) (resp : AccountResponse) (s : AggState) : Result × AggState :=
  match resp with
  | .threw e => ({ success := false, message := "获取密钥失败: " ++ e }, s)
  | .json code msg =>
    match msg with
    | .absent => ({ success := false, message := "获取 API 密钥失败" }, s)
    | .text t =>
      if code = 200 ∧ t.length > 0 then
        ({ success := false, message := "获取密钥失败: data.msg.map is not a function" }, s)
      else ({ success := false, message := "获取 API 密钥失败" }, s)
    | .list items =>
      if code = 200 ∧ items.length > 0 then
        let s1 := { s with userApiKeys := usableKeys parseFloat items }
        if s1.userApiKeys.length = 0 then
          ({ success := false, message := "没有可用的 API 密钥（余额不足）" }, s1)
        else
          ({ success := true, message := "聚合服务已启动",
             keysCount := some s1.userApiKeys.length },
           { s1 with
             aggregatorEnabled := true
             aggregatorUserToken := some userToken
             aggregatorUserInfo := some userInfo
             failedKeys := []
             currentKeyIndex := 0 })
      else ({ success := false, message := "获取 API 密钥失败" }, s)

/-- `startAggregator(userToken, userInfo)` when nothing else runs between its
guard and the answer `resp` of the account endpoint. -/
def startAggregator (parseFloat : String → JSNumber) (userToken : String)
    (userInfo : UserInfo) (resp : AccountResponse) (s : AggState) : Result × AggState :=
  if startAggregatorGuard s then
    ({ success := true, message := "聚合服务已在运行" }, s)
  else startAggregatorAnswer parseFloat userToken userInfo resp s

/-- `stopAggregator()`. -/
def stopAggregator (s : AggState) : Result × AggState :=
  if !s.aggregatorEnabled then
    ({ success := true, message := "聚合服务未运行" }, s)
  else
    ({ success := true, message := "聚合服务已停止" },
     { s with
       aggregatorEnabled := false
       userApiKeys := []
       failedKeys := []
       aggregatorUserToken := none
       aggregatorUserInfo := none })

/-! ## The proxy -/

/-- The part of `handleAggregatorProxy` that runs before the request body is
collected: either the request is answered at once with `status` (503, 500), or
it will be forwarded upstream with the chosen `keyObj`. -/
inductive ProxyStart where
  | rejected (status : Nat)
  | forwarded (keyObj : KeyRecord)
  deriving DecidableEq, Repr

/-- `handleAggregatorProxy(req, res, apiPath)` up to `req.on('end', ...)`. -/
def handleAggregatorProxy (s : AggState) : ProxyStart × AggState :=
  if !s.aggregatorEnabled || decide (s.userApiKeys.length = 0) then
    (.rejected 503, s)
  else
    match getNextKey s with
    | (none, s1) => (.rejected 500, s1)
    | (some keyObj, s1) => (.forwarded keyObj, s1)

/-- What the upstream does with a forwarded request: `fetch` rejects, or it
resolves with `status` and reading the body (`upstreamRes.text()`) then either
succeeds (`bodyRead = true`) or rejects. -/
inductive Upstream where
  | fetchFailed
  | response (status : Nat) (bodyRead : Bool)
  deriving DecidableEq, Repr

/-- The `ServerResponse` object `res`: the status of the header written with
`writeHead`, if any, and whether `end` was called. -/
structure Response where
  head : Option Nat
  ended : Bool
  deriving DecidableEq, Repr

/-- `res.writeHead(status, headers)` of `node:http`: throws when the header has
already been written and when `status` is not in `100..999`. -/
def writeHead (res : Response) (status : Nat) : Option Response :=
  if res.head.isSome then none
  else if status < 100 ∨ 999 < status then none
  else some { res with head := some status }

/-- The outcome of the `end` callback of `handleAggregatorProxy`. -/
structure ProxyDone where
  state : AggState
  res : Response
  uncaught : Bool
  deriving DecidableEq, Repr

/-- The status the caller receives: the header's status once `res.end` ran. -/
def ProxyDone.relayedStatus (d : ProxyDone) : Option Nat :=
  if d.res.ended then d.res.head else none

/-- The `try` block of the `end` callback: the state and response when it is
left, and whether it was left by an exception. -/
def proxyTry (s : AggState) (keyObj : KeyRecord) (res : Response) :
    Upstream → AggState × Response × Bool
  | .fetchFailed => (s, res, true)
  | .response status bodyRead =>
    let s1 :=
      if status = 401 ∨ status = 403 ∨ status = 429 then
        { s with failedKeys := setAdd s.failedKeys keyObj.key }
      else s
    match writeHead res status with
    | none => (s1, res, true)
    | some res1 =>
      if bodyRead then (s1, { res1 with ended := true }, false)
      else (s1, res1, true)

/-- The `end` callback of `handleAggregatorProxy` for a request that was given
`keyObj`: the `try` block, and the `catch` block when it threw. -/
def proxyOnEnd (s : AggState) (keyObj : KeyRecord) (up : Upstream) : ProxyDone :=
  match proxyTry s keyObj { head := none, ended := false } up with
  | (s1, res1, false) => { state := s1, res := res1, uncaught := false }
  | (s1, res1, true) =>
    let s2 := { s1 with failedKeys := setAdd s1.failedKeys keyObj.key }
    match writeHead res1 502 with
    | none => { state := s2, res := res1, uncaught := true }
    | some res2 => { state := s2, res := { res2 with ended := true }, uncaught := false }

/-! ## The aggregator as a transition system -/

/-- The aggregator's variables together with the keys of the requests that were
forwarded upstream and whose `end` callback has not finished yet. -/
structure AggSystem where
  agg : AggState
  inflight : List KeyRecord
  deriving DecidableEq, Repr

/-- The system when the launcher starts. -/
def AggSystem.init : AggSystem :=
  { agg := AggState.init, inflight := [] }

/-- The steps of the aggregator: a `startAggregator` call with the answer the
account endpoint gave it, a `stopAggregator` call, a `getNextKey` call, the
arrival of a proxied request, and the completion of the `i`-th pending one. -/
inductive AggEvent where
  | start (userToken : String) (userInfo : UserInfo) (resp : AccountResponse)
  | stop
  | nextKey
  | request
  | complete (i : Nat) (up : Upstream)
  deriving DecidableEq, Repr

/-- One step of the aggregator. -/
def AggSystem.step (parseFloat : String → JSNumber) (sys : AggSystem) :
    AggEvent → AggSystem
  | .start userToken userInfo resp =>
    { sys with agg := (startAggregator parseFloat userToken userInfo resp sys.agg).2 }
  | .stop => { sys with agg := (stopAggregator sys.agg).2 }
  | .nextKey => { sys with agg := (getNextKey sys.agg).2 }
  | .request =>
    match handleAggregatorProxy sys.agg with
    | (.rejected _, s1) => { sys with agg := s1 }
    | (.forwarded keyObj, s1) => { agg := s1, inflight := sys.inflight ++ [keyObj] }
  | .complete i up =>
    match sys.inflight[i]? with
    | none => sys
    | some keyObj =>
      { agg := (proxyOnEnd sys.agg keyObj up).state, inflight := sys.inflight.eraseIdx i }

/-- The system after a sequence of steps. -/
def AggSystem.run (parseFloat : String → JSNumber) (sys : AggSystem)
    (evs : List AggEvent) : AggSystem :=
  evs.foldl (AggSystem.step parseFloat) sys

/-- A state the aggregator can be in: the result of some sequence of steps from
the initial state, requests completing at any later time. -/
def AggSystem.Reachable (parseFloat : String → JSNumber) (sys : AggSystem) : Prop :=
  ∃ evs : List AggEvent, AggSystem.run parseFloat AggSystem.init evs = sys

/-- A `startAggregator` or `stopAggregator` step. -/
def AggEvent.isControl : AggEvent → Bool
  | .start _ _ _ => true
  | .stop => true
  | _ => false

/-- The states reached when `startAggregator` and `stopAggregator` only run
while no forwarded request is pending. -/
inductive AggSystem.ReachableQuiescent (parseFloat : String → JSNumber) : AggSystem → Prop where
  | init : AggSystem.ReachableQuiescent parseFloat AggSystem.init
  | step (sys : AggSystem) (ev : AggEvent) :
      AggSystem.ReachableQuiescent parseFloat sys →
      (ev.isControl = true → sys.inflight = []) →
      AggSystem.ReachableQuiescent parseFloat (AggSystem.step parseFloat sys ev)

/-- Every quarantined string is the key of a pool entry. -/
def quarantineWithinPool (s : AggState) : Prop :=
  ∀ k ∈ s.failedKeys, k ∈ s.userApiKeys.map KeyRecord.key

/-- The number written by a list of decimal digits, after the digits `acc`
already read; `none` when a character is not a digit. -/
def digitsValue : List Char → Nat → Option Nat
  | [], acc => some acc
  | c :: cs, acc =>
    if 48 ≤ c.toNat ∧ c.toNat ≤ 57 then digitsValue cs (acc * 10 + (c.toNat - 48)) else none

/-- A `parseFloat` for the examples: a non-empty string of decimal digits is
the number it writes, any other string is `NaN`. -/
def parseFloatDigits (s : String) : JSNumber :=
  match s.data with
  | [] => .nan
  | cs =>
    match digitsValue cs 0 with
    | some n => .fin n 0
    | none => .nan

instance (s : AggState) : Decidable (quarantineWithinPool s) := by
  unfold quarantineWithinPool
  infer_instance

/-- What holds of the aggregator as long as `startAggregator` and
`stopAggregator` only run while no forwarded request is pending: the
quarantine set lies within the pool, so do the keys of the pending requests,
and a stopped aggregator has nothing pending, an empty pool, an empty
quarantine set and no cached account. -/
def AggSystem.quiescentInv (sys : AggSystem) : Prop :=
  quarantineWithinPool sys.agg ∧
    (∀ r ∈ sys.inflight, r ∈ sys.agg.userApiKeys) ∧
    (sys.agg.aggregatorEnabled = false →
      sys.inflight = [] ∧ sys.agg.failedKeys = [] ∧ sys.agg.userApiKeys = [] ∧
        sys.agg.aggregatorUserToken = none ∧ sys.agg.aggregatorUserInfo = none)

/-- The account of the examples. -/
def sampleUser : UserInfo :=
  { userId := some "42", uid := none, userEmail := some "a@b.c", password := some "pw",
    invitationCode := none }

/-- An answer of the account endpoint with one funded key, one empty key and
one key whose balance does not parse. -/
def sampleOrders : List OrderItem :=
  [⟨"k1", "5"⟩, ⟨"k2", "0"⟩, ⟨"k3", "n/a"⟩]

/-- An answer of the account endpoint whose only key has no balance left. -/
def emptyOrders : List OrderItem :=
  [⟨"k9", "0"⟩]

/-- The aggregator after a first `startAggregator` call, made at the start of
the launcher, has got the sample answer. -/
def sampleStarted : AggState :=
  (startAggregatorAnswer parseFloatDigits "token" sampleUser
    (.json 200 (.list sampleOrders)) AggState.init).2

/-- A run in which a forwarded request is still pending when the aggregator is
stopped, and is answered with 429 afterwards. -/
def lateCompletionRun : List AggEvent :=
  [.start "token" sampleUser (.json 200 (.list sampleOrders)), .request, .stop,
    .complete 0 (.response 429 true)]

/-- A run in which a forwarded request is still pending when the aggregator is
stopped, and fails at transport level afterwards. -/
def lateFailureRun : List AggEvent :=
  [.start "token" sampleUser (.json 200 (.list sampleOrders)), .request, .stop,
    .complete 0 .fetchFailed]

/-- The system after a start, a proxied request and its completion with
status 429. -/
def sampleQuarantined : AggSystem :=
  AggSystem.step parseFloatDigits
    (AggSystem.step parseFloatDigits
      (AggSystem.step parseFloatDigits AggSystem.init
        (.start "token" sampleUser (.json 200 (.list sampleOrders))))
      .request)
    (.complete 0 (.response 429 true))

/-- The record `startAggregator` makes of an order whose balance is kept. -/
def OrderItem.toKeyRecord (parseFloat : String → JSNumber) (item : OrderItem) : KeyRecord :=
  { key := item.api_key, balance := parseFloat item.balance }

/-! ## The filesystem -/

/-- A path, as the list of its segments below the root. -/
abbrev Path := List String

/-- What is found at a path: a regular file with its content, or a directory. -/
inductive FsNode where
  | file (content : String)
  | dir
  deriving DecidableEq, Repr

/-- The filesystem tree, as the map from the paths that exist to what is found
there; the first binding of a path is the one that counts. -/
abbrev Fs := List (Path × FsNode)

/-- What is found at `p`, if anything. -/
def Fs.lookup (fs : Fs) (p : Path) : Option FsNode :=
  List.lookup p fs

/-- The filesystem with `node` put at `p`. -/
def Fs.write (fs : Fs) (p : Path) (node : FsNode) : Fs :=
  (p, node) :: fs

/-- The map is a tree: whatever exists lies in a directory. -/
def Fs.WF (fs : Fs) : Prop :=
  ∀ (p : Path) (name : String), (fs.lookup (p ++ [name])).isSome = true → fs.lookup p = some .dir

/-- The errors of the `node:fs` calls, and the `RangeError` of a recursion
deeper than the call stack allows. -/
inductive FsError where
  | enoent
  | enotdir
  | eisdir
  | stackOverflow
  deriving DecidableEq, Repr

/-- The outcome of a filesystem operation: the filesystem afterwards, or the
exception thrown together with the filesystem at that moment. -/
abbrev FsResult := Except (FsError × Fs) Fs

/-- `fs.existsSync(p)`. -/
def existsSync (fs : Fs) (p : Path) : Bool :=
  (fs.lookup p).isSome

/-- Make sure `p` is a directory, creating it when nothing is there. -/
def ensureDir (fs : Fs) (p : Path) : FsResult :=
  match fs.lookup p with
  | some (.file _) => .error (.enotdir, fs)
  | some .dir => .ok fs
  | none => .ok (fs.write p .dir)

/-- Create the directories `base`, `base/r1`, `base/r1/r2`, ... that are missing. -/
def mkdirFrom : Fs → Path → List String → FsResult
  | fs, base, [] => ensureDir fs base
  | fs, base, name :: rest =>
    match ensureDir fs base with
    | .error e => .error e
    | .ok fs1 => mkdirFrom fs1 (base ++ [name]) rest

/-- `fs.mkdirSync(p, (recursive: true))`. -/
def mkdirSync (fs : Fs) (p : Path) : FsResult :=
  mkdirFrom fs [] p

/-- An entry of a directory listing: `entry.name` and `entry.isDirectory()`. -/
structure Dirent where
  name : String
  isDirectory : Bool
  deriving DecidableEq, Repr

/-- The name under which `q` is listed in the directory `p`, if `q` is directly
inside `p`. -/
def childName (p q : Path) : Option String :=
  if q.dropLast = p then q.getLast? else none

/-- The names bound directly inside `p`, each once, in the order of the map. -/
def childNames (fs : Fs) (p : Path) : List String :=
  (fs.filterMap (fun entry => childName p entry.1)).dedup

/-- The listing entry of the name `name` in the directory `p`. -/
def direntOf (fs : Fs) (p : Path) (name : String) : Option Dirent :=
  match fs.lookup (p ++ [name]) with
  | none => none
  | some node => some { name := name, isDirectory := decide (node = .dir) }

/-- `fs.readdirSync(p, (withFileTypes: true))`. -/
def readdirSync (fs : Fs) (p : Path) : Except (FsError × Fs) (List Dirent) :=
  match fs.lookup p with
  | none => .error (.enoent, fs)
  | some (.file _) => .error (.enotdir, fs)
  | some .dir => .ok ((childNames fs p).filterMap (direntOf fs p))

/-- `fs.copyFileSync(src, dest)`. -/
def copyFileSync (fs : Fs) (src dest : Path) : FsResult :=
  match fs.lookup src with
  | none => .error (.enoent, fs)
  | some .dir => .error (.eisdir, fs)
  | some (.file content) =>
    match fs.lookup dest with
    | some .dir => .error (.eisdir, fs)
    | _ =>
      match fs.lookup dest.dropLast with
      | some .dir => .ok (fs.write dest (.file content))
      | some (.file _) => .error (.enotdir, fs)
      | none => .error (.enoent, fs)

/-- The loop `for (const entry of entries)` of `copyDirSync`, with `copyDir`
standing for the recursive call. -/
def copyEntries (copyDir : Fs → Path → Path → FsResult) :
    Fs → Path → Path → List Dirent → FsResult
  | fs, _, _, [] => .ok fs
  | fs, src, dest, entry :: rest =>
    let step :=
      if entry.isDirectory then copyDir fs (src ++ [entry.name]) (dest ++ [entry.name])
      else copyFileSync fs (src ++ [entry.name]) (dest ++ [entry.name])
    match step with
    | .error e => .error e
    | .ok fs1 => copyEntries copyDir fs1 src dest rest

/-- `copyDirSync(src, dest)`, with the depth of recursion the call stack still
allows. -/
def copyDirSync : Nat → Fs → Path → Path → FsResult
  | 0, fs, _, _ => .error (.stackOverflow, fs)
  | depth + 1, fs, src, dest =>
    if !existsSync fs src then .ok fs
    else
      let made := if !existsSync fs dest then mkdirSync fs dest else .ok fs
      match made with
      | .error e => .error e
      | .ok fs1 =>
        match readdirSync fs1 src with
        | .error e => .error e
        | .ok entries => copyEntries (copyDirSync depth) fs1 src dest entries

/-- What a copy from `src` to `dest` that turned `fs` into `fs1` has done: the
tree is still a tree; outside `dest` nothing changed but for missing ancestors
of `dest`, now directories; every file below `src` is a file with the same
content at the same relative path below `dest`; every directory below `src`
is a directory at the same relative path below `dest`, unless it is empty and a
regular file was and is at that path. -/
def CopyPost (fs fs1 : Fs) (src dest : Path) : Prop :=
  fs1.WF ∧
    (∀ q : Path, ¬ dest <+: q →
      fs1.lookup q = fs.lookup q ∨
        (fs.lookup q = none ∧ q <+: dest ∧ fs1.lookup q = some .dir)) ∧
    (∀ (p : Path) (content : String), fs.lookup (src ++ p) = some (.file content) →
      fs1.lookup (dest ++ p) = some (.file content)) ∧
    (∀ p : Path, fs.lookup (src ++ p) = some .dir →
      fs1.lookup (dest ++ p) = some .dir ∨
        ∃ content, fs.lookup (dest ++ p) = some (.file content) ∧
          fs1.lookup (dest ++ p) = some (.file content) ∧
          ∀ name, fs.lookup (src ++ p ++ [name]) = none)

/-- What holds in the loop of `copyDirSync` from `src` to `dest`, started in
`fs1`, when the entries named in `done` have been copied and the filesystem is
`cur`. -/
def CopyLoopInv (fs1 cur : Fs) (src dest : Path) (done : List String) : Prop :=
  cur.WF ∧
    (∀ q : Path, (∀ name ∈ done, ¬ (dest ++ [name]) <+: q) → cur.lookup q = fs1.lookup q) ∧
    (∀ name ∈ done,
      (∀ (p : Path) (content : String),
        fs1.lookup (src ++ [name] ++ p) = some (.file content) →
          cur.lookup (dest ++ [name] ++ p) = some (.file content)) ∧
      (∀ p : Path, fs1.lookup (src ++ [name] ++ p) = some .dir →
        cur.lookup (dest ++ [name] ++ p) = some .dir ∨
          ∃ content, fs1.lookup (dest ++ [name] ++ p) = some (.file content) ∧
            cur.lookup (dest ++ [name] ++ p) = some (.file content) ∧
            ∀ child, fs1.lookup (src ++ [name] ++ p ++ [child]) = none))

/-! ## Versions and the switch between them -/

/-- The keys of `AVAILABLE_VERSIONS`. -/
def availableVersionIds : List String :=
  ["1.14.0", "1.13.5", "1.13.4", "1.12.14"]

/-- The property names every object literal inherits from `Object.prototype`;
`AVAILABLE_VERSIONS[name]` is a (truthy) function or object for each of them. -/
def objectPrototypeKeys : List String :=
  ["constructor", "__proto__", "hasOwnProperty", "isPrototypeOf", "propertyIsEnumerable",
    "toLocaleString", "toString", "valueOf", "__defineGetter__", "__defineSetter__",
    "__lookupGetter__", "__lookupSetter__"]

/-- Truthiness of `AVAILABLE_VERSIONS[version]`. -/
def hasAvailableVersion (version : String) : Bool :=
  availableVersionIds.contains version || objectPrototypeKeys.contains version

/-- `s.startsWith(start)`. -/
def jsStartsWith (s start : String) : Bool :=
  start.data.isPrefixOf s.data

/-- The segments between the slashes of a string; `cur` holds the characters of
the segment being read, last one first. -/
def splitSlash : List Char → List Char → List String
  | [], cur => [String.mk cur.reverse]
  | c :: cs, cur =>
    if c = '/' then String.mk cur.reverse :: splitSlash cs [] else splitSlash cs (c :: cur)

/-- `path.join(base, rel)`: the segments of `rel` are appended to `base`, empty
segments and `.` are dropped and `..` removes the segment before it. -/
def pathJoin (base : Path) (rel : String) : Path :=
  (splitSlash rel.data []).foldl
    (fun acc seg =>
      if seg = "" ∨ seg = "." then acc
      else if seg = ".." then acc.dropLast
      else acc ++ [seg])
    base

/-- A value of `localInstallations`: a discovered installation. -/
structure LocalInstall where
  name : String
  path : Path
  version : String
  deriving DecidableEq, Repr

/-- The persisted configuration record. -/
structure LauncherConfig where
  activeVersion : Option String
  speedOptimization : Bool
  apiAggregation : Bool
  deriving DecidableEq, Repr

/-- What the version manager works on: the filesystem tree, the configuration
stored in `CONFIG_FILE` (`none` when the file is missing or does not parse;
the file lies in the launcher's own directory, outside the tree of versions),
whether that file can be written, and the map `localInstallations`. -/
structure World where
  fs : Fs
  configFile : Option LauncherConfig
  configWritable : Bool
  localInstallations : List (String × LocalInstall)
  deriving DecidableEq, Repr

/-- `VERSIONS_DIR`, for the home directory `homeDir`. -/
def versionsDir (homeDir : Path) : Path :=
  homeDir ++ ["st-versions"]

/-- `loadConfig()`, for a CONFIG_FILE that is missing, does not parse or holds
a record; for the JSON value `null` see `LoadedConfig`. -/
def loadConfig (w : World) : LauncherConfig :=
  match w.configFile with
  | some config => config
  | none => { activeVersion := none, speedOptimization := false, apiAggregation := false }

/-- `saveConfig(config)`: a failing write is only reported on the console. -/
def saveConfig (w : World) (config : LauncherConfig) : World :=
  if w.configWritable then { w with configFile := some config } else w

/-- `getVersionPath(version)`. -/
def getVersionPath (homeDir : Path) (w : World) (version : String) : Path :=
  if jsStartsWith version "local_" then
    match w.localInstallations.lookup version with
    | some info => info.path
    | none => pathJoin (versionsDir homeDir) version
  else pathJoin (versionsDir homeDir) version

/-- `isVersionInstalled(version)`. -/
def isVersionInstalled (homeDir : Path) (w : World) (version : String) : Bool :=
  let installedAt (p : Path) : Bool := existsSync w.fs p && existsSync w.fs (p ++ ["node_modules"])
  if jsStartsWith version "local_" then
    match w.localInstallations.lookup version with
    | some info => installedAt info.path
    | none => installedAt (getVersionPath homeDir w version)
  else installedAt (getVersionPath homeDir w version)

/-- Truthiness of a string that may be `null`. -/
def truthyString : Option String → Bool
  | none => false
  | some s => s ≠ ""

/-- `switchVersion(version)`, with the depth of recursion the call stack allows
to `copyDirSync`. When the copy throws, the filesystem is left as it was at
that moment; the text of the error is left out of the message. -/
def switchVersion (homeDir : Path) (depth : Nat) (version : String) (w : World) :
    Result × World :=
  let isLocal := jsStartsWith version "local_"
  if !isLocal && !hasAvailableVersion version then
    ({ success := false, message := "未知版本" }, w)
  else if isLocal && (w.localInstallations.lookup version).isNone then
    ({ success := false, message := "本地安装不存在" }, w)
  else if !isVersionInstalled homeDir w version then
    ({ success := false, message := "版本未安装，请先安装" }, w)
  else
    let config := loadConfig w
    let oldVersion := config.activeVersion
    let migrated : FsResult :=
      if truthyString oldVersion && decide (oldVersion ≠ some version) && !isLocal then
        let oldDataPath := getVersionPath homeDir w (oldVersion.getD "") ++ ["data"]
        let newDataPath := getVersionPath homeDir w version ++ ["data"]
        if existsSync w.fs oldDataPath then copyDirSync depth w.fs oldDataPath newDataPath
        else .ok w.fs
      else .ok w.fs
    match migrated with
    | .error e =>
      ({ success := false, message := "数据迁移失败" }, { w with fs := e.2 })
    | .ok fs1 =>
      ({ success := true, message := "已切换到 " ++ version ++ "，数据已同步" },
        saveConfig { w with fs := fs1 } { config with activeVersion := some version })

/-- The filesystem a completed operation leaves, `none` when it threw. -/
def completed : FsResult → Option Fs
  | .ok fs => some fs
  | .error _ => none

/-- A check of `Fs.WF` that can be run: every binding other than the root's has
a directory as parent. -/
def Fs.wfCheck (fs : Fs) : Bool :=
  fs.all (fun entry => decide (entry.1 = []) || decide (fs.lookup entry.1.dropLast = some .dir))

/-- A tree in which the destination `a` of a copy contains its source `a/b`. -/
def overlapFs : Fs :=
  [([], .dir), (["a"], .dir), (["a", "b"], .dir), (["a", "b", "b"], .dir),
    (["a", "b", "f"], .file "1"), (["a", "b", "b", "f"], .file "2"),
    (["a", "b", "b", "g"], .file "3")]

/-- A tree in which the source `s` has an empty directory `sub` and the
destination `d` a regular file `sub`. -/
def collisionFs : Fs :=
  [([], .dir), (["s"], .dir), (["s", "sub"], .dir), (["d"], .dir), (["d", "sub"], .file "x")]

/-- A tree with a source `s` holding a file and a directory with a file, and no
destination yet. -/
def sampleFs : Fs :=
  [([], .dir), (["s"], .dir), (["s", "f"], .file "1"), (["s", "sub"], .dir),
    (["s", "sub", "g"], .file "2")]

/-- A home directory with version 1.13.5 installed and active, holding one data
file, and version 1.14.0 cloned but without its dependencies. -/
def sampleWorld : World :=
  { fs :=
      [([], .dir), (["home"], .dir), (["home", "st-versions"], .dir),
        (["home", "st-versions", "1.13.5"], .dir),
        (["home", "st-versions", "1.13.5", "node_modules"], .dir),
        (["home", "st-versions", "1.13.5", "data"], .dir),
        (["home", "st-versions", "1.13.5", "data", "chat"], .file "hello"),
        (["home", "st-versions", "1.14.0"], .dir)]
    configFile := some { activeVersion := some "1.13.5", speedOptimization := false,
                         apiAggregation := false }
    configWritable := true
    localInstallations := [] }

/-- The sample home directory once the dependencies of 1.14.0 are installed. -/
def sampleWorldInstalled : World :=
  { sampleWorld with
    fs := (["home", "st-versions", "1.14.0", "node_modules"], .dir) :: sampleWorld.fs }

/-- The sample tree after `s` has been copied to `d`. -/
def sampleFsCopied : Fs :=
  [(["d", "sub", "g"], .file "2"), (["d", "sub"], .dir), (["d", "f"], .file "1"),
    (["d"], .dir), ([], .dir), (["s"], .dir), (["s", "f"], .file "1"), (["s", "sub"], .dir),
    (["s", "sub", "g"], .file "2")]

/-! ## The log buffer -/

/-- An entry of `serverLogs`. -/
structure LogEntry where
  timestamp : String
  message : String
  type : String
  deriving DecidableEq, Repr

/-- The capacity of the log buffer. -/
def MAX_LOGS : Nat := 500

/-- `addLog(message, type)`, the entry being made of the message, its type and
the time of the call: the entry is pushed, and the oldest entry is shifted out
when the buffer is longer than `MAX_LOGS`. -/
def addLog (serverLogs : List LogEntry) (entry : LogEntry) : List LogEntry :=
  let pushed := serverLogs ++ [entry]
  if pushed.length > MAX_LOGS then pushed.tail else pushed

/-- The buffer after a sequence of `addLog` calls. -/
def addLogs (serverLogs : List LogEntry) (entries : List LogEntry) : List LogEntry :=
  entries.foldl addLog serverLogs

/-! ## Discovery and listing of installations -/

/-- `isSillyTavernDir(dir)`. The parameter `manifestName` is
`JSON.parse(content).name`: `none` when parsing or reading the property throws,
`some none` when the name is not a string. Every exception is caught and
yields `false`. -/
def isSillyTavernDir (manifestName : String → Option (Option String)) (fs : Fs)
    (dir : Path) : Bool :=
  let packagePath := dir ++ ["package.json"]
  let serverPath := dir ++ ["server.js"]
  if existsSync fs packagePath && existsSync fs serverPath then
    match fs.lookup packagePath with
    | some (.file content) =>
      match manifestName content with
      | some (some name) => decide (name = "sillytavern") || decide (name = "SillyTavern")
      | _ => false
    | _ => false
  else false

/-- Equality of two strings when the case of their letters is ignored. -/
def eqIgnoreCase (a b : String) : Bool :=
  a.data.map Char.toLower == b.data.map Char.toLower

/-- The table `AVAILABLE_VERSIONS`: key, name and default flag. -/
def availableVersionInfo : List (String × String × Bool) :=
  [("1.14.0", "v1.14.0 (最新版)", false), ("1.13.5", "v1.13.5 (稳定版)", true),
    ("1.13.4", "v1.13.4", false), ("1.12.14", "v1.12.14 (经典版)", false)]

/-- An element of the list `getVersionsList()` returns. -/
structure VersionEntry where
  version : String
  name : String
  installed : Bool
  active : Bool
  default : Bool
  isLocal : Bool
  path : Option Path
  deriving DecidableEq, Repr

/-- `getVersionsList()`: the discovered installations first, then the table. -/
def getVersionsList (homeDir : Path) (w : World) : List VersionEntry :=
  let config := loadConfig w
  w.localInstallations.map (fun entry =>
      ({ version := entry.1, name := entry.2.name, installed := true,
         active := decide (config.activeVersion = some entry.1), default := false,
         isLocal := true, path := some entry.2.path } : VersionEntry)) ++
    availableVersionInfo.map (fun entry =>
      ({ version := entry.1, name := entry.2.1,
         installed := isVersionInstalled homeDir w entry.1,
         active := decide (config.activeVersion = some entry.1), default := entry.2.2,
         isLocal := false, path := none } : VersionEntry))

/-- `fs.rmSync(p, (recursive: true, force: true))`: `p` and all below it go. -/
def rmSync (fs : Fs) (p : Path) : Fs :=
  fs.filter (fun entry => !(p.isPrefixOf entry.1))

/-- The value `loadConfig()` hands to its caller, which is whatever
`JSON.parse` made of CONFIG_FILE: the JSON value `null`, on which reading
`config.activeVersion` throws a `TypeError`, or a value whose properties can
be read, taken as a record (one without a string `activeVersion` being a
record whose `activeVersion` is `none`). -/
inductive LoadedConfig where
  | null
  | record (config : LauncherConfig)
  deriving DecidableEq, Repr

/-- How a call of `uninstallVersion` ends: it returns a result, or it throws,
in both cases leaving a state. -/
inductive UninstallOutcome where
  | returned (result : Result) (w : World)
  | threw (w : World)
  deriving DecidableEq, Repr

/-- The state a call of `uninstallVersion` leaves. -/
def UninstallOutcome.world : UninstallOutcome → World
  | .returned _ w => w
  | .threw w => w

/-- The result a call of `uninstallVersion` returns, `none` when it throws. -/
def UninstallOutcome.result : UninstallOutcome → Option Result
  | .returned result _ => some result
  | .threw _ => none

/-- `uninstallVersion(version)`, `sillyTavernProcess` being the handle of the
managed child, if there is one, and `config` the value `loadConfig()` returns
to the call. The comparison `config.activeVersion === version` is outside any
`try`, so its `TypeError` leaves the function. In the tree, which has no
permissions, `rmSync` with `force` does not throw. -/
def uninstallVersion (homeDir : Path) (sillyTavernProcess : Option Nat) (version : String)
    (config : LoadedConfig) (w : World) : UninstallOutcome :=
  if !hasAvailableVersion version then
    .returned { success := false, message := "未知版本" } w
  else
    let versionPath := getVersionPath homeDir w version
    if !existsSync w.fs versionPath then
      .returned { success := false, message := "版本未安装" } w
    else
      match config with
      | .null => .threw w
      | .record config =>
        if decide (config.activeVersion = some version) then
          .returned { success := false, message := "无法卸载当前使用的版本，请先切换到其他版本" } w
        else if sillyTavernProcess.isSome then
          .returned { success := false, message := "请先停止服务再卸载" } w
        else
          .returned { success := true, message := "卸载成功" }
            { w with fs := rmSync w.fs versionPath }

/-- A toy manifest reader for the examples: the content of the file is the
package name, and an empty file does not parse. -/
def sampleManifestName (content : String) : Option (Option String) :=
  if content = "" then none else some (some content)

/-- A directory `home/ST` whose manifest names the package `SILLYTAVERN`. -/
def upperCaseFs : Fs :=
  [([], .dir), (["home"], .dir), (["home", "ST"], .dir),
    (["home", "ST", "package.json"], .file "SILLYTAVERN"),
    (["home", "ST", "server.js"], .file "")]

/-- A directory `home/ST` whose manifest names the package `SillyTavern`. -/
def properCaseFs : Fs :=
  [([], .dir), (["home"], .dir), (["home", "ST"], .dir),
    (["home", "ST", "package.json"], .file "SillyTavern"),
    (["home", "ST", "server.js"], .file "")]

/-- A home directory with a discovered installation `home/ST` that has its
manifest and entry point but no `node_modules`, active, with data, and with
version 1.14.0 installed. -/
def localWorld : World :=
  { fs :=
      [([], .dir), (["home"], .dir), (["home", "ST"], .dir),
        (["home", "ST", "package.json"], .file "SillyTavern"),
        (["home", "ST", "server.js"], .file ""),
        (["home", "ST", "data"], .dir),
        (["home", "ST", "data", "chat"], .file "hello"),
        (["home", "st-versions"], .dir),
        (["home", "st-versions", "1.14.0"], .dir),
        (["home", "st-versions", "1.14.0", "node_modules"], .dir)]
    configFile := some { activeVersion := some "local_ST", speedOptimization := false,
                         apiAggregation := false }
    configWritable := true
    localInstallations :=
      [("local_ST", { name := "ST", path := ["home", "ST"], version := "1.13.5" })] }

/-! ## Starting the server: before the spawn -/

/-- What `startServer` does to the world outside, in order: a liveness probe
(`checkServerStatus`), a port reclamation (`killPort`), a delay, the spawn of
the child in a directory. -/
inductive StartAction where
  | probe
  | killPort
  | wait (ms : Nat)
  | spawn (cwd : Path)
  deriving DecidableEq, Repr

/-- How `startServer` leaves its part before the readiness polling: it returns
a result, or it has spawned the child in `cwd`. -/
inductive StartPrelude where
  | returned (result : Result)
  | spawned (cwd : Path)
  deriving DecidableEq, Repr

/-- `config.activeVersion || '1.13.5'`. -/
def versionToStart (w : World) : String :=
  match (loadConfig w).activeVersion with
  | some v => if v = "" then "1.13.5" else v
  | none => "1.13.5"

/-- The part of `startServer` from the check of the installation on, `acts`
being what the call has done so far. -/
def startServerSpawn (homeDir : Path) (w : World) (acts : List StartAction) :
    StartPrelude × List StartAction :=
  let version := versionToStart w
  let versionPath := getVersionPath homeDir w version
  if !isVersionInstalled homeDir w version then
    (.returned { success := false, message := "版本 " ++ version ++ " 未安装，请先在设置中安装" },
      acts)
  else
    (.spawned versionPath, acts ++ [.killPort, .wait 500, .spawn versionPath])

/-- `startServer()` up to the spawn, `answers i` being the answer to the `i`-th
probe the call makes, counted from 0: how it ends, and what it did. -/
def startServerPrelude (homeDir : Path) (w : World) (sillyTavernProcess : Option Nat)
    (answers : Nat → Bool) : StartPrelude × List StartAction :=
  if sillyTavernProcess.isSome then
    (.returned { success := false, message := "服务器已在运行中" }, [])
  else if answers 0 then
    if answers 1 then
      (.returned { success := false, message := "服务器已在运行中，无法自动清理端口" },
        [.probe, .killPort, .wait 1000, .probe])
    else startServerSpawn homeDir w [.probe, .killPort, .wait 1000, .probe]
  else startServerSpawn homeDir w [.probe]

/-- The number of probes among the actions. -/
def probeCount (acts : List StartAction) : Nat :=
  acts.count .probe

/-! ## Starting the server: the readiness polling -/

/-- The bound `maxAttempts` of the polling. -/
def maxAttempts : Nat := 120

/-- The state of a `startServer` call after the spawn: the handle, the counter
`attempts`, whether the interval timer is still set, the numbers of the probes
issued and not yet answered, and what the promise resolved with, if it did. -/
structure StartPoll where
  sillyTavernProcess : Option Nat
  attempts : Nat
  intervalActive : Bool
  pending : List Nat
  resolved : Option Result
  deriving DecidableEq, Repr

/-- The state right after the spawn of `child`. -/
def StartPoll.spawned (child : Nat) : StartPoll :=
  { sillyTavernProcess := some child, attempts := 0, intervalActive := true, pending := [],
    resolved := none }

/-- The state of a polling that has made `n` probes, all answered, and has not
resolved. -/
def StartPoll.polling (handle : Option Nat) (n : Nat) : StartPoll :=
  { sillyTavernProcess := handle, attempts := n, intervalActive := true, pending := [],
    resolved := none }

/-- `resolve(result)`: only the first call settles the promise. -/
def StartPoll.resolve (s : StartPoll) (result : Result) : StartPoll :=
  match s.resolved with
  | none => { s with resolved := some result }
  | some _ => s

/-- What happens during the polling: the interval timer fires, the probe issued
by the `k`-th firing is answered, the handle is cleared by the exit of the
child (or by a stop), the spawn reports an error. -/
inductive PollEvent where
  | tick
  | answer (k : Nat) (isRunning : Bool)
  | childExit
  | spawnError (message : String)
  deriving DecidableEq, Repr

/-- One step of the polling. A firing of the timer increments `attempts` and
issues a probe, whether or not earlier probes have been answered; the answer
to a probe is handled with the value `attempts` has by then. -/
def StartPoll.step (s : StartPoll) : PollEvent → StartPoll
  | .tick =>
    if s.intervalActive then
      { s with attempts := s.attempts + 1, pending := s.pending ++ [s.attempts + 1] }
    else s
  | .answer k isRunning =>
    if s.pending.contains k then
      let s1 := { s with pending := s.pending.erase k }
      if isRunning then
        ({ s1 with intervalActive := false }).resolve { success := true, message := "启动成功" }
      else if s1.attempts ≥ maxAttempts then
        if s1.sillyTavernProcess.isSome then
          ({ s1 with intervalActive := false }).resolve
            { success := true, message := "启动成功（初始化中）" }
        else
          ({ s1 with intervalActive := false }).resolve
            { success := false, message := "启动失败，请检查日志" }
      else s1
    else s
  | .childExit => { s with sillyTavernProcess := none }
  | .spawnError message =>
    ({ s with sillyTavernProcess := none }).resolve
      { success := false, message := "启动失败: " ++ message }

/-- The polling after a sequence of events. -/
def StartPoll.run (s : StartPoll) (evs : List PollEvent) : StartPoll :=
  evs.foldl StartPoll.step s

/-- One round of a polling in which every probe is answered before the timer
fires again: the timer fires, the child exits now if `exitsNow`, and the probe
just issued is answered with `isRunning`. -/
def StartPoll.round (s : StartPoll) (exitsNow isRunning : Bool) : StartPoll :=
  let s1 := s.step .tick
  let s2 := if exitsNow then s1.step .childExit else s1
  s2.step (.answer s1.attempts isRunning)

/-- The polling after `n` such rounds, `answers i` being the answer to the
`i`-th probe and `exits i` telling whether the child exits before that answer,
for `i = 1, 2, ...`. -/
def StartPoll.sequential (answers exits : Nat → Bool) : Nat → StartPoll → StartPoll
  | 0, s => s
  | n + 1, s =>
    (StartPoll.sequential answers exits n s).round (exits (n + 1)) (answers (n + 1))

/-- Whether the child has exited before the answer to one of the first `n`
probes. -/
def exitedBy (exits : Nat → Bool) (n : Nat) : Bool :=
  (List.range n).any (fun i => exits (i + 1))

/-- The events of `n` rounds in which every probe is answered at once by
`false`. -/
def failingRounds (n : Nat) : List PollEvent :=
  (List.range n).flatMap (fun i => [.tick, .answer (i + 1) false])

/-- What a whole `startServer()` call gives when nothing else runs in between
and every probe is answered before the next one: the result the promise
resolved with (`none` if it never did), the handle afterwards, what the call
did before polling and the number of probes it made in all. -/
structure StartOutcome where
  result : Option Result
  sillyTavernProcess : Option Nat
  actions : List StartAction
  probes : Nat
  deriving DecidableEq, Repr

/-- `startServer()`, run on its own: `answers` are the answers to its probes,
counted from 0 across the whole call, `exits i` tells whether the child exits
before the answer to the `i`-th probe of the polling, and `child` names the
child it spawns. -/
def startServer (homeDir : Path) (w : World) (sillyTavernProcess : Option Nat) (child : Nat)
    (answers exits : Nat → Bool) : StartOutcome :=
  match startServerPrelude homeDir w sillyTavernProcess answers with
  | (.returned result, acts) =>
    { result := some result, sillyTavernProcess := sillyTavernProcess, actions := acts,
      probes := probeCount acts }
  | (.spawned _, acts) =>
    let polled := StartPoll.sequential (fun i => answers (probeCount acts + i - 1)) exits
      maxAttempts (StartPoll.spawned child)
    { result := polled.resolved, sillyTavernProcess := polled.sillyTavernProcess,
      actions := acts, probes := probeCount acts + polled.attempts }

/-- The answers to the probes of a call that finds the port free at once, made
from the answers of a call whose first probe found it occupied and whose
second probe found it free. -/
def freePortAnswers (answers : Nat → Bool) : Nat → Bool :=
  fun i => if i = 0 then false else answers (i + 1)

/-- Whether, in the events `evs` met in the state `s`, no probe stays
unanswered over `k` or more later firings of the timer: whenever the timer
fires while it is set, every probe still pending is one of the last `k`
issued. -/
def StartPoll.timely (k : Nat) : StartPoll → List PollEvent → Bool
  | _, [] => true
  | s, ev :: evs =>
    (match ev with
      | .tick => !s.intervalActive || s.pending.all (fun p => decide (s.attempts < p + k))
      | _ => true) && StartPoll.timely k (s.step ev) evs

/-- The polling after the first `n` events of the unending sequence `sched`. -/
def StartPoll.after (s : StartPoll) (sched : Nat → PollEvent) : Nat → StartPoll
  | 0 => s
  | n + 1 => (StartPoll.after s sched n).step (sched n)

/-- What every step of the polling keeps true: while the timer is set, the
probe issued by its `maxAttempts`-th firing, once issued, is still pending;
and the timer is cleared only together with a `resolve`. -/
def StartPoll.inv (s : StartPoll) : Prop :=
  (s.intervalActive = true → maxAttempts ≤ s.attempts → maxAttempts ∈ s.pending) ∧
    (s.intervalActive = false → s.resolved.isSome = true)

/-- An unending sequence of events: the timer fires at every even position,
and at every odd position the probe of the `maxAttempts`-th firing, if it is
pending, is answered with `false`. -/
def sampleSchedule : Nat → PollEvent :=
  fun m => if m % 2 = 0 then .tick else .answer maxAttempts false

/-! ## The supervisor as a transition system -/

/-- The signals `stopServer` sends. -/
inductive Signal where
  | SIGTERM
  | SIGKILL
  deriving DecidableEq, Repr

/-- The supervisor and the processes around it: the handle
`sillyTavernProcess`, the children spawned that have not exited, the number of
`startServer` calls that have passed the check of the handle and not yet
spawned or returned, the grace timers of the `stopServer` calls that are still
set, each with the child its call was asked to stop, the signals sent so far,
and the number of children spawned so far. -/
structure Supervisor where
  sillyTavernProcess : Option Nat
  alive : List Nat
  startsPending : Nat
  graceTimers : List Nat
  signals : List (Signal × Nat)
  spawnCount : Nat
  deriving DecidableEq, Repr

/-- The supervisor when the launcher starts. -/
def Supervisor.init : Supervisor :=
  { sillyTavernProcess := none, alive := [], startsPending := 0, graceTimers := [],
    signals := [], spawnCount := 0 }

/-- The steps of the supervisor: `startServer()` is called; a call past its
check returns without spawning; a call past its check spawns its child; the
exit of a child is observed; `stopServer()` is called; the grace timer of the
`i`-th pending stop fires. -/
inductive SupEvent where
  | startCall
  | startGivesUp
  | startSpawns
  | childExit (child : Nat)
  | stopCall
  | graceTimeout (i : Nat)
  deriving DecidableEq, Repr

/-- One step of the supervisor. The `exit` handlers set the handle to `null`
whatever it holds; the grace timer looks at the handle as it is when it fires,
kills the child it holds then and sets it to `null`. -/
def Supervisor.step (s : Supervisor) : SupEvent → Supervisor
  | .startCall =>
    if s.sillyTavernProcess.isSome then s
    else { s with startsPending := s.startsPending + 1 }
  | .startGivesUp => { s with startsPending := s.startsPending - 1 }
  | .startSpawns =>
    if s.startsPending = 0 then s
    else
      { s with
        startsPending := s.startsPending - 1
        sillyTavernProcess := some s.spawnCount
        alive := s.alive ++ [s.spawnCount]
        spawnCount := s.spawnCount + 1 }
  | .childExit child =>
    if s.alive.contains child then
      { s with alive := s.alive.erase child, sillyTavernProcess := none }
    else s
  | .stopCall =>
    match s.sillyTavernProcess with
    | none => s
    | some child =>
      { s with signals := s.signals ++ [(.SIGTERM, child)],
               graceTimers := s.graceTimers ++ [child] }
  | .graceTimeout i =>
    match s.graceTimers[i]? with
    | none => s
    | some _ =>
      let s1 := { s with graceTimers := s.graceTimers.eraseIdx i }
      match s1.sillyTavernProcess with
      | none => s1
      | some held =>
        { s1 with signals := s1.signals ++ [(.SIGKILL, held)], sillyTavernProcess := none }

/-- The supervisor after a sequence of steps. -/
def Supervisor.run (s : Supervisor) (evs : List SupEvent) : Supervisor :=
  evs.foldl Supervisor.step s

/-- The states reached when a `startServer()` call is only made while no other
call is between its check and its spawn and, if no handle is held, while no
child spawned earlier is still alive. -/
inductive Supervisor.ReachableSerial : Supervisor → Prop where
  | init : Supervisor.ReachableSerial Supervisor.init
  | step (s : Supervisor) (ev : SupEvent) :
      Supervisor.ReachableSerial s →
      (ev = .startCall →
        s.startsPending = 0 ∧ (s.sillyTavernProcess = none → s.alive = [])) →
      Supervisor.ReachableSerial (s.step ev)

/-- What holds of the supervisor when `startServer()` calls are made one at a
time and after the exit of the children spawned before: at most one child is
alive, at most one call is between its check and its spawn, and such a call
finds no child alive and no handle. -/
def Supervisor.serialInv (s : Supervisor) : Prop :=
  s.alive.length ≤ 1 ∧ s.startsPending ≤ 1 ∧
    (s.startsPending = 1 → s.alive = [] ∧ s.sillyTavernProcess = none)

/-- Two `startServer()` calls, the second made before the first has spawned. -/
def overlappingStarts : List SupEvent :=
  [.startCall, .startCall, .startSpawns, .startSpawns]

/-- A restart: the server is started, stopped, its child exits within the grace
window, the server is started again, and the grace timer of the stop fires. -/
def restartRun : List SupEvent :=
  [.startCall, .startSpawns, .stopCall, .childExit 0, .startCall, .startSpawns,
    .graceTimeout 0]

/-! ## Sample states -/

/-- A pool of three keys, nothing quarantined, the cursor at its start value. -/
def sampleFresh : AggState :=
  { AggState.init with
    aggregatorEnabled := true
    userApiKeys := [⟨"k1", .fin 5 0⟩, ⟨"k2", .fin 3 0⟩, ⟨"k3", .fin 1 0⟩] }

/-- A pool of two keys, both quarantined, with a cursor left at 5. -/
def sampleAllFailed : AggState :=
  { AggState.init with
    aggregatorEnabled := true
    userApiKeys := [⟨"k1", .fin 5 0⟩, ⟨"k2", .fin 3 0⟩]
    currentKeyIndex := 5
    failedKeys := ["k2", "k1"] }

/-- A pool of three keys, the second one quarantined, with a cursor left at 7. -/
def sampleOneFailed : AggState :=
  { AggState.init with
    aggregatorEnabled := true
    userApiKeys := [⟨"k1", .fin 5 0⟩, ⟨"k2", .fin 3 0⟩, ⟨"k3", .fin 1 0⟩]
    currentKeyIndex := 7
    failedKeys := ["k2"] }

/-! ## Theorems -/

theorem availableKeys_of_no_failed (s : AggState) (hq : s.failedKeys = []) :
    availableKeys s = s.userApiKeys := by
  simp [availableKeys, setHas, hq]

theorem getNextKey_of_no_failed (s : AggState) (hq : s.failedKeys = [])
    (hpool : s.userApiKeys ≠ []) :
    getNextKey s =
      (s.userApiKeys[(s.currentKeyIndex + 1) % s.userApiKeys.length]?,
        { s with currentKeyIndex := (s.currentKeyIndex + 1) % s.userApiKeys.length }) := by
  have hlen : s.userApiKeys.length ≠ 0 := by
    simpa [List.length_eq_zero] using hpool
  simp [getNextKey, availableKeys_of_no_failed s hq, hlen]

theorem getNextKeyTimes_of_no_failed (n : Nat) :
    ∀ s : AggState, s.failedKeys = [] → s.userApiKeys ≠ [] →
      (getNextKeyTimes n s).1 =
          (List.range n).map
            (fun i => s.userApiKeys[(s.currentKeyIndex + 1 + i) % s.userApiKeys.length]?) ∧
        (getNextKeyTimes n s).2 =
          if n = 0 then s
          else { s with currentKeyIndex := (s.currentKeyIndex + n) % s.userApiKeys.length } := by
  induction n with
  | zero => intro s _ _; simp [getNextKeyTimes]
  | succ n ih =>
    intro s hq hpool
    have hK : 0 < s.userApiKeys.length := List.length_pos.mpr hpool
    have h1 := getNextKey_of_no_failed s hq hpool
    obtain ⟨ihl, ihs⟩ := ih (getNextKey s).2 (by rw [h1]; exact hq) (by rw [h1]; exact hpool)
    constructor
    · simp only [getNextKeyTimes, ihl, List.range_succ_eq_map, List.map_cons, List.map_map]
      rw [h1]
      simp only [Nat.add_zero, List.cons.injEq, true_and]
      apply List.map_congr_left
      intro i _
      simp only [Function.comp, Nat.succ_eq_add_one]
      congr 1
      rw [Nat.add_assoc, Nat.mod_add_mod]
      congr 1
      omega
    · simp only [getNextKeyTimes, ihs]
      rw [h1]
      by_cases hn : n = 0
      · simp [hn]
      · simp only [hn, if_false, Nat.succ_ne_zero]
        congr 1
        rw [Nat.mod_add_mod]
        congr 1
        omega

theorem div_add_ceil (K N : Nat) (hK : 0 < K) :
    (N + K - 1) / K = N / K + if N % K = 0 then 0 else 1 := by
  have h1 : N + K - 1 = N + (K - 1) := by omega
  rw [h1, Nat.add_div hK]
  have h2 : (K - 1) / K = 0 := Nat.div_eq_of_lt (by omega)
  have h3 : (K - 1) % K = K - 1 := Nat.mod_eq_of_lt (by omega)
  have h4 := Nat.mod_lt N hK
  rw [h2, h3]
  split_ifs <;> omega

theorem residueBelow_succ (K j B : Nat) (hK : 0 < K) (hj : j < K) :
    residueBelow K j (B + 1) = residueBelow K j B + if B % K = j then 1 else 0 := by
  unfold residueBelow
  have hr := Nat.mod_lt B hK
  have hB := Nat.div_add_mod B K
  by_cases hlast : B % K + 1 = K
  · have h := (@Nat.div_mod_unique (B + 1) K 0 (B / K + 1) hK).mpr
      ⟨by rw [Nat.mul_add]; omega, hK⟩
    rw [h.1, h.2]
    split_ifs <;> omega
  · have h := (@Nat.div_mod_unique (B + 1) K (B % K + 1) (B / K) hK).mpr
      ⟨by omega, by omega⟩
    rw [h.1, h.2]
    split_ifs <;> omega

theorem countP_range_residue (K A j : Nat) (hK : 0 < K) (hj : j < K) (N : Nat) :
    (List.range N).countP (fun i => decide ((A + i) % K = j)) + residueBelow K j A
      = residueBelow K j (A + N) := by
  induction N with
  | zero => simp
  | succ N ih =>
    rw [List.range_succ, List.countP_append, ← Nat.add_assoc, residueBelow_succ K j _ hK hj, ← ih]
    simp only [List.countP_singleton, decide_eq_true_eq]
    omega

theorem count_residue_window (K A N j : Nat) (hK : 0 < K) (hj : j < K) :
    ((List.range N).countP (fun i => decide ((A + i) % K = j)) = N / K ∨
        (List.range N).countP (fun i => decide ((A + i) % K = j)) = (N + K - 1) / K) ∧
      (K ∣ N → (List.range N).countP (fun i => decide ((A + i) % K = j)) = N / K) := by
  have h := countP_range_residue K A j hK hj N
  have hceil := div_add_ceil K N hK
  unfold residueBelow at h
  rw [Nat.add_div hK, Nat.add_mod] at h
  have hr := Nat.mod_lt A hK
  have hs := Nat.mod_lt N hK
  have hmod : (A % K + N % K) % K =
      if K ≤ A % K + N % K then A % K + N % K - K else A % K + N % K := by
    split_ifs with hc
    · rw [Nat.mod_eq_sub_mod hc, Nat.mod_eq_of_lt (by omega)]
    · exact Nat.mod_eq_of_lt (by omega)
  rw [hmod] at h
  constructor
  · rw [hceil]
    split_ifs at h ⊢ <;> omega
  · intro hdvd
    have h0 : N % K = 0 := Nat.mod_eq_zero_of_dvd hdvd
    rw [h0] at h
    split_ifs at h <;> omega

/-- C1 (rotation order of `getNextKey`): for a pool of `K >= 1` keys with an
empty quarantine set and the cursor at its start value 0, the `i`-th of a run
of sequential `getNextKey()` calls (`i >= 1`) returns the pool entry at index
`i mod K` and leaves the cursor equal to `i mod K`; for a pool `[k1, k2, k3]`
three sequential calls return `k2`, `k3`, `k1`. -/
theorem getNextKey_rotation (s : AggState) (hpool : s.userApiKeys ≠ [])
    (hq : s.failedKeys = []) (hc : s.currentKeyIndex = 0) (i : Nat) (hi : 1 ≤ i) :
    (∃ h : i % s.userApiKeys.length < s.userApiKeys.length,
        nthReturned i s = some (s.userApiKeys.get ⟨i % s.userApiKeys.length, h⟩)) ∧
      (stateAfter i s).currentKeyIndex = i % s.userApiKeys.length ∧
      (∀ k1 k2 k3 : KeyRecord, s.userApiKeys = [k1, k2, k3] →
        (getNextKeyTimes 3 s).1 = [some k2, some k3, some k1]) := by
  have hK : 0 < s.userApiKeys.length := List.length_pos.mpr hpool
  obtain ⟨j, rfl⟩ : ∃ j, i = j + 1 := ⟨i - 1, by omega⟩
  have hj := (getNextKeyTimes_of_no_failed j s hq hpool).2
  have hj1 := (getNextKeyTimes_of_no_failed (j + 1) s hq hpool).2
  refine ⟨⟨Nat.mod_lt _ hK, ?_⟩, ?_, ?_⟩
  · have hq' : (stateAfter j s).failedKeys = [] := by
      unfold stateAfter; rw [hj]; split <;> simp [hq]
    have hpool' : (stateAfter j s).userApiKeys = s.userApiKeys := by
      unfold stateAfter; rw [hj]; split <;> simp
    have hcur : ((stateAfter j s).currentKeyIndex + 1) % s.userApiKeys.length
        = (j + 1) % s.userApiKeys.length := by
      unfold stateAfter; rw [hj]
      split
      · next h0 => simp [h0, hc]
      · simp [hc]
    simp only [nthReturned]
    rw [getNextKey_of_no_failed _ hq' (by rw [hpool']; exact hpool)]
    simp only [hpool', hcur]
    rw [List.getElem?_eq_getElem (Nat.mod_lt _ hK)]
    rfl
  · unfold stateAfter
    rw [hj1]
    simp [hc]
  · intro k1 k2 k3 h3
    rw [(getNextKeyTimes_of_no_failed 3 s hq hpool).1]
    simp [h3, hc, List.range_succ]

/-- The rotation theorem at the three-key sample pool and the fourth call. -/
theorem getNextKey_rotation_witness :
    sampleFresh.userApiKeys ≠ [] ∧ sampleFresh.failedKeys = [] ∧
      sampleFresh.currentKeyIndex = 0 ∧ 1 ≤ 4 ∧
      (stateAfter 4 sampleFresh).currentKeyIndex = 4 % sampleFresh.userApiKeys.length :=
  ⟨by decide, rfl, rfl, by decide,
    (getNextKey_rotation sampleFresh (by decide) rfl rfl 4 (by decide)).2.1⟩

theorem timesReturned_eq_countP (s : AggState) (hpool : s.userApiKeys ≠ [])
    (hnodup : (s.userApiKeys.map KeyRecord.key).Nodup) (hq : s.failedKeys = [])
    (N j : Nat) (hj : j < s.userApiKeys.length) :
    timesReturned (s.userApiKeys.get ⟨j, hj⟩).key (getNextKeyTimes N s).1 =
      (List.range N).countP
        (fun i => decide ((s.currentKeyIndex + 1 + i) % s.userApiKeys.length = j)) := by
  have hK : 0 < s.userApiKeys.length := List.length_pos.mpr hpool
  rw [(getNextKeyTimes_of_no_failed N s hq hpool).1]
  unfold timesReturned
  rw [List.countP_map]
  apply List.countP_congr
  intro i _
  have hm : (s.currentKeyIndex + 1 + i) % s.userApiKeys.length < s.userApiKeys.length :=
    Nat.mod_lt _ hK
  simp only [Function.comp, decide_eq_true_eq]
  rw [List.getElem?_eq_getElem hm]
  simp only [Option.map_some', Option.some.injEq, List.get_eq_getElem]
  have hinj := @List.Nodup.getElem_inj_iff _ (s.userApiKeys.map KeyRecord.key) hnodup
    ((s.currentKeyIndex + 1 + i) % s.userApiKeys.length) (by simpa using hm) j (by simpa using hj)
  simpa using hinj

/-- C2 (fairness of `getNextKey`): for a pool of `K >= 1` distinct keys, any
starting cursor and an empty quarantine set, after `N` sequential
`getNextKey()` calls every key of the pool has been returned `floor(N/K)` or
`ceil(N/K)` times, exactly `N/K` times when `K` divides `N`; the counts of two
keys differ by at most 1, and the quarantine set is still empty. -/
theorem getNextKey_fair (s : AggState) (hpool : s.userApiKeys ≠ [])
    (hnodup : (s.userApiKeys.map KeyRecord.key).Nodup) (hq : s.failedKeys = [])
    (N : Nat) (k : String) (hk : k ∈ s.userApiKeys.map KeyRecord.key) :
    (timesReturned k (getNextKeyTimes N s).1 = N / s.userApiKeys.length ∨
        timesReturned k (getNextKeyTimes N s).1
          = (N + s.userApiKeys.length - 1) / s.userApiKeys.length) ∧
      (s.userApiKeys.length ∣ N →
        timesReturned k (getNextKeyTimes N s).1 = N / s.userApiKeys.length) ∧
      (∀ k2 ∈ s.userApiKeys.map KeyRecord.key,
        timesReturned k (getNextKeyTimes N s).1
          ≤ timesReturned k2 (getNextKeyTimes N s).1 + 1) ∧
      (getNextKeyTimes N s).2.failedKeys = [] := by
  have hK : 0 < s.userApiKeys.length := List.length_pos.mpr hpool
  have key : ∀ k1 ∈ s.userApiKeys.map KeyRecord.key,
      (timesReturned k1 (getNextKeyTimes N s).1 = N / s.userApiKeys.length ∨
        timesReturned k1 (getNextKeyTimes N s).1
          = (N + s.userApiKeys.length - 1) / s.userApiKeys.length) ∧
      (s.userApiKeys.length ∣ N →
        timesReturned k1 (getNextKeyTimes N s).1 = N / s.userApiKeys.length) := by
    intro k1 hk1
    obtain ⟨r, hr, rfl⟩ := List.mem_map.mp hk1
    obtain ⟨j, hj, rfl⟩ := List.getElem_of_mem hr
    have := timesReturned_eq_countP s hpool hnodup hq N j hj
    simp only [List.get_eq_getElem] at this
    rw [this]
    exact count_residue_window _ _ N j hK hj
  refine ⟨(key k hk).1, (key k hk).2, ?_, ?_⟩
  · intro k2 hk2
    have h1 := (key k hk).1
    have h2 := (key k2 hk2).1
    have hceil : (N + s.userApiKeys.length - 1) / s.userApiKeys.length
        ≤ N / s.userApiKeys.length + 1 := by
      rw [div_add_ceil _ _ hK]
      split_ifs <;> omega
    have hfloor : N / s.userApiKeys.length
        ≤ (N + s.userApiKeys.length - 1) / s.userApiKeys.length :=
      Nat.div_le_div_right (by omega)
    omega
  · rw [(getNextKeyTimes_of_no_failed N s hq hpool).2]
    split <;> simp [hq]

/-- The fairness theorem at the three-key sample pool, seven calls, key `k2`. -/
theorem getNextKey_fair_witness :
    sampleFresh.userApiKeys ≠ [] ∧
      (sampleFresh.userApiKeys.map KeyRecord.key).Nodup ∧
      sampleFresh.failedKeys = [] ∧
      "k2" ∈ sampleFresh.userApiKeys.map KeyRecord.key ∧
      (timesReturned "k2" (getNextKeyTimes 7 sampleFresh).1 = 7 / sampleFresh.userApiKeys.length ∨
        timesReturned "k2" (getNextKeyTimes 7 sampleFresh).1
          = (7 + sampleFresh.userApiKeys.length - 1) / sampleFresh.userApiKeys.length) :=
  ⟨by decide, by decide, rfl, by decide,
    (getNextKey_fair sampleFresh (by decide) (by decide) rfl 7 "k2" (by decide)).1⟩

theorem mem_setAdd (failed : List String) (k x : String) :
    x ∈ setAdd failed k ↔ x ∈ failed ∨ x = k := by
  unfold setAdd
  split
  · next h =>
    have hk : k ∈ failed := by simpa using h
    constructor
    · intro hx; exact Or.inl hx
    · rintro (hx | rfl)
      · exact hx
      · exact hk
  · simp

theorem mem_availableKeys (s : AggState) (r : KeyRecord) :
    r ∈ availableKeys s ↔ r ∈ s.userApiKeys ∧ r.key ∉ s.failedKeys := by
  simp [availableKeys, setHas]

theorem availableKeys_eq_nil_iff (s : AggState) :
    availableKeys s = [] ↔ ∀ r ∈ s.userApiKeys, r.key ∈ s.failedKeys := by
  simp [availableKeys, setHas, List.filter_eq_nil_iff]

/-- C3 (self-healing of `getNextKey`): for a non-empty pool and any cursor, if
every key of the pool is quarantined then `getNextKey()` returns the first
pool entry (a defined value), leaves the quarantine set empty and leaves the
pool and the cursor unchanged; and `getNextKey()` returns `null` exactly when
the pool itself is empty. -/
theorem getNextKey_self_heals (s : AggState) (hpool : s.userApiKeys ≠ [])
    (hall : ∀ r ∈ s.userApiKeys, r.key ∈ s.failedKeys) :
    (getNextKey s).1 = s.userApiKeys.head? ∧
      (getNextKey s).1.isSome = true ∧
      (getNextKey s).2.failedKeys = [] ∧
      (getNextKey s).2.userApiKeys = s.userApiKeys ∧
      (getNextKey s).2.currentKeyIndex = s.currentKeyIndex ∧
      (getNextKey s).2 = { s with failedKeys := [] } ∧
      (∀ t : AggState, (getNextKey t).1 = none ↔ t.userApiKeys = []) := by
  have hav : availableKeys s = [] := (availableKeys_eq_nil_iff s).mpr hall
  have hlen : s.userApiKeys.length ≠ 0 := by simpa [List.length_eq_zero] using hpool
  have hget : getNextKey s = (s.userApiKeys.head?, { s with failedKeys := [] }) := by
    simp [getNextKey, hav, hlen, List.head?_eq_getElem?]
  refine ⟨by rw [hget], ?_, by rw [hget], by rw [hget], by rw [hget], by rw [hget], ?_⟩
  · rw [hget]
    cases hp : s.userApiKeys with
    | nil => exact absurd hp hpool
    | cons a l => simp
  · intro t
    unfold getNextKey
    by_cases hav : (availableKeys t).length = 0
    · by_cases hp : t.userApiKeys.length = 0
      · simp [hav, hp, List.length_eq_zero.mp hp]
      · have hne : t.userApiKeys ≠ [] := fun h => hp (by simp [h])
        simp only [hav, hp, if_true, if_false]
        cases hl : t.userApiKeys with
        | nil => exact absurd hl hne
        | cons a l => simp
    · have hlt : (t.currentKeyIndex + 1) % (availableKeys t).length < (availableKeys t).length :=
        Nat.mod_lt _ (Nat.pos_of_ne_zero hav)
      have hne : t.userApiKeys ≠ [] := by
        intro h
        apply hav
        simp [availableKeys, h]
      simp only [hav, if_false]
      rw [List.getElem?_eq_getElem hlt]
      simp [hne]

/-- The self-healing theorem at the sample pool whose two keys are quarantined. -/
theorem getNextKey_self_heals_witness :
    sampleAllFailed.userApiKeys ≠ [] ∧
      (∀ r ∈ sampleAllFailed.userApiKeys, r.key ∈ sampleAllFailed.failedKeys) ∧
      (getNextKey sampleAllFailed).1 = sampleAllFailed.userApiKeys.head? ∧
      (getNextKey sampleAllFailed).2.failedKeys = [] :=
  ⟨by decide, by decide,
    (getNextKey_self_heals sampleAllFailed (by decide) (by decide)).1,
    (getNextKey_self_heals sampleAllFailed (by decide) (by decide)).2.2.1⟩

/-- C4 (quarantine exclusion and in-bounds cursor): for every pool, quarantine
set and cursor, if some pool key is not quarantined then `getNextKey()`
returns a defined pool entry whose key is not quarantined, does not modify the
quarantine set or the pool, and leaves the cursor strictly below the number of
non-quarantined keys; hence a key returned by any call is not in the
quarantine set after that call, and a key whose request got a 429 is in it. -/
theorem getNextKey_skips_quarantined (s : AggState)
    (h : ∃ r ∈ s.userApiKeys, r.key ∉ s.failedKeys) :
    (∃ r, (getNextKey s).1 = some r ∧ r ∈ s.userApiKeys ∧ r.key ∉ s.failedKeys) ∧
      (getNextKey s).2.failedKeys = s.failedKeys ∧
      (getNextKey s).2.userApiKeys = s.userApiKeys ∧
      (getNextKey s).2.currentKeyIndex < (availableKeys s).length ∧
      (∀ (t : AggState) (r : KeyRecord), (getNextKey t).1 = some r →
        r.key ∉ (getNextKey t).2.failedKeys) ∧
      (∀ (keyObj : KeyRecord) (bodyRead : Bool),
        keyObj.key ∈ (proxyOnEnd s keyObj (.response 429 bodyRead)).state.failedKeys) := by
  have hav : (availableKeys s).length ≠ 0 := by
    obtain ⟨r, hr, hk⟩ := h
    have : r ∈ availableKeys s := (mem_availableKeys s r).mpr ⟨hr, hk⟩
    intro h0
    rw [List.length_eq_zero] at h0
    rw [h0] at this
    exact absurd this (List.not_mem_nil _)
  have hlt : (s.currentKeyIndex + 1) % (availableKeys s).length < (availableKeys s).length :=
    Nat.mod_lt _ (Nat.pos_of_ne_zero hav)
  have hget : getNextKey s =
      (some ((availableKeys s).get ⟨(s.currentKeyIndex + 1) % (availableKeys s).length, hlt⟩),
        { s with currentKeyIndex := (s.currentKeyIndex + 1) % (availableKeys s).length }) := by
    simp only [getNextKey, hav, if_false]
    rw [List.getElem?_eq_getElem hlt]
    rfl
  refine ⟨⟨_, by rw [hget], ?_⟩, by rw [hget], by rw [hget], by rw [hget]; exact hlt, ?_, ?_⟩
  · exact (mem_availableKeys s _).mp (List.get_mem _ _ _)
  · intro t r hr
    unfold getNextKey at hr ⊢
    by_cases hav : (availableKeys t).length = 0
    · simp [hav]
      split <;> simp
    · have hlt : (t.currentKeyIndex + 1) % (availableKeys t).length < (availableKeys t).length :=
        Nat.mod_lt _ (Nat.pos_of_ne_zero hav)
      simp only [hav, if_false] at hr ⊢
      rw [List.getElem?_eq_getElem hlt] at hr
      have hmem : r ∈ availableKeys t := by
        have := Option.some.inj hr
        rw [← this]
        exact List.getElem_mem _
      exact ((mem_availableKeys t r).mp hmem).2
  · intro keyObj bodyRead
    cases bodyRead <;>
      simp [proxyOnEnd, proxyTry, writeHead, mem_setAdd]

/-- The exclusion theorem at the sample pool with one quarantined key. -/
theorem getNextKey_skips_quarantined_witness :
    (∃ r ∈ sampleOneFailed.userApiKeys, r.key ∉ sampleOneFailed.failedKeys) ∧
      (getNextKey sampleOneFailed).2.currentKeyIndex < (availableKeys sampleOneFailed).length :=
  ⟨by decide, (getNextKey_skips_quarantined sampleOneFailed (by decide)).2.2.2.1⟩

theorem getNextKey_frame (s : AggState) :
    (getNextKey s).2.userApiKeys = s.userApiKeys ∧
      (getNextKey s).2.aggregatorEnabled = s.aggregatorEnabled ∧
      (getNextKey s).2.aggregatorUserToken = s.aggregatorUserToken ∧
      (getNextKey s).2.aggregatorUserInfo = s.aggregatorUserInfo ∧
      ((getNextKey s).2.failedKeys = [] ∨ (getNextKey s).2.failedKeys = s.failedKeys) := by
  unfold getNextKey
  simp only
  split
  · split <;> simp
  · simp

theorem getNextKey_mem_pool (s : AggState) (r : KeyRecord) (h : (getNextKey s).1 = some r) :
    r ∈ s.userApiKeys := by
  unfold getNextKey at h
  simp only at h
  split at h
  · split at h
    · simp at h
    · exact List.getElem?_mem h
  · exact ((mem_availableKeys s r).mp (List.getElem?_mem h)).1

theorem proxyOnEnd_frame (s : AggState) (keyObj : KeyRecord) (up : Upstream) :
    (proxyOnEnd s keyObj up).state.userApiKeys = s.userApiKeys ∧
      (proxyOnEnd s keyObj up).state.currentKeyIndex = s.currentKeyIndex ∧
      (proxyOnEnd s keyObj up).state.aggregatorEnabled = s.aggregatorEnabled ∧
      (proxyOnEnd s keyObj up).state.aggregatorUserToken = s.aggregatorUserToken ∧
      (proxyOnEnd s keyObj up).state.aggregatorUserInfo = s.aggregatorUserInfo ∧
      (∀ x ∈ (proxyOnEnd s keyObj up).state.failedKeys, x ∈ s.failedKeys ∨ x = keyObj.key) := by
  cases up with
  | fetchFailed => simp [proxyOnEnd, proxyTry, writeHead, mem_setAdd]
  | response status bodyRead =>
    unfold proxyOnEnd proxyTry writeHead
    cases bodyRead <;> simp only [Option.isSome_none] <;>
      split_ifs <;> simp_all [mem_setAdd]
theorem startAggregator_cases (pf : String → JSNumber) (tok : String) (info : UserInfo)
    (resp : AccountResponse) (s : AggState) :
    (startAggregator pf tok info resp s).2 = s ∨
      (¬ (s.aggregatorEnabled = true ∧ s.userApiKeys ≠ []) ∧
        ∃ items : List OrderItem, usableKeys pf items = [] ∧
          (startAggregator pf tok info resp s).2 = { s with userApiKeys := [] }) ∨
      (∃ items : List OrderItem, usableKeys pf items ≠ [] ∧
          (startAggregator pf tok info resp s).2 =
            { s with
              userApiKeys := usableKeys pf items
              aggregatorEnabled := true
              aggregatorUserToken := some tok
              aggregatorUserInfo := some info
              failedKeys := []
              currentKeyIndex := 0 }) := by
  unfold startAggregator startAggregatorGuard startAggregatorAnswer
  split
  · exact Or.inl rfl
  · next hidle =>
    have hidle2 : ¬ (s.aggregatorEnabled = true ∧ s.userApiKeys ≠ []) := by
      intro ⟨h1, h2⟩
      apply hidle
      have : 0 < s.userApiKeys.length := List.length_pos.mpr h2
      simp [h1, this]
    cases resp with
    | threw e => exact Or.inl rfl
    | json code msg =>
      cases msg with
      | absent => exact Or.inl rfl
      | text t => simp only; split <;> exact Or.inl rfl
      | list items =>
        simp only
        split
        · split
          · next h0 =>
            right; left
            exact ⟨hidle2, items, List.length_eq_zero.mp h0, by rw [List.length_eq_zero.mp h0]⟩
          · next h0 =>
            right; right
            exact ⟨items, fun h => h0 (by simp [h]), rfl⟩
        · exact Or.inl rfl

theorem stopAggregator_cases (s : AggState) :
    (s.aggregatorEnabled = false ∧ stopAggregator s = (⟨true, "聚合服务未运行", none⟩, s)) ∨
      (s.aggregatorEnabled = true ∧
        stopAggregator s =
          (⟨true, "聚合服务已停止", none⟩,
            { s with
              aggregatorEnabled := false
              userApiKeys := []
              failedKeys := []
              aggregatorUserToken := none
              aggregatorUserInfo := none })) := by
  unfold stopAggregator
  cases h : s.aggregatorEnabled <;> simp

theorem handleAggregatorProxy_cases (s : AggState) :
    (∃ st, handleAggregatorProxy s = (.rejected st, s)) ∨
      (∃ st, handleAggregatorProxy s = (.rejected st, (getNextKey s).2)) ∨
      (s.aggregatorEnabled = true ∧ ∃ keyObj, keyObj ∈ s.userApiKeys ∧
        handleAggregatorProxy s = (.forwarded keyObj, (getNextKey s).2)) := by
  unfold handleAggregatorProxy
  split
  · exact Or.inl ⟨503, rfl⟩
  · next hrun =>
    have hen : s.aggregatorEnabled = true := by
      cases h : s.aggregatorEnabled
      · simp [h] at hrun
      · rfl
    split
    · next s1 hg =>
      right; left
      exact ⟨500, by rw [hg]⟩
    · next keyObj s1 hg =>
      right; right
      refine ⟨hen, keyObj, getNextKey_mem_pool s keyObj (by rw [hg]), by rw [hg]⟩

theorem step_quiescentInv (pf : String → JSNumber) (sys : AggSystem) (ev : AggEvent)
    (h : sys.quiescentInv) (hq : ev.isControl = true → sys.inflight = []) :
    (AggSystem.step pf sys ev).quiescentInv := by
  obtain ⟨hsub, hin, hoff⟩ := h
  cases ev with
  | start tok info resp =>
    have hno : sys.inflight = [] := hq rfl
    simp only [AggSystem.step]
    rcases startAggregator_cases pf tok info resp sys.agg with h1 | ⟨hidle, items, _, h1⟩ |
        ⟨items, hne, h1⟩
    · rw [h1]; exact ⟨hsub, hin, hoff⟩
    · have hfailed : sys.agg.failedKeys = [] := by
        cases hen : sys.agg.aggregatorEnabled
        · exact (hoff hen).2.1
        · have hp : sys.agg.userApiKeys = [] := by
            by_contra hp
            exact hidle ⟨hen, hp⟩
          cases hf : sys.agg.failedKeys with
          | nil => rfl
          | cons a l =>
            have := hsub a (by rw [hf]; exact List.mem_cons_self _ _)
            rw [hp] at this
            simp at this
      unfold AggSystem.quiescentInv quarantineWithinPool
      rw [h1]
      refine ⟨?_, ?_, ?_⟩
      · simp [hfailed]
      · simp [hno]
      · intro hen
        have := hoff hen
        simp [hno, hfailed, this]
    · unfold AggSystem.quiescentInv quarantineWithinPool
      rw [h1]
      simp [hno]
  | stop =>
    have hno : sys.inflight = [] := hq rfl
    simp only [AggSystem.step]
    rcases stopAggregator_cases sys.agg with ⟨_, h1⟩ | ⟨_, h1⟩
    · rw [h1]; exact ⟨hsub, hin, hoff⟩
    · unfold AggSystem.quiescentInv quarantineWithinPool
      rw [h1]
      simp [hno]
  | nextKey =>
    simp only [AggSystem.step]
    obtain ⟨hp, he, htok, hinfo, hf⟩ := getNextKey_frame sys.agg
    unfold AggSystem.quiescentInv quarantineWithinPool
    simp only [hp, he, htok, hinfo]
    refine ⟨?_, hin, ?_⟩
    · rcases hf with hf | hf
      · rw [hf]; simp
      · rw [hf]; exact hsub
    · intro hen
      have := hoff hen
      refine ⟨this.1, ?_, this.2.2⟩
      rcases hf with hf | hf
      · exact hf
      · rw [hf]; exact this.2.1
  | request =>
    simp only [AggSystem.step]
    obtain ⟨hp, he, htok, hinfo, hf⟩ := getNextKey_frame sys.agg
    have hnext : AggSystem.quiescentInv { sys with agg := (getNextKey sys.agg).2 } := by
      unfold AggSystem.quiescentInv quarantineWithinPool
      simp only [hp, he, htok, hinfo]
      refine ⟨?_, hin, ?_⟩
      · rcases hf with hf | hf
        · rw [hf]; simp
        · rw [hf]; exact hsub
      · intro hen
        have := hoff hen
        refine ⟨this.1, ?_, this.2.2⟩
        rcases hf with hf | hf
        · exact hf
        · rw [hf]; exact this.2.1
    rcases handleAggregatorProxy_cases sys.agg with ⟨st, h1⟩ | ⟨st, h1⟩ | ⟨hen, k, hk, h1⟩
    · rw [h1]; exact ⟨hsub, hin, hoff⟩
    · rw [h1]; exact hnext
    · rw [h1]
      obtain ⟨n1, n2, n3⟩ := hnext
      unfold AggSystem.quiescentInv
      simp only
      refine ⟨n1, ?_, ?_⟩
      · intro r hr
        rw [hp]
        rcases List.mem_append.mp hr with hr | hr
        · exact hin r hr
        · rw [List.mem_singleton.mp hr]; exact hk
      · intro hoff2
        rw [he, hen] at hoff2
        exact absurd hoff2 (by simp)
  | complete i up =>
    simp only [AggSystem.step]
    split
    · exact ⟨hsub, hin, hoff⟩
    · next keyObj hk =>
      obtain ⟨hp, _, he, htok, hinfo, hf⟩ := proxyOnEnd_frame sys.agg keyObj up
      have hmem : keyObj ∈ sys.inflight := List.getElem?_mem hk
      unfold AggSystem.quiescentInv quarantineWithinPool
      simp only [hp, he, htok, hinfo]
      refine ⟨?_, ?_, ?_⟩
      · intro x hx
        rcases hf x hx with hx | hx
        · exact hsub x hx
        · rw [hx]; exact List.mem_map_of_mem _ (hin keyObj hmem)
      · intro r hr
        exact hin r (List.mem_of_mem_eraseIdx hr)
      · intro hen
        have := (hoff hen).1
        rw [this] at hmem
        exact absurd hmem (List.not_mem_nil _)

theorem reachableQuiescent_inv (pf : String → JSNumber) (sys : AggSystem)
    (h : AggSystem.ReachableQuiescent pf sys) : sys.quiescentInv := by
  induction h with
  | init =>
    unfold AggSystem.quiescentInv quarantineWithinPool
    simp [AggSystem.init, AggState.init]
  | step sys ev _ hq ih => exact step_quiescentInv pf sys ev ih hq


/-- C5, as stated, fails: a request that is pending when the aggregator is
stopped and is answered with 429 afterwards puts its key into the quarantine
set although the pool is empty by then. -/
theorem quarantine_outlives_pool :
    AggSystem.Reachable parseFloatDigits
        (AggSystem.run parseFloatDigits AggSystem.init lateCompletionRun) ∧
      (AggSystem.run parseFloatDigits AggSystem.init lateCompletionRun).agg.userApiKeys = [] ∧
      (AggSystem.run parseFloatDigits AggSystem.init lateCompletionRun).agg.failedKeys = ["k1"] ∧
      ¬ quarantineWithinPool
          (AggSystem.run parseFloatDigits AggSystem.init lateCompletionRun).agg :=
  ⟨⟨lateCompletionRun, rfl⟩, by decide, by decide, by decide⟩

/-- C5, amended (KeyPool invariant): in every state reached from the initial
state by `startAggregator` (succeeding or failing), `stopAggregator`,
`getNextKey`, the arrival of a proxied request and the completion of a pending
one, where `startAggregator` and `stopAggregator` only run while no forwarded
request is pending, every string in `failedKeys` is the key of some entry of
`userApiKeys`. -/
theorem quarantine_within_pool (parseFloat : String → JSNumber) (sys : AggSystem)
    (h : AggSystem.ReachableQuiescent parseFloat sys) :
    ∀ k ∈ sys.agg.failedKeys, ∃ r ∈ sys.agg.userApiKeys, r.key = k := by
  intro k hk
  have := (reachableQuiescent_inv parseFloat sys h).1 k hk
  obtain ⟨r, hr, hrk⟩ := List.mem_map.mp this
  exact ⟨r, hr, hrk⟩

/-- The invariant at the state after a start, a proxied request and its
completion with status 429: the quarantined key `k1` is in the pool. -/
theorem quarantine_within_pool_witness :
    sampleQuarantined.agg.failedKeys = ["k1"] ∧
      ∀ k ∈ sampleQuarantined.agg.failedKeys,
        ∃ r ∈ sampleQuarantined.agg.userApiKeys, r.key = k :=
  ⟨by decide,
    quarantine_within_pool parseFloatDigits sampleQuarantined
      (.step _ _
        (.step _ _ (.step _ _ .init (fun _ => rfl)) (fun h => by simp [AggEvent.isControl] at h))
        (fun h => by simp [AggEvent.isControl] at h))⟩

theorem setAdd_of_mem (failed : List String) (k : String) (h : k ∈ failed) :
    setAdd failed k = failed := by
  unfold setAdd
  simp [h]

/-- C6, the code at the failing input: the upstream answers 200 and reading its
body then fails. The key is quarantined, as for any failure of the upstream
call; but the header with status 200 is already written, so the `writeHead` of
the 502 in the `catch` block throws: the response is never ended, no status is
relayed and the exception leaves the callback, whereas a failing `fetch`
relays 502. -/
theorem proxy_body_failure_quarantines :
    sampleFresh.failedKeys = [] ∧
      (proxyOnEnd sampleFresh ⟨"k1", .fin 5 0⟩ (.response 200 false)).state.failedKeys = ["k1"] ∧
      (proxyOnEnd sampleFresh ⟨"k1", .fin 5 0⟩ (.response 200 false)).res.head = some 200 ∧
      (proxyOnEnd sampleFresh ⟨"k1", .fin 5 0⟩ (.response 200 false)).res.ended = false ∧
      (proxyOnEnd sampleFresh ⟨"k1", .fin 5 0⟩ (.response 200 false)).uncaught = true ∧
      (proxyOnEnd sampleFresh ⟨"k1", .fin 5 0⟩ (.response 200 false)).relayedStatus = none ∧
      (proxyOnEnd sampleFresh ⟨"k1", .fin 5 0⟩ .fetchFailed).relayedStatus = some 502 := by
  decide

/-- The quarantine decision of the proxy on the paths that relay a status: for a
proxied request that used key `k`, the pool, the cursor and the running flag
are not changed by the completion; if `fetch` fails the quarantine set
afterwards is the old set plus `k` and 502 is relayed; if the upstream answers
with a status in `100..999` and its body is read, the quarantine set is the old set plus `k` when the
status is 401, 403 or 429 and exactly the old set otherwise, and the relayed
status is the upstream status; if reading the body fails the quarantine set is
the old set plus `k`. -/
theorem proxyOnEnd_quarantine (s : AggState) (keyObj : KeyRecord) (up : Upstream) :
    (proxyOnEnd s keyObj up).state.userApiKeys = s.userApiKeys ∧
      (proxyOnEnd s keyObj up).state.currentKeyIndex = s.currentKeyIndex ∧
      (proxyOnEnd s keyObj up).state.aggregatorEnabled = s.aggregatorEnabled ∧
      (∀ x, x ∈ setAdd s.failedKeys keyObj.key ↔ x ∈ s.failedKeys ∨ x = keyObj.key) ∧
      (match up with
        | .fetchFailed =>
          (proxyOnEnd s keyObj up).state.failedKeys = setAdd s.failedKeys keyObj.key ∧
            (proxyOnEnd s keyObj up).relayedStatus = some 502
        | .response status true =>
          100 ≤ status → status ≤ 999 →
            (proxyOnEnd s keyObj up).state.failedKeys =
                (if status = 401 ∨ status = 403 ∨ status = 429 then
                  setAdd s.failedKeys keyObj.key
                else s.failedKeys) ∧
              (proxyOnEnd s keyObj up).relayedStatus = some status
        | .response _ false =>
          (proxyOnEnd s keyObj up).state.failedKeys = setAdd s.failedKeys keyObj.key) := by
  obtain ⟨h1, h2, h3, _⟩ := proxyOnEnd_frame s keyObj up
  refine ⟨h1, h2, h3, mem_setAdd _ _, ?_⟩
  have hidem : setAdd (setAdd s.failedKeys keyObj.key) keyObj.key
      = setAdd s.failedKeys keyObj.key := by
    exact setAdd_of_mem _ _ ((mem_setAdd _ _ _).mpr (Or.inr rfl))
  cases up with
  | fetchFailed =>
    simp [proxyOnEnd, proxyTry, writeHead, ProxyDone.relayedStatus]
  | response status bodyRead =>
    cases bodyRead with
    | true =>
      intro hlo hhi
      have hrange : ¬ (status < 100 ∨ 999 < status) := by omega
      by_cases hq : status = 401 ∨ status = 403 ∨ status = 429 <;>
        simp [proxyOnEnd, proxyTry, writeHead, ProxyDone.relayedStatus, hrange, hq]
    | false =>
      simp only [proxyOnEnd, proxyTry, writeHead, Option.isSome_none, Bool.false_eq_true, if_false]
      by_cases hrange : status < 100 ∨ 999 < status
      · simp only [hrange, if_true]
        split_ifs <;> simp [hidem]
      · simp only [hrange, if_false]
        split_ifs <;> simp [hidem]

/-- The quarantine decision at the sample pool, key `k1`: status 429 quarantines
`k1` and is relayed, status 500 quarantines nothing and is relayed. -/
theorem proxyOnEnd_quarantine_witness :
    (proxyOnEnd sampleFresh ⟨"k1", .fin 5 0⟩ (.response 429 true)).state.failedKeys = ["k1"] ∧
      (proxyOnEnd sampleFresh ⟨"k1", .fin 5 0⟩ (.response 429 true)).relayedStatus = some 429 ∧
      (proxyOnEnd sampleFresh ⟨"k1", .fin 5 0⟩ (.response 500 true)).state.failedKeys = [] ∧
      (proxyOnEnd sampleFresh ⟨"k1", .fin 5 0⟩ (.response 500 true)).relayedStatus = some 500 := by
  have h429 := (proxyOnEnd_quarantine sampleFresh ⟨"k1", .fin 5 0⟩ (.response 429 true)).2.2.2.2
    (by decide) (by decide)
  have h500 := (proxyOnEnd_quarantine sampleFresh ⟨"k1", .fin 5 0⟩ (.response 500 true)).2.2.2.2
    (by decide) (by decide)
  exact ⟨h429.1.trans (by decide), h429.2, h500.1.trans (by decide), h500.2⟩

theorem JSNumber.gtZero_orZero (x : JSNumber) : x.orZero.gtZero = x.gtZero := by
  cases x with
  | fin m e =>
    by_cases hm : m = 0
    · simp [JSNumber.orZero, JSNumber.truthy, JSNumber.gtZero, hm]
    · simp [JSNumber.orZero, JSNumber.truthy, JSNumber.gtZero, hm]
  | _ => simp [JSNumber.orZero, JSNumber.truthy, JSNumber.gtZero]

theorem JSNumber.orZero_of_gtZero (x : JSNumber) (h : x.gtZero = true) : x.orZero = x := by
  cases x with
  | fin m e =>
    have hm : m ≠ 0 := by
      simp [JSNumber.gtZero] at h
      omega
    simp [JSNumber.orZero, JSNumber.truthy, hm]
  | _ => simp_all [JSNumber.orZero, JSNumber.truthy, JSNumber.gtZero]

theorem usableKeys_eq (pf : String → JSNumber) (items : List OrderItem) :
    usableKeys pf items =
      (items.filter (fun item => (pf item.balance).gtZero)).map (OrderItem.toKeyRecord pf) := by
  unfold usableKeys
  induction items with
  | nil => rfl
  | cons a l ih =>
    simp only [List.map_cons, List.filter_cons, JSNumber.gtZero_orZero]
    by_cases h : (pf a.balance).gtZero = true
    · simp only [h, if_true, List.map_cons, ih]
      simp [OrderItem.toKeyRecord, JSNumber.orZero_of_gtZero _ h]
    · simp only [h, if_false, ih]
      simp

/-- C7, as stated, fails: two `startAggregator` calls both pass the guard at the
start of the launcher; the first gets an answer with a funded key and starts
the aggregator; the second then gets an answer whose only key has no balance:
it returns a failure and empties the pool, and the aggregator is still marked
as running. -/
theorem startAggregator_overlap_leaves_running :
    startAggregatorGuard AggState.init = false ∧
      sampleStarted.aggregatorEnabled = true ∧
      (startAggregatorAnswer parseFloatDigits "token" sampleUser
          (.json 200 (.list emptyOrders)) sampleStarted).1.success = false ∧
      (startAggregatorAnswer parseFloatDigits "token" sampleUser
          (.json 200 (.list emptyOrders)) sampleStarted).2.userApiKeys = [] ∧
      (startAggregatorAnswer parseFloatDigits "token" sampleUser
          (.json 200 (.list emptyOrders)) sampleStarted).2.aggregatorEnabled = true := by
  decide

/-- C7, amended (pool population by `startAggregator`): when a call has passed
its guard and the account endpoint answers with code 200 and a non-empty list,
then in whatever state the answer finds the aggregator: a success leaves as
pool exactly the listed entries whose parsed balance is strictly greater than
0, in their original order, with an empty quarantine set, the cursor at 0 and
the aggregator running; the call succeeds exactly when some entry has such a
balance; and if no entry has one the result is a failure, the pool is left
empty and `aggregatorEnabled` is left as the answer found it, so that the
aggregator is not running afterwards when it was not running then, as in a
call with nothing in between, whose guard found it not running. -/
theorem startAggregator_populates (parseFloat : String → JSNumber) (s : AggState)
    (userToken : String) (userInfo : UserInfo) (items : List OrderItem) (hne : items ≠ []) :
    ((startAggregatorAnswer parseFloat userToken userInfo (.json 200 (.list items)) s).1.success
          = true →
        (startAggregatorAnswer parseFloat userToken userInfo
            (.json 200 (.list items)) s).2.userApiKeys
            = (items.filter (fun item => (parseFloat item.balance).gtZero)).map
                (OrderItem.toKeyRecord parseFloat) ∧
          (startAggregatorAnswer parseFloat userToken userInfo
            (.json 200 (.list items)) s).2.failedKeys = [] ∧
          (startAggregatorAnswer parseFloat userToken userInfo
            (.json 200 (.list items)) s).2.currentKeyIndex = 0 ∧
          (startAggregatorAnswer parseFloat userToken userInfo
            (.json 200 (.list items)) s).2.aggregatorEnabled = true) ∧
      ((startAggregatorAnswer parseFloat userToken userInfo (.json 200 (.list items)) s).1.success
          = true ↔ ∃ item ∈ items, (parseFloat item.balance).gtZero = true) ∧
      ((∀ item ∈ items, (parseFloat item.balance).gtZero = false) →
        (startAggregatorAnswer parseFloat userToken userInfo
            (.json 200 (.list items)) s).1.success = false ∧
          (startAggregatorAnswer parseFloat userToken userInfo
            (.json 200 (.list items)) s).2.userApiKeys = [] ∧
          (startAggregatorAnswer parseFloat userToken userInfo
            (.json 200 (.list items)) s).2.aggregatorEnabled = s.aggregatorEnabled) ∧
      (startAggregatorGuard s = false →
        startAggregator parseFloat userToken userInfo (.json 200 (.list items)) s
            = startAggregatorAnswer parseFloat userToken userInfo (.json 200 (.list items)) s ∧
          (s.aggregatorEnabled = false →
            (∀ item ∈ items, (parseFloat item.balance).gtZero = false) →
            (startAggregator parseFloat userToken userInfo
                (.json 200 (.list items)) s).1.success = false ∧
              (startAggregator parseFloat userToken userInfo
                (.json 200 (.list items)) s).2.aggregatorEnabled = false)) := by
  have hlen : items.length > 0 := List.length_pos.mpr hne
  have hnil : usableKeys parseFloat items = [] ↔
      ∀ item ∈ items, (parseFloat item.balance).gtZero = false := by
    rw [usableKeys_eq]
    simp [List.filter_eq_nil_iff]
  have hfailcase : usableKeys parseFloat items = [] →
      startAggregatorAnswer parseFloat userToken userInfo (.json 200 (.list items)) s
        = (⟨false, "没有可用的 API 密钥（余额不足）", none⟩, { s with userApiKeys := [] }) := by
    intro hu
    simp [startAggregatorAnswer, hlen, hu]
  have hfail : (∀ item ∈ items, (parseFloat item.balance).gtZero = false) →
      (startAggregatorAnswer parseFloat userToken userInfo
          (.json 200 (.list items)) s).1.success = false ∧
        (startAggregatorAnswer parseFloat userToken userInfo
          (.json 200 (.list items)) s).2.userApiKeys = [] ∧
        (startAggregatorAnswer parseFloat userToken userInfo
          (.json 200 (.list items)) s).2.aggregatorEnabled = s.aggregatorEnabled := by
    intro hall
    rw [hfailcase (hnil.mpr hall)]
    exact ⟨rfl, rfl, rfl⟩
  have hguard : startAggregatorGuard s = false →
      startAggregator parseFloat userToken userInfo (.json 200 (.list items)) s
        = startAggregatorAnswer parseFloat userToken userInfo (.json 200 (.list items)) s := by
    intro hg
    simp [startAggregator, hg]
  have hlast : startAggregatorGuard s = false →
      startAggregator parseFloat userToken userInfo (.json 200 (.list items)) s
          = startAggregatorAnswer parseFloat userToken userInfo (.json 200 (.list items)) s ∧
        (s.aggregatorEnabled = false →
          (∀ item ∈ items, (parseFloat item.balance).gtZero = false) →
          (startAggregator parseFloat userToken userInfo
              (.json 200 (.list items)) s).1.success = false ∧
            (startAggregator parseFloat userToken userInfo
              (.json 200 (.list items)) s).2.aggregatorEnabled = false) := by
    intro hg
    refine ⟨hguard hg, fun hoff hall => ?_⟩
    rw [hguard hg]
    exact ⟨(hfail hall).1, (hfail hall).2.2.trans hoff⟩
  by_cases hu : usableKeys parseFloat items = []
  · have hall := hnil.mp hu
    refine ⟨?_, ?_, hfail, hlast⟩
    · intro hs
      rw [(hfail hall).1] at hs
      simp at hs
    · constructor
      · intro hs
        rw [(hfail hall).1] at hs
        simp at hs
      · rintro ⟨item, hi, hpos⟩
        rw [hall item hi] at hpos
        simp at hpos
  · have hlen2 : (usableKeys parseFloat items).length ≠ 0 := by
      simpa [List.length_eq_zero] using hu
    have hget : startAggregatorAnswer parseFloat userToken userInfo (.json 200 (.list items)) s
        = (⟨true, "聚合服务已启动", some (usableKeys parseFloat items).length⟩,
            { s with
              userApiKeys := usableKeys parseFloat items
              aggregatorEnabled := true
              aggregatorUserToken := some userToken
              aggregatorUserInfo := some userInfo
              failedKeys := []
              currentKeyIndex := 0 }) := by
      simp [startAggregatorAnswer, hlen, hlen2]
    refine ⟨?_, ?_, hfail, hlast⟩
    · intro _
      rw [hget]
      exact ⟨usableKeys_eq _ _, rfl, rfl, rfl⟩
    · rw [hget]
      constructor
      · intro _
        by_contra hcon
        apply hu
        apply hnil.mpr
        intro item hi
        by_contra hpos
        exact hcon ⟨item, hi, by simpa using hpos⟩
      · intro _; rfl

/-- The population theorem at the start of the launcher and the sample answer:
only the funded key `k1` of the three listed keys is kept. -/
theorem startAggregator_populates_witness :
    sampleOrders ≠ [] ∧
      (startAggregatorAnswer parseFloatDigits "token" sampleUser
          (.json 200 (.list sampleOrders)) AggState.init).1.success = true ∧
      (startAggregatorAnswer parseFloatDigits "token" sampleUser
          (.json 200 (.list sampleOrders)) AggState.init).2.userApiKeys
        = [⟨"k1", .fin 5 0⟩] := by
  have h := startAggregator_populates parseFloatDigits AggState.init "token" sampleUser
    sampleOrders (by decide)
  exact ⟨by decide, by decide, (h.1 (by decide)).1.trans (by decide)⟩

/-- C8, as stated, fails: after a request that was pending across a stop has
failed, the aggregator is stopped with `k1` in its quarantine set, and
`stopAggregator()` returns at its guard without clearing it. -/
theorem stopAggregator_keeps_late_quarantine :
    AggSystem.Reachable parseFloatDigits
        (AggSystem.run parseFloatDigits AggSystem.init lateFailureRun) ∧
      (AggSystem.run parseFloatDigits AggSystem.init lateFailureRun).agg.aggregatorEnabled
        = false ∧
      (stopAggregator
        (AggSystem.run parseFloatDigits AggSystem.init lateFailureRun).agg).2.failedKeys
        = ["k1"] :=
  ⟨⟨lateFailureRun, rfl⟩, by decide, by decide⟩

/-- C8, amended (`stopAggregator` clears and is idempotent): for every
aggregator state `stopAggregator()` returns a success and leaves the aggregator
not running, and a second `stopAggregator()` returns a success and leaves the
state as the first call left it; when the aggregator was running, the pool and
the quarantine set are empty and the cached token and user info are null
afterwards; when it was not running the call changes nothing, and in every
state reached while `startAggregator` and `stopAggregator` only run with no
forwarded request pending the pool, the quarantine set, the token and the user
info are empty or null after the call. -/
theorem stopAggregator_clears (s : AggState) :
    (stopAggregator s).1.success = true ∧
      (stopAggregator s).2.aggregatorEnabled = false ∧
      (stopAggregator (stopAggregator s).2).1.success = true ∧
      (stopAggregator (stopAggregator s).2).2 = (stopAggregator s).2 ∧
      (s.aggregatorEnabled = true →
        (stopAggregator s).2.userApiKeys = [] ∧ (stopAggregator s).2.failedKeys = [] ∧
          (stopAggregator s).2.aggregatorUserToken = none ∧
          (stopAggregator s).2.aggregatorUserInfo = none) ∧
      (s.aggregatorEnabled = false → (stopAggregator s).2 = s) ∧
      (∀ (parseFloat : String → JSNumber) (sys : AggSystem),
        AggSystem.ReachableQuiescent parseFloat sys →
          (stopAggregator sys.agg).2.userApiKeys = [] ∧
            (stopAggregator sys.agg).2.failedKeys = [] ∧
            (stopAggregator sys.agg).2.aggregatorUserToken = none ∧
            (stopAggregator sys.agg).2.aggregatorUserInfo = none) := by
  refine ⟨?_, ?_, ?_, ?_, ?_, ?_, ?_⟩
  · rcases stopAggregator_cases s with ⟨_, h⟩ | ⟨_, h⟩ <;> rw [h]
  · rcases stopAggregator_cases s with ⟨he, h⟩ | ⟨_, h⟩ <;> rw [h]
    exact he
  · rcases stopAggregator_cases (stopAggregator s).2 with ⟨_, h⟩ | ⟨_, h⟩ <;> rw [h]
  · rcases stopAggregator_cases s with ⟨he, h⟩ | ⟨_, h⟩
    · rw [h]
      simp [stopAggregator, he]
    · rw [h]
      simp [stopAggregator]
  · intro he
    simp [stopAggregator, he]
  · intro he
    simp [stopAggregator, he]
  · intro pf sys hr
    have hinv := (reachableQuiescent_inv pf sys hr).2.2
    rcases stopAggregator_cases sys.agg with ⟨he, h⟩ | ⟨_, h⟩
    · rw [h]
      have := hinv he
      exact ⟨this.2.2.1, this.2.1, this.2.2.2.1, this.2.2.2.2⟩
    · rw [h]
      exact ⟨rfl, rfl, rfl, rfl⟩

/-- Stopping the running sample aggregator with one quarantined key clears the
pool and the quarantine set. -/
theorem stopAggregator_clears_witness :
    sampleOneFailed.aggregatorEnabled = true ∧ sampleOneFailed.failedKeys = ["k2"] ∧
      (stopAggregator sampleOneFailed).2.userApiKeys = [] ∧
      (stopAggregator sampleOneFailed).2.failedKeys = [] :=
  ⟨rfl, rfl, ((stopAggregator_clears sampleOneFailed).2.2.2.2.1 rfl).1,
    ((stopAggregator_clears sampleOneFailed).2.2.2.2.1 rfl).2.1⟩

theorem Fs.lookup_write (fs : Fs) (p q : Path) (node : FsNode) :
    (fs.write p node).lookup q = if q = p then some node else fs.lookup q := by
  unfold Fs.write Fs.lookup
  rw [List.lookup_cons]
  by_cases h : q = p
  · simp [h]
  · have : (q == p) = false := by simpa using h
    simp [this, h]

theorem Fs.mem_of_lookup (fs : Fs) (p : Path) (node : FsNode) (h : fs.lookup p = some node) :
    (p, node) ∈ fs := by
  unfold Fs.lookup at h
  induction fs with
  | nil => simp at h
  | cons a l ih =>
    obtain ⟨q, n⟩ := a
    rw [List.lookup_cons] at h
    by_cases hq : p = q
    · subst hq
      simp at h
      simp [h]
    · have : (p == q) = false := by simpa using hq
      simp only [this] at h
      exact List.mem_cons_of_mem _ (ih h)

theorem Fs.lookup_isSome_of_mem (fs : Fs) (p : Path) (node : FsNode) (h : (p, node) ∈ fs) :
    (fs.lookup p).isSome = true := by
  unfold Fs.lookup
  induction fs with
  | nil => simp at h
  | cons a l ih =>
    obtain ⟨q, n⟩ := a
    rw [List.lookup_cons]
    by_cases hq : p = q
    · subst hq; simp
    · have : (p == q) = false := by simpa using hq
      simp only [this]
      rcases List.mem_cons.mp h with h | h
      · simp at h; exact absurd h.1 hq
      · exact ih h

theorem Fs.WF.dir_of_below (fs : Fs) (hwf : fs.WF) (s : Path) :
    ∀ p : Path, p ≠ [] → (fs.lookup (s ++ p)).isSome = true → fs.lookup s = some .dir := by
  intro p
  induction p using List.reverseRecOn with
  | nil => intro h; exact absurd rfl h
  | append_singleton p name ih =>
    intro _ hsome
    rw [← List.append_assoc] at hsome
    have hdir := hwf (s ++ p) name hsome
    by_cases hp : p = []
    · subst hp; simpa using hdir
    · exact ih hp (by rw [hdir]; rfl)

theorem ensureDir_ok (fs fs1 : Fs) (p : Path) (h : ensureDir fs p = .ok fs1) :
    fs1.lookup p = some .dir ∧
      (fs.lookup p = some .dir ∧ fs1 = fs ∨ fs.lookup p = none ∧ fs1 = fs.write p .dir) := by
  unfold ensureDir at h
  split at h
  · simp at h
  · next hd =>
    have : fs1 = fs := by injection h with h; exact h.symm
    subst this
    exact ⟨hd, Or.inl ⟨hd, rfl⟩⟩
  · next hn =>
    have : fs1 = fs.write p .dir := by injection h with h; exact h.symm
    subst this
    exact ⟨by simp [Fs.lookup_write], Or.inr ⟨hn, rfl⟩⟩

theorem Fs.WF.write_dir (fs : Fs) (hwf : fs.WF) (p : Path)
    (hparent : ∀ q name, p = q ++ [name] → fs.lookup q = some .dir) :
    (fs.write p .dir).WF := by
  intro q name hsome
  rw [Fs.lookup_write] at hsome ⊢
  by_cases hq : q = p
  · simp [hq]
  · simp only [hq, if_false]
    by_cases hqn : q ++ [name] = p
    · exact hparent q name hqn.symm
    · simp only [hqn, if_false] at hsome
      exact hwf q name hsome

theorem mkdirFrom_ok (rest : List String) :
    ∀ (fs fs1 : Fs) (base : Path), fs.WF →
      (∀ q name, base = q ++ [name] → fs.lookup q = some .dir) →
      mkdirFrom fs base rest = .ok fs1 →
      fs1.WF ∧ fs1.lookup (base ++ rest) = some .dir ∧
        (∀ q, fs1.lookup q = fs.lookup q ∨
          (fs.lookup q = none ∧ q <+: base ++ rest ∧ fs1.lookup q = some .dir)) := by
  induction rest with
  | nil =>
    intro fs fs1 base hwf hparent h
    simp only [mkdirFrom] at h
    obtain ⟨hd, hcase⟩ := ensureDir_ok fs fs1 base h
    rcases hcase with ⟨_, rfl⟩ | ⟨hn, rfl⟩
    · exact ⟨hwf, by simpa using hd, fun q => Or.inl rfl⟩
    · refine ⟨hwf.write_dir fs base hparent, by simpa using hd, ?_⟩
      intro q
      rw [Fs.lookup_write]
      by_cases hq : q = base
      · subst hq
        right
        exact ⟨hn, by simp, by simp⟩
      · left; simp [hq]
  | cons name rest ih =>
    intro fs fs1 base hwf hparent h
    simp only [mkdirFrom] at h
    split at h
    · simp at h
    · next fs2 h2 =>
      obtain ⟨hd, hcase⟩ := ensureDir_ok fs fs2 base h2
      have hwf2 : fs2.WF := by
        rcases hcase with ⟨_, rfl⟩ | ⟨_, rfl⟩
        · exact hwf
        · exact hwf.write_dir fs base hparent
      have hparent2 : ∀ q n, base ++ [name] = q ++ [n] → fs2.lookup q = some .dir := by
        intro q n hq
        have := List.append_inj_left' hq rfl
        rw [← this]; exact hd
      obtain ⟨w1, w2, w3⟩ := ih fs2 fs1 (base ++ [name]) hwf2 hparent2 h
      have happ : base ++ [name] ++ rest = base ++ name :: rest := by simp
      rw [happ] at w2 w3
      refine ⟨w1, w2, ?_⟩
      intro q
      have h12 : fs2.lookup q = fs.lookup q ∨
          (fs.lookup q = none ∧ q = base ∧ fs2.lookup q = some .dir) := by
        rcases hcase with ⟨_, rfl⟩ | ⟨hn, rfl⟩
        · exact Or.inl rfl
        · rw [Fs.lookup_write]
          by_cases hq : q = base
          · subst hq; right; exact ⟨hn, rfl, by simp⟩
          · left; simp [hq]
      rcases w3 q with h3 | ⟨h3n, h3p, h3d⟩
      · rcases h12 with h12 | ⟨h12n, h12q, h12d⟩
        · left; rw [h3, h12]
        · right
          refine ⟨h12n, ?_, by rw [h3, h12d]⟩
          rw [h12q]; exact List.prefix_append _ _
      · rcases h12 with h12 | ⟨_, _, h12d⟩
        · right; exact ⟨by rw [← h12]; exact h3n, h3p, h3d⟩
        · rw [h12d] at h3n; simp at h3n

theorem mkdirSync_ok (fs fs1 : Fs) (p : Path) (hwf : fs.WF) (h : mkdirSync fs p = .ok fs1) :
    fs1.WF ∧ fs1.lookup p = some .dir ∧
      (∀ q, fs1.lookup q = fs.lookup q ∨
        (fs.lookup q = none ∧ q <+: p ∧ fs1.lookup q = some .dir)) := by
  have := mkdirFrom_ok p fs fs1 [] hwf (by intro q name hq; simp at hq) h
  simpa using this

theorem childName_append (p : Path) (name : String) : childName p (p ++ [name]) = some name := by
  simp [childName]

theorem mem_childNames (fs : Fs) (p : Path) (name : String) (node : FsNode)
    (h : fs.lookup (p ++ [name]) = some node) : name ∈ childNames fs p := by
  unfold childNames
  rw [List.mem_dedup, List.mem_filterMap]
  exact ⟨(p ++ [name], node), fs.mem_of_lookup _ _ h, childName_append p name⟩

theorem map_name_filterMap (fs : Fs) (p : Path) (names : List String) :
    (names.filterMap (direntOf fs p)).map Dirent.name
      = names.filter (fun name => (fs.lookup (p ++ [name])).isSome) := by
  induction names with
  | nil => rfl
  | cons a l ih =>
    rw [List.filterMap_cons, List.filter_cons]
    cases h : fs.lookup (p ++ [a]) with
    | none => simpa [direntOf, h] using ih
    | some node => simpa [direntOf, h] using ih

theorem readdirSync_ok (fs : Fs) (p : Path) (entries : List Dirent)
    (h : readdirSync fs p = .ok entries) :
    fs.lookup p = some .dir ∧
      (∀ name node, fs.lookup (p ++ [name]) = some node →
        ({ name := name, isDirectory := decide (node = .dir) } : Dirent) ∈ entries) ∧
      (∀ entry ∈ entries, ∃ node, fs.lookup (p ++ [entry.name]) = some node ∧
        entry.isDirectory = decide (node = .dir)) ∧
      (entries.map Dirent.name).Nodup := by
  unfold readdirSync at h
  split at h
  · simp at h
  · simp at h
  · next hd =>
    have he : entries = _ := (Except.ok.inj h).symm
    refine ⟨hd, ?_, ?_, ?_⟩
    · intro name node hn
      rw [he, List.mem_filterMap]
      exact ⟨name, mem_childNames fs p name node hn, by simp [direntOf, hn]⟩
    · intro entry hentry
      rw [he, List.mem_filterMap] at hentry
      obtain ⟨name, _, hname⟩ := hentry
      unfold direntOf at hname
      cases hl : fs.lookup (p ++ [name]) with
      | none => rw [hl] at hname; simp at hname
      | some node =>
        rw [hl] at hname
        have : entry = { name := name, isDirectory := decide (node = .dir) } := by
          simpa using hname.symm
        subst this
        exact ⟨node, hl, rfl⟩
    · rw [he, map_name_filterMap]
      exact (List.nodup_dedup _).filter _

theorem copyFileSync_ok (fs fs1 : Fs) (src dest : Path) (h : copyFileSync fs src dest = .ok fs1) :
    ∃ content, fs.lookup src = some (.file content) ∧ fs1 = fs.write dest (.file content) ∧
      fs.lookup dest ≠ some .dir ∧ fs.lookup dest.dropLast = some .dir := by
  unfold copyFileSync at h
  split at h
  · simp at h
  · simp at h
  · next content hsrc =>
    split at h
    · simp at h
    · next hdest =>
      split at h
      · next hparent =>
        exact ⟨content, hsrc, (Except.ok.inj h).symm, fun hd => hdest hd, hparent⟩
      · simp at h
      · simp at h

theorem Fs.WF.write_file (fs : Fs) (hwf : fs.WF) (p : Path) (content : String)
    (hparent : fs.lookup p.dropLast = some .dir) (hnodir : fs.lookup p ≠ some .dir) :
    (fs.write p (.file content)).WF := by
  intro q name hsome
  rw [Fs.lookup_write] at hsome ⊢
  by_cases hqn : q ++ [name] = p
  · have hq : q = p.dropLast := by rw [← hqn]; simp
    have hne : q ≠ p := by
      intro h
      rw [h] at hqn
      have := congrArg List.length hqn
      simp at this
    simp only [hne, if_false]
    rw [hq]; exact hparent
  · simp only [hqn, if_false] at hsome
    have hd := hwf q name hsome
    by_cases hq : q = p
    · rw [hq] at hd; exact absurd hd hnodir
    · simp only [hq, if_false]; exact hd

theorem not_prefix_below (s d : Path) (hsd : ¬ s <+: d) (hds : ¬ d <+: s) (p : Path) :
    ¬ d <+: s ++ p := by
  intro h
  rcases List.prefix_or_prefix_of_prefix h (List.prefix_append s p) with h1 | h1
  · exact hds h1
  · exact hsd h1

theorem below_not_initial (s d : Path) (hsd : ¬ s <+: d) (p : Path) : ¬ s ++ p <+: d := by
  intro h
  exact hsd ((List.prefix_append s p).trans h)

theorem child_prefix_child (d p : Path) (m n : String) (h : d ++ [m] <+: d ++ [n] ++ p) :
    m = n := by
  rw [List.append_assoc, List.prefix_append_right_inj] at h
  simp only [List.singleton_append] at h
  exact (List.cons_prefix_cons.mp h).1

theorem child_not_prefix_parent (d q : Path) (m : String) (hq : q <+: d) : ¬ d ++ [m] <+: q := by
  intro h
  have h1 := (h.trans hq).length_le
  simp at h1

theorem disjoint_child (s d : Path) (n : String) (hsd : ¬ s <+: d) (hds : ¬ d <+: s) :
    ¬ s ++ [n] <+: d ++ [n] ∧ ¬ d ++ [n] <+: s ++ [n] := by
  constructor
  · intro h
    rcases List.prefix_concat_iff.mp h with h1 | h1
    · exact hsd (by rw [List.append_cancel_right h1])
    · exact below_not_initial s d hsd [n] h1
  · intro h
    rcases List.prefix_concat_iff.mp h with h1 | h1
    · exact hds (by rw [List.append_cancel_right h1])
    · exact below_not_initial d s hds [n] h1

theorem copyPost_of_missing (fs : Fs) (hwf : fs.WF) (s d : Path) (hs : fs.lookup s = none) :
    CopyPost fs fs s d := by
  have hnone : ∀ p node, fs.lookup (s ++ p) = some node → False := by
    intro p node hp
    by_cases hnil : p = []
    · subst hnil
      rw [List.append_nil, hs] at hp
      simp at hp
    · have := hwf.dir_of_below fs s p hnil (by rw [hp]; rfl)
      rw [hs] at this
      simp at this
  exact ⟨hwf, fun q _ => Or.inl rfl, fun p c hp => (hnone p _ hp).elim,
    fun p hp => (hnone p _ hp).elim⟩

theorem copyFileSync_post (fs fs1 : Fs) (hwf : fs.WF) (s d : Path)
    (h : copyFileSync fs s d = .ok fs1) : CopyPost fs fs1 s d := by
  obtain ⟨c, hsrc, rfl, hnodir, hparent⟩ := copyFileSync_ok fs fs1 s d h
  have hleaf : ∀ p node, fs.lookup (s ++ p) = some node → p = [] := by
    intro p node hp
    by_contra hnil
    have := hwf.dir_of_below fs s p hnil (by rw [hp]; rfl)
    rw [hsrc] at this
    simp at this
  refine ⟨hwf.write_file fs d c hparent hnodir, ?_, ?_, ?_⟩
  · intro q hq
    left
    rw [Fs.lookup_write]
    have : q ≠ d := fun h => hq (by rw [h])
    simp [this]
  · intro p content hp
    have := hleaf p _ hp
    subst this
    rw [List.append_nil] at hp ⊢
    rw [hsrc] at hp
    rw [Fs.lookup_write]
    simpa using hp
  · intro p hp
    have := hleaf p _ hp
    subst this
    rw [List.append_nil, hsrc] at hp
    simp at hp

theorem copyLoop_step (fs1 cur cur1 : Fs) (s d : Path) (done : List String) (n : String)
    (hsd : ¬ s <+: d) (hds : ¬ d <+: s)
    (hexists : ∀ q, q <+: d → fs1.lookup q ≠ none)
    (hn : n ∉ done) (hinv : CopyLoopInv fs1 cur s d done)
    (hpost : CopyPost cur cur1 (s ++ [n]) (d ++ [n])) :
    CopyLoopInv fs1 cur1 s d (done ++ [n]) := by
  obtain ⟨_, hsame, hdone⟩ := hinv
  obtain ⟨hwf1, hframe, hfile, hdir⟩ := hpost
  have hpure : ∀ q, ¬ (d ++ [n]) <+: q → cur1.lookup q = cur.lookup q := by
    intro q hq
    rcases hframe q hq with h | ⟨hnone, hpre, _⟩
    · exact h
    · rcases List.prefix_concat_iff.mp hpre with h1 | h1
      · exact absurd (by rw [h1]) hq
      · have := hsame q (fun m _ => child_not_prefix_parent d q m h1)
        rw [this] at hnone
        exact absurd hnone (hexists q h1)
  have hsrc : ∀ p, cur.lookup (s ++ [n] ++ p) = fs1.lookup (s ++ [n] ++ p) := by
    intro p
    apply hsame
    intro m _ hm
    rw [List.append_assoc] at hm
    exact not_prefix_below s d hsd hds _ ((List.prefix_append d [m]).trans hm)
  have hdst : ∀ p, cur.lookup (d ++ [n] ++ p) = fs1.lookup (d ++ [n] ++ p) := by
    intro p
    apply hsame
    intro m hm hpre
    exact hn (child_prefix_child d p m n hpre ▸ hm)
  refine ⟨hwf1, ?_, ?_⟩
  · intro q hq
    rw [hpure q (hq n (by simp))]
    exact hsame q (fun m hm => hq m (by simp [hm]))
  · intro m hm
    rcases List.mem_append.mp hm with hm | hm
    · have hmn : m ≠ n := fun h => hn (h ▸ hm)
      have hkeep : ∀ p, cur1.lookup (d ++ [m] ++ p) = cur.lookup (d ++ [m] ++ p) := by
        intro p
        apply hpure
        intro hpre
        exact hmn (child_prefix_child d p n m hpre).symm
      obtain ⟨hf, hd⟩ := hdone m hm
      refine ⟨fun p c hp => by rw [hkeep]; exact hf p c hp, fun p hp => ?_⟩
      rw [hkeep]
      exact hd p hp
    · have : m = n := by simpa using hm
      subst this
      refine ⟨fun p c hp => hfile p c (by rw [hsrc]; exact hp), fun p hp => ?_⟩
      rcases hdir p (by rw [hsrc]; exact hp) with h | ⟨c, h1, h2, h3⟩
      · exact Or.inl h
      · right
        refine ⟨c, by rw [← hdst]; exact h1, h2, fun child => ?_⟩
        have e := hsrc (p ++ [child])
        rw [← List.append_assoc] at e
        rw [← e]
        exact h3 child

theorem copyEntries_inv (copyDir : Fs → Path → Path → FsResult) (fs1 : Fs) (s d : Path)
    (hsd : ¬ s <+: d) (hds : ¬ d <+: s)
    (hexists : ∀ q, q <+: d → fs1.lookup q ≠ none)
    (hrec : ∀ (cur cur1 : Fs) (n : String), cur.WF →
      copyDir cur (s ++ [n]) (d ++ [n]) = .ok cur1 → CopyPost cur cur1 (s ++ [n]) (d ++ [n])) :
    ∀ (entries : List Dirent) (done : List String) (cur fs2 : Fs),
      (entries.map Dirent.name).Nodup → (∀ e ∈ entries, e.name ∉ done) →
      CopyLoopInv fs1 cur s d done →
      copyEntries copyDir cur s d entries = .ok fs2 →
      CopyLoopInv fs1 fs2 s d (done ++ entries.map Dirent.name) := by
  intro entries
  induction entries with
  | nil =>
    intro done cur fs2 _ _ hinv h
    simp only [copyEntries] at h
    have : fs2 = cur := (Except.ok.inj h).symm
    subst this
    simpa using hinv
  | cons e rest ih =>
    intro done cur fs2 hnodup hfresh hinv h
    simp only [copyEntries] at h
    split at h
    · simp at h
    · next cur1 hstep =>
      have hpost : CopyPost cur cur1 (s ++ [e.name]) (d ++ [e.name]) := by
        by_cases hdirent : e.isDirectory = true
        · simp only [hdirent, if_true] at hstep
          exact hrec cur cur1 e.name hinv.1 hstep
        · simp only [hdirent] at hstep
          exact copyFileSync_post cur cur1 hinv.1 _ _ hstep
      have hinv1 := copyLoop_step fs1 cur cur1 s d done e.name hsd hds hexists
        (hfresh e (List.mem_cons_self _ _)) hinv hpost
      rw [List.map_cons, List.nodup_cons] at hnodup
      have := ih (done ++ [e.name]) cur1 fs2 hnodup.2 (by
        intro e2 he2 hmem
        rcases List.mem_append.mp hmem with hmem | hmem
        · exact hfresh e2 (List.mem_cons_of_mem _ he2) hmem
        · have : e2.name = e.name := by simpa using hmem
          exact hnodup.1 (this ▸ List.mem_map_of_mem _ he2)) hinv1 h
      simpa using this

theorem copyDirSync_post (depth : Nat) :
    ∀ (fs fs2 : Fs) (s d : Path), fs.WF → ¬ s <+: d → ¬ d <+: s →
      copyDirSync depth fs s d = .ok fs2 → CopyPost fs fs2 s d := by
  induction depth with
  | zero =>
    intro fs fs2 s d _ _ _ h
    simp [copyDirSync] at h
  | succ depth ih =>
    intro fs fs2 s d hwf hsd hds h
    simp only [copyDirSync] at h
    split at h
    · next hmissing =>
      have : fs2 = fs := (Except.ok.inj h).symm
      subst this
      apply copyPost_of_missing fs2 hwf
      simpa [existsSync] using hmissing
    · split at h
      · simp at h
      · next fs1 hmade =>
        split at h
        · simp at h
        · next entries hread =>
          -- the filesystem once `dest` is there
          have hmk : fs1.WF ∧ (fs1.lookup d).isSome = true ∧
              (∀ q, fs1.lookup q = fs.lookup q ∨
                (fs.lookup q = none ∧ q <+: d ∧ fs1.lookup q = some .dir)) := by
            by_cases hd : existsSync fs d = true
            · simp only [hd, Bool.not_true, Bool.false_eq_true, if_false] at hmade
              have : fs1 = fs := (Except.ok.inj hmade).symm
              subst this
              exact ⟨hwf, hd, fun q => Or.inl rfl⟩
            · simp only [hd, Bool.not_false, if_true] at hmade
              obtain ⟨w1, w2, w3⟩ := mkdirSync_ok fs fs1 d hwf hmade
              exact ⟨w1, by rw [w2]; rfl, w3⟩
          obtain ⟨hwf1, hdest, hframe0⟩ := hmk
          have hsrcsame : ∀ p, fs1.lookup (s ++ p) = fs.lookup (s ++ p) := by
            intro p
            rcases hframe0 (s ++ p) with h1 | ⟨_, h1, _⟩
            · exact h1
            · exact absurd h1 (below_not_initial s d hsd p)
          have hexists : ∀ q, q <+: d → fs1.lookup q ≠ none := by
            intro q hq hnone
            obtain ⟨r, rfl⟩ := hq
            by_cases hr : r = []
            · subst hr
              rw [List.append_nil] at hdest
              rw [hnone] at hdest
              simp at hdest
            · have := hwf1.dir_of_below fs1 q r hr hdest
              rw [hnone] at this
              simp at this
          obtain ⟨hsdir, hlisted, hentries, hnodup⟩ := readdirSync_ok fs1 s entries hread
          have hloop := copyEntries_inv (copyDirSync depth) fs1 s d hsd hds hexists
            (fun cur cur1 n hcur hcopy =>
              ih cur cur1 (s ++ [n]) (d ++ [n]) hcur (disjoint_child s d n hsd hds).1
                (disjoint_child s d n hsd hds).2 hcopy)
            entries [] fs1 fs2 hnodup (fun _ _ hmem => by simp at hmem)
            ⟨hwf1, fun _ _ => rfl, fun _ hmem => by simp at hmem⟩ h
          simp only [List.nil_append] at hloop
          obtain ⟨hwf2, hsame, hdone⟩ := hloop
          have hmem : ∀ n p node, fs1.lookup (s ++ [n] ++ p) = some node →
              n ∈ entries.map Dirent.name := by
            intro n p node hp
            have hchild : (fs1.lookup (s ++ [n])).isSome = true := by
              by_cases hnil : p = []
              · subst hnil
                rw [List.append_nil] at hp
                rw [hp]; rfl
              · rw [hwf1.dir_of_below fs1 (s ++ [n]) p hnil (by rw [hp]; rfl)]; rfl
            obtain ⟨child, hchild⟩ := Option.isSome_iff_exists.mp hchild
            exact List.mem_map_of_mem Dirent.name (hlisted n child hchild)
          have hdsame : fs2.lookup d = fs1.lookup d :=
            hsame d (fun m _ => child_not_prefix_parent d d m (List.prefix_refl d))
          refine ⟨hwf2, ?_, ?_, ?_⟩
          · intro q hq
            rw [hsame q (fun m _ hm => hq ((List.prefix_append d [m]).trans hm))]
            exact hframe0 q
          · intro p content hp
            rw [← hsrcsame] at hp
            cases p with
            | nil =>
              rw [List.append_nil, hsdir] at hp
              simp at hp
            | cons n p =>
              have e : s ++ n :: p = s ++ [n] ++ p := by simp
              have e2 : d ++ n :: p = d ++ [n] ++ p := by simp
              rw [e] at hp
              rw [e2]
              exact (hdone n (hmem n p _ hp)).1 p content hp
          · intro p hp
            rw [← hsrcsame] at hp
            cases p with
            | nil =>
              rw [List.append_nil, hdsame]
              obtain ⟨node, hnode⟩ := Option.isSome_iff_exists.mp hdest
              cases node with
              | dir => exact Or.inl hnode
              | file c =>
                right
                refine ⟨c, ?_, hnode, ?_⟩
                · rcases hframe0 d with h1 | ⟨_, _, h1⟩
                  · rw [← h1]; exact hnode
                  · rw [h1] at hnode; simp at hnode
                · intro name
                  by_contra hsome
                  rw [List.append_nil, ← hsrcsame] at hsome
                  obtain ⟨child, hchild⟩ := Option.ne_none_iff_exists'.mp hsome
                  have hin := hmem name [] child (by simpa using hchild)
                  obtain ⟨hf, hdd⟩ := hdone name hin
                  have hthere : (fs2.lookup (d ++ [name])).isSome = true := by
                    cases child with
                    | file c2 =>
                      have := hf [] c2 (by simpa using hchild)
                      rw [List.append_nil] at this
                      rw [this]; rfl
                    | dir =>
                      rcases hdd [] (by simpa using hchild) with h1 | ⟨c2, _, h1, _⟩
                      · rw [List.append_nil] at h1; rw [h1]; rfl
                      · rw [List.append_nil] at h1; rw [h1]; rfl
                  have := hwf2 d name hthere
                  rw [hdsame, hnode] at this
                  simp at this
            | cons n p =>
              have e : s ++ n :: p = s ++ [n] ++ p := by simp
              have e2 : d ++ n :: p = d ++ [n] ++ p := by simp
              rw [e] at hp
              rw [e2]
              rcases (hdone n (hmem n p _ hp)).2 p hp with h1 | ⟨c, h1, h2, h3⟩
              · exact Or.inl h1
              · right
                refine ⟨c, ?_, h2, ?_⟩
                · rcases hframe0 (d ++ [n] ++ p) with h4 | ⟨_, _, h4⟩
                  · rw [← h4]; exact h1
                  · rw [h4] at h1; simp at h1
                · intro name
                  rw [e]
                  have := h3 name
                  have e3 : s ++ [n] ++ p ++ [name] = s ++ ([n] ++ p ++ [name]) := by simp
                  rw [e3] at this ⊢
                  rw [← hsrcsame]; exact this

/-- C9 (atomic rejection in `switchVersion`): for every variant id and every
filesystem and configuration, if `isVersionInstalled(id)` is false then
`switchVersion(id)` returns a failure result, and on every failure result of
`switchVersion` (unknown id, missing local installation, not installed, or
data-migration error) the persisted configuration, `activeVersion` included,
is exactly what it was before the call. -/
theorem switchVersion_rejects (homeDir : Path) (depth : Nat) (version : String) (w : World) :
    (isVersionInstalled homeDir w version = false →
        (switchVersion homeDir depth version w).1.success = false) ∧
      ((switchVersion homeDir depth version w).1.success = false →
        (switchVersion homeDir depth version w).2.configFile = w.configFile ∧
          loadConfig (switchVersion homeDir depth version w).2 = loadConfig w) := by
  unfold switchVersion
  simp only
  split
  · exact ⟨fun _ => rfl, fun _ => ⟨rfl, rfl⟩⟩
  · split
    · exact ⟨fun _ => rfl, fun _ => ⟨rfl, rfl⟩⟩
    · split
      · exact ⟨fun _ => rfl, fun _ => ⟨rfl, rfl⟩⟩
      · next hinst =>
        constructor
        · intro hno
          rw [hno] at hinst
          simp at hinst
        · split
          · intro _; exact ⟨rfl, rfl⟩
          · intro hfail; simp at hfail

/-- The rejection at the sample home directory, where 1.14.0 is cloned but has no
dependencies installed. -/
theorem switchVersion_rejects_witness :
    isVersionInstalled ["home"] sampleWorld "1.14.0" = false ∧
      (switchVersion ["home"] 50 "1.14.0" sampleWorld).1.success = false ∧
      (switchVersion ["home"] 50 "1.14.0" sampleWorld).2.configFile = sampleWorld.configFile :=
  ⟨by decide, (switchVersion_rejects ["home"] 50 "1.14.0" sampleWorld).1 (by decide),
    ((switchVersion_rejects ["home"] 50 "1.14.0" sampleWorld).2
      ((switchVersion_rejects ["home"] 50 "1.14.0" sampleWorld).1 (by decide))).1⟩

theorem Fs.WF_of_wfCheck (fs : Fs) (h : fs.wfCheck = true) : fs.WF := by
  intro p name hsome
  obtain ⟨node, hnode⟩ := Option.isSome_iff_exists.mp hsome
  have hmem := fs.mem_of_lookup _ _ hnode
  unfold Fs.wfCheck at h
  rw [List.all_eq_true] at h
  have := h _ hmem
  simpa using this

theorem pathJoin_available (base : Path) (v : String) (hv : v ∈ availableVersionIds) :
    pathJoin base v = base ++ [v] ∧ jsStartsWith v "local_" = false := by
  simp only [availableVersionIds, List.mem_cons, List.mem_singleton, List.not_mem_nil,
    or_false] at hv
  rcases hv with rfl | rfl | rfl | rfl
  · exact ⟨by simp [pathJoin, show splitSlash "1.14.0".data [] = ["1.14.0"] by decide],
      by decide⟩
  · exact ⟨by simp [pathJoin, show splitSlash "1.13.5".data [] = ["1.13.5"] by decide],
      by decide⟩
  · exact ⟨by simp [pathJoin, show splitSlash "1.13.4".data [] = ["1.13.4"] by decide],
      by decide⟩
  · exact ⟨by simp [pathJoin, show splitSlash "1.12.14".data [] = ["1.12.14"] by decide],
      by decide⟩

theorem getVersionPath_available (homeDir : Path) (w : World) (v : String)
    (hv : v ∈ availableVersionIds) :
    getVersionPath homeDir w v = versionsDir homeDir ++ [v] := by
  obtain ⟨h1, h2⟩ := pathJoin_available (versionsDir homeDir) v hv
  simp [getVersionPath, h1, h2]

theorem switchVersion_copies (homeDir : Path) (depth : Nat) (w : World) (a b : String)
    (ha : a ∈ availableVersionIds) (hb : b ∈ availableVersionIds) (hwf : w.fs.WF)
    (hactive : (loadConfig w).activeVersion = some a)
    (hok : (switchVersion homeDir depth b w).1.success = true)
    (p : Path) (content : String)
    (hfile : w.fs.lookup (versionsDir homeDir ++ [a] ++ ["data"] ++ p) = some (.file content)) :
    (switchVersion homeDir depth b w).2.fs.lookup (versionsDir homeDir ++ [b] ++ ["data"] ++ p)
      = some (.file content) := by
  have hpa := getVersionPath_available homeDir w a ha
  have hpb := getVersionPath_available homeDir w b hb
  have hlb := (pathJoin_available (versionsDir homeDir) b hb).2
  have hbav : hasAvailableVersion b = true := by
    simp [hasAvailableVersion, hb]
  have hatruthy : truthyString (some a) = true := by
    simp only [availableVersionIds, List.mem_cons, List.mem_singleton, List.not_mem_nil,
      or_false] at ha
    rcases ha with rfl | rfl | rfl | rfl <;> decide
  have hfs_save : ∀ (w1 : World) (c : LauncherConfig), (saveConfig w1 c).fs = w1.fs := by
    intro w1 c
    unfold saveConfig
    split <;> rfl
  unfold switchVersion at hok ⊢
  simp only [hlb, hbav, hactive, hatruthy, hpa, hpb, Option.getD_some, Bool.not_false,
    Bool.not_true, Bool.false_and, Bool.and_true, Bool.true_and, Bool.false_eq_true,
    if_false] at hok ⊢
  split at hok
  · simp at hok
  · next hinst =>
    simp only [hinst, if_false]
    by_cases hab : a = b
    · subst hab
      have hfile2 := hfile
      simp only [List.append_assoc, List.singleton_append, List.cons_append, List.nil_append] at hfile2
      simp [hfs_save, hfile2]
    · have hne : (some a : Option String) ≠ some b := fun h => hab (Option.some.inj h)
      simp only [hne, ne_eq, not_false_eq_true, decide_True, if_true] at hok ⊢
      have hexists : existsSync w.fs (versionsDir homeDir ++ [a] ++ ["data"]) = true := by
        unfold existsSync
        by_cases hnil : p = []
        · subst hnil
          rw [List.append_nil] at hfile
          rw [hfile]; rfl
        · rw [hwf.dir_of_below w.fs _ p hnil (by rw [hfile]; rfl)]; rfl
      simp only [hexists, if_true] at hok ⊢
      split at hok
      · simp at hok
      · next fs1 hcopy =>
        simp only [Bool.false_eq_true, if_false, hfs_save]
        have hdisj : ¬ (versionsDir homeDir ++ [a] ++ ["data"])
              <+: (versionsDir homeDir ++ [b] ++ ["data"]) ∧
            ¬ (versionsDir homeDir ++ [b] ++ ["data"])
              <+: (versionsDir homeDir ++ [a] ++ ["data"]) := by
          constructor
          · intro hpre
            have := List.IsPrefix.eq_of_length hpre (by simp)
            simp at this
            exact hab this
          · intro hpre
            have := List.IsPrefix.eq_of_length hpre (by simp)
            simp at this
            exact hab this.symm
        exact (copyDirSync_post depth w.fs fs1 _ _ hwf hdisj.1 hdisj.2 hcopy).2.2.1 p content
          hfile

/-- C10, as stated, fails. With the destination `a` containing the source
`a/b`, the copy completes, yet the file `f` of the source, of content `1`, is
`2` under the destination, and the file `g` the source has afterwards is not
under the destination at all. With the source apart from the destination, an
empty directory `sub` of the source is a regular file under the destination. -/
theorem copyDirSync_overlap_and_collision :
    overlapFs.WF ∧
      overlapFs.lookup (["a", "b"] ++ ["f"]) = some (.file "1") ∧
      (completed (copyDirSync 10 overlapFs ["a", "b"] ["a"])).map
          (fun fs1 => fs1.lookup (["a"] ++ ["f"])) = some (some (.file "2")) ∧
      (completed (copyDirSync 10 overlapFs ["a", "b"] ["a"])).map
          (fun fs1 => (fs1.lookup (["a", "b"] ++ ["g"]), fs1.lookup (["a"] ++ ["g"])))
        = some (some (.file "3"), none) ∧
      collisionFs.WF ∧
      collisionFs.lookup (["s"] ++ ["sub"]) = some .dir ∧
      (completed (copyDirSync 10 collisionFs ["s"] ["d"])).map
          (fun fs1 => fs1.lookup (["d"] ++ ["sub"])) = some (some (.file "x")) :=
  ⟨Fs.WF_of_wfCheck _ (by decide), by decide, by decide, by decide,
    Fs.WF_of_wfCheck _ (by decide), by decide, by decide⟩

/-- C10, amended (completeness of the data copy): over a filesystem that is a
tree, for every source and destination of which neither lies inside the
other, if `copyDirSync(src, dest)` completes without error then every file at
a relative path under `src` is a file of the same content at the same relative
path under `dest`; every directory at a relative path under `src` exists at
that path under `dest`, as a directory unless it is an empty directory and a
regular file was at that path of `dest` before, which stays; the tree under
`src` is unchanged and the filesystem is still a tree. So a successful
`switchVersion` from catalog variant A to catalog variant B leaves every file
of A's data subtree present under B's data subtree. -/
theorem copyDirSync_complete :
    (∀ (depth : Nat) (fs fs1 : Fs) (src dest : Path),
      fs.WF → ¬ src <+: dest → ¬ dest <+: src → copyDirSync depth fs src dest = .ok fs1 →
        (∀ (p : Path) (content : String), fs.lookup (src ++ p) = some (.file content) →
          fs1.lookup (dest ++ p) = some (.file content)) ∧
        (∀ p : Path, fs.lookup (src ++ p) = some .dir →
          fs1.lookup (dest ++ p) = some .dir ∨
            ∃ content, fs.lookup (dest ++ p) = some (.file content) ∧
              fs1.lookup (dest ++ p) = some (.file content) ∧
              ∀ name, fs.lookup (src ++ p ++ [name]) = none) ∧
        (∀ p : Path, fs1.lookup (src ++ p) = fs.lookup (src ++ p)) ∧
        fs1.WF) ∧
      (∀ (homeDir : Path) (depth : Nat) (w : World) (a b : String),
        a ∈ availableVersionIds → b ∈ availableVersionIds → w.fs.WF →
        (loadConfig w).activeVersion = some a →
        (switchVersion homeDir depth b w).1.success = true →
        ∀ (p : Path) (content : String),
          w.fs.lookup (versionsDir homeDir ++ [a] ++ ["data"] ++ p) = some (.file content) →
          (switchVersion homeDir depth b w).2.fs.lookup
              (versionsDir homeDir ++ [b] ++ ["data"] ++ p) = some (.file content)) := by
  constructor
  · intro depth fs fs1 src dest hwf hsd hds h
    obtain ⟨hwf1, hframe, hfile, hdir⟩ := copyDirSync_post depth fs fs1 src dest hwf hsd hds h
    refine ⟨hfile, hdir, ?_, hwf1⟩
    intro p
    rcases hframe (src ++ p) (not_prefix_below src dest hsd hds p) with h1 | ⟨_, h1, _⟩
    · exact h1
    · exact absurd h1 (below_not_initial src dest hsd p)
  · intro homeDir depth w a b ha hb hwf hactive hok p content hfile
    exact switchVersion_copies homeDir depth w a b ha hb hwf hactive hok p content hfile

/-- The copy of the sample tree `s` to `d` completes, and the file `sub/g` of
`s` is under `d` with its content; the switch of the sample home directory from
1.13.5 to 1.14.0 succeeds and leaves the data file `chat` under 1.14.0. -/
theorem copyDirSync_complete_witness :
    sampleFs.WF ∧ ¬ ["s"] <+: ["d"] ∧ ¬ ["d"] <+: ["s"] ∧
      copyDirSync 10 sampleFs ["s"] ["d"] = .ok sampleFsCopied ∧
      sampleFs.lookup (["s"] ++ ["sub", "g"]) = some (.file "2") ∧
      sampleFsCopied.lookup (["d"] ++ ["sub", "g"]) = some (.file "2") ∧
      (switchVersion ["home"] 10 "1.14.0" sampleWorldInstalled).1.success = true ∧
      (switchVersion ["home"] 10 "1.14.0" sampleWorldInstalled).2.fs.lookup
          (versionsDir ["home"] ++ ["1.14.0"] ++ ["data"] ++ ["chat"])
        = some (.file "hello") :=
  ⟨Fs.WF_of_wfCheck _ (by decide), by decide, by decide, by rfl, by decide,
    (copyDirSync_complete.1 10 sampleFs sampleFsCopied ["s"] ["d"]
      (Fs.WF_of_wfCheck _ (by decide)) (by decide) (by decide) (by rfl)).1 ["sub", "g"] "2"
      (by decide),
    by decide,
    copyDirSync_complete.2 ["home"] 10 sampleWorldInstalled "1.13.5" "1.14.0" (by decide)
      (by decide) (Fs.WF_of_wfCheck _ (by decide)) (by decide) (by decide) ["chat"] "hello"
      (by decide)⟩

/-- C11, the code at the failing input: the discovered installation `local_ST`
is the active variant and has a data file, the catalog variant 1.14.0 is
installed, and `switchVersion('1.14.0')` is called. The guard of the migration
looks at the target only, so `copyDirSync` is invoked with a discovered
variant as the old one, and the file `data/chat` is created in the directory
of 1.14.0. -/
theorem switchVersion_copies_from_local :
    (loadConfig localWorld).activeVersion = some "local_ST" ∧
      jsStartsWith "local_ST" "local_" = true ∧
      (localWorld.localInstallations.lookup "local_ST").isSome = true ∧
      (switchVersion ["home"] 10 "1.14.0" localWorld).1.success = true ∧
      localWorld.fs.lookup (versionsDir ["home"] ++ ["1.14.0"] ++ ["data", "chat"]) = none ∧
      (switchVersion ["home"] 10 "1.14.0" localWorld).2.fs.lookup
          (versionsDir ["home"] ++ ["1.14.0"] ++ ["data", "chat"]) = some (.file "hello") := by
  decide

/-- The gate of the migration in `switchVersion`: the filesystem tree is changed
only if the target is not a discovered (`local_*`) id, the old variant is set
and differs from the target, and the data directory of the old variant
exists; with a discovered target the tree is left as it is. -/
theorem switchVersion_migration_gate (homeDir : Path) (depth : Nat) (version : String)
    (w : World) :
    (jsStartsWith version "local_" = true →
        (switchVersion homeDir depth version w).2.fs = w.fs) ∧
      ((switchVersion homeDir depth version w).2.fs ≠ w.fs →
        jsStartsWith version "local_" = false ∧
          truthyString (loadConfig w).activeVersion = true ∧
          (loadConfig w).activeVersion ≠ some version ∧
          existsSync w.fs
            (getVersionPath homeDir w ((loadConfig w).activeVersion.getD "") ++ ["data"])
            = true) := by
  have hfs_save : ∀ (w1 : World) (c : LauncherConfig), (saveConfig w1 c).fs = w1.fs := by
    intro w1 c
    unfold saveConfig
    split <;> rfl
  have key : ¬ (jsStartsWith version "local_" = false ∧
          truthyString (loadConfig w).activeVersion = true ∧
          (loadConfig w).activeVersion ≠ some version ∧
          existsSync w.fs
            (getVersionPath homeDir w ((loadConfig w).activeVersion.getD "") ++ ["data"])
            = true) →
      (switchVersion homeDir depth version w).2.fs = w.fs := by
    intro hno
    unfold switchVersion
    simp only
    split
    · rfl
    · split
      · rfl
      · split
        · rfl
        · by_cases hcond : (truthyString (loadConfig w).activeVersion &&
              decide ((loadConfig w).activeVersion ≠ some version) &&
              !jsStartsWith version "local_") = true
          · simp only [hcond, if_true]
            by_cases hex : existsSync w.fs
                (getVersionPath homeDir w ((loadConfig w).activeVersion.getD "") ++ ["data"])
                = true
            · exfalso
              apply hno
              simp only [Bool.and_eq_true, decide_eq_true_eq, Bool.not_eq_true'] at hcond
              exact ⟨hcond.2, hcond.1.1, hcond.1.2, hex⟩
            · simp only [hex, Bool.false_eq_true, if_false, hfs_save]
          · simp only [hcond, Bool.false_eq_true, if_false, hfs_save]
  constructor
  · intro hlocal
    apply key
    rintro ⟨h1, _⟩
    rw [hlocal] at h1
    simp at h1
  · intro hchanged
    by_contra hno
    exact hchanged (key hno)

/-- The gate at the sample home directory: the switch from 1.13.5 to the
discovered id `local_ST` changes no file, whatever it returns. -/
theorem switchVersion_migration_gate_witness :
    jsStartsWith "local_ST" "local_" = true ∧
      (switchVersion ["home"] 10 "local_ST" sampleWorld).2.fs = sampleWorld.fs :=
  ⟨by decide, (switchVersion_migration_gate ["home"] 10 "local_ST" sampleWorld).1 (by decide)⟩

/-- C12, as stated, fails: with CONFIG_FILE holding the JSON value `null` and a
child held, `uninstallVersion` of the installed version 1.13.5 throws at the
comparison with `config.activeVersion` instead of returning a failure result;
it deletes nothing. -/
theorem uninstallVersion_throws_on_null_config :
    hasAvailableVersion "1.13.5" = true ∧
      existsSync sampleWorld.fs (getVersionPath ["home"] sampleWorld "1.13.5") = true ∧
      uninstallVersion ["home"] (some 7) "1.13.5" .null sampleWorld = .threw sampleWorld ∧
      (uninstallVersion ["home"] (some 7) "1.13.5" .null sampleWorld).result = none := by
  decide

/-- C12, amended (refusal of `uninstallVersion`): for every variant id and
every state in which `loadConfig()` yields a record, as for every file that
`saveConfig` has written and for a missing or unparsable file, if the id equals
the configured active variant, or if the supervisor holds a process handle,
whatever variant it runs, then `uninstallVersion(id)` returns a failure result
and deletes nothing: the filesystem and the rest of the state are unchanged.
When the file holds the JSON value `null` the call may throw instead of
returning, and in that case too, with a handle held, nothing is deleted. -/
theorem uninstallVersion_refuses (homeDir : Path) (sillyTavernProcess : Option Nat)
    (version : String) (config : LauncherConfig) (w : World)
    (h : config.activeVersion = some version ∨ sillyTavernProcess.isSome = true) :
    (∃ result, uninstallVersion homeDir sillyTavernProcess version (.record config) w
          = .returned result w ∧ result.success = false) ∧
      (uninstallVersion homeDir sillyTavernProcess version (.record config) w).world.fs
        = w.fs ∧
      (sillyTavernProcess.isSome = true →
        (uninstallVersion homeDir sillyTavernProcess version .null w).world = w ∧
          (uninstallVersion homeDir sillyTavernProcess version .null w).result.map
              Result.success ≠ some true) := by
  have hrec : ∃ result, uninstallVersion homeDir sillyTavernProcess version (.record config) w
        = .returned result w ∧ result.success = false := by
    unfold uninstallVersion
    simp only
    split
    · exact ⟨_, rfl, rfl⟩
    · split
      · exact ⟨_, rfl, rfl⟩
      · split
        · exact ⟨_, rfl, rfl⟩
        · next hactive =>
          split
          · exact ⟨_, rfl, rfl⟩
          · next hproc =>
            rcases h with h | h
            · exact absurd (by simpa using h) hactive
            · exact absurd h hproc
  refine ⟨hrec, ?_, ?_⟩
  · obtain ⟨result, hr, _⟩ := hrec
    rw [hr]
    rfl
  · intro _
    unfold uninstallVersion
    simp only
    split
    · exact ⟨rfl, by simp [UninstallOutcome.result]⟩
    · split
      · exact ⟨rfl, by simp [UninstallOutcome.result]⟩
      · exact ⟨rfl, by simp [UninstallOutcome.result]⟩

/-- The refusal at the sample home directory, with the configuration it holds:
the active version 1.13.5 is not uninstalled, and nothing is uninstalled while
a child is held. -/
theorem uninstallVersion_refuses_witness :
    (loadConfig sampleWorld).activeVersion = some "1.13.5" ∧
      (∃ result, uninstallVersion ["home"] none "1.13.5" (.record (loadConfig sampleWorld))
            sampleWorld = .returned result sampleWorld ∧ result.success = false) ∧
      (uninstallVersion ["home"] (some 7) "1.14.0" (.record (loadConfig sampleWorld))
        sampleWorld).world.fs = sampleWorld.fs :=
  ⟨by decide,
    (uninstallVersion_refuses ["home"] none "1.13.5" (loadConfig sampleWorld) sampleWorld
      (Or.inl (by decide))).1,
    (uninstallVersion_refuses ["home"] (some 7) "1.14.0" (loadConfig sampleWorld) sampleWorld
      (Or.inr rfl)).2.1⟩

/-- C15, the code at the failing input: the discovered installation `local_ST`
is in `localInstallations`, its directory has no `node_modules`, and
`isVersionInstalled` returns false although `getVersionsList` reports it as
installed. -/
theorem isVersionInstalled_local_without_modules :
    (localWorld.localInstallations.lookup "local_ST").isSome = true ∧
      isVersionInstalled ["home"] localWorld "local_ST" = false ∧
      ((getVersionsList ["home"] localWorld).filter (fun e => e.version = "local_ST")).map
          VersionEntry.installed = [true] := by
  decide

/-- C16, as stated, fails: a directory with both files whose manifest names the
package `SILLYTAVERN`, equal to `sillytavern` when case is ignored, does not
qualify. -/
theorem isSillyTavernDir_rejects_upper_case :
    existsSync upperCaseFs (["home", "ST"] ++ ["package.json"]) = true ∧
      existsSync upperCaseFs (["home", "ST"] ++ ["server.js"]) = true ∧
      sampleManifestName "SILLYTAVERN" = some (some "SILLYTAVERN") ∧
      eqIgnoreCase "SILLYTAVERN" "sillytavern" = true ∧
      isSillyTavernDir sampleManifestName upperCaseFs ["home", "ST"] = false := by
  decide

/-- C16, amended (qualification of a candidate directory): `isSillyTavernDir(dir)`
returns true if and only if `dir` contains both `package.json` and `server.js`
and the manifest is a file that parses with a name that is exactly
`sillytavern` or exactly `SillyTavern`; an unreadable or unparsable manifest
yields false, and the function always returns a boolean. -/
theorem isSillyTavernDir_exact_names (manifestName : String → Option (Option String))
    (fs : Fs) (dir : Path) :
    isSillyTavernDir manifestName fs dir = true ↔
      ∃ content, fs.lookup (dir ++ ["package.json"]) = some (.file content) ∧
        (fs.lookup (dir ++ ["server.js"])).isSome = true ∧
        (manifestName content = some (some "sillytavern") ∨
          manifestName content = some (some "SillyTavern")) := by
  unfold isSillyTavernDir existsSync
  constructor
  · intro h
    simp only at h
    split at h
    · next hboth =>
      simp only [Bool.and_eq_true] at hboth
      split at h
      · next content hfile =>
        split at h
        · next name hname =>
          refine ⟨content, hfile, hboth.2, ?_⟩
          simp only [Bool.or_eq_true, decide_eq_true_eq] at h
          rcases h with h | h
          · left; rw [hname, h]
          · right; rw [hname, h]
        · simp at h
      · simp at h
    · simp at h
  · rintro ⟨content, hfile, hserver, hname⟩
    simp only [hfile, hserver, Option.isSome_some, Bool.and_self, if_true]
    rcases hname with hname | hname <;> simp [hname]

theorem addLogs_snoc (logs : List LogEntry) (entries : List LogEntry) (entry : LogEntry) :
    addLogs logs (entries ++ [entry]) = addLog (addLogs logs entries) entry := by
  simp [addLogs, List.foldl_append]

/-- C17 (bounded log buffer): starting from an empty, or cleared, buffer, after
every sequence of `addLog` calls the buffer holds at most `MAX_LOGS = 500`
entries, and it holds exactly the most recent `min(n, 500)` of the `n` entries
added, in insertion order: the oldest entries are the ones evicted. -/
theorem addLog_bounded (entries : List LogEntry) :
    (addLogs [] entries).length ≤ MAX_LOGS ∧
      MAX_LOGS = 500 ∧
      (addLogs [] entries).length = min entries.length 500 ∧
      addLogs [] entries = entries.drop (entries.length - 500) := by
  have key : addLogs [] entries = entries.drop (entries.length - 500) := by
    induction entries using List.reverseRecOn with
    | nil => rfl
    | append_singleton es e ih =>
      rw [addLogs_snoc, ih]
      unfold addLog MAX_LOGS
      simp only [List.length_append, List.length_drop, List.length_singleton]
      by_cases hfull : 500 ≤ es.length
      · have hgt : es.length - (es.length - 500) + 1 > 500 := by omega
        simp only [hgt, if_true]
        have hle : es.length - 500 ≤ es.length := by omega
        have hle1 : es.length + 1 - 500 ≤ es.length := by omega
        rw [List.drop_append_of_le_length hle1]
        have hne : es.drop (es.length - 500) ≠ [] := by
          intro h
          have := congrArg List.length h
          simp only [List.length_drop, List.length_nil] at this
          omega
        rw [List.tail_append_of_ne_nil hne, List.tail_drop]
        have hidx : es.length - 500 + 1 = es.length + 1 - 500 := by omega
        rw [hidx]
      · have hgt : ¬ es.length - (es.length - 500) + 1 > 500 := by omega
        simp only [hgt, if_false]
        have h0 : es.length - 500 = 0 := by omega
        have h1 : es.length + 1 - 500 = 0 := by omega
        rw [h0, h1]
        simp
  refine ⟨?_, rfl, ?_, key⟩
  · rw [key]
    simp only [List.length_drop, MAX_LOGS]
    omega
  · rw [key]
    simp only [List.length_drop]
    omega

theorem exitedBy_succ (exits : Nat → Bool) (n : Nat) :
    exitedBy exits (n + 1) = (exitedBy exits n || exits (n + 1)) := by
  simp [exitedBy, List.range_succ, List.any_append]

theorem sequential_unresolved (answers exits : Nat → Bool) (child : Nat) (n : Nat)
    (hn : n < maxAttempts) (hfalse : ∀ i, 1 ≤ i → i ≤ n → answers i = false) :
    StartPoll.sequential answers exits n (StartPoll.spawned child) =
      StartPoll.polling (if exitedBy exits n then none else some child) n := by
  induction n with
  | zero => simp [StartPoll.sequential, StartPoll.spawned, StartPoll.polling, exitedBy]
  | succ n ih =>
    have hprev := ih (by omega) (fun i h1 h2 => hfalse i h1 (by omega))
    have hans : answers (n + 1) = false := hfalse (n + 1) (by omega) (by omega)
    have hlt : ¬ n + 1 ≥ maxAttempts := by omega
    simp only [StartPoll.sequential, hprev, hans, StartPoll.round, StartPoll.step,
      StartPoll.polling, if_true]
    rw [exitedBy_succ]
    by_cases hex : exits (n + 1) = true
    · simp [hex, StartPoll.step, hlt]
    · simp only [hex, Bool.false_eq_true, if_false]
      simp [hlt, hex]

theorem round_settled (s : StartPoll) (exitsNow isRunning : Bool)
    (hinactive : s.intervalActive = false) (hpending : s.pending = []) :
    (s.round exitsNow isRunning).attempts = s.attempts ∧
      (s.round exitsNow isRunning).resolved = s.resolved ∧
      (s.round exitsNow isRunning).intervalActive = false ∧
      (s.round exitsNow isRunning).pending = [] := by
  unfold StartPoll.round
  cases exitsNow <;> simp [StartPoll.step, hinactive, hpending]

theorem sequential_settled (answers exits : Nat → Bool) (s : StartPoll) (m : Nat) :
    ∀ n, m ≤ n →
      (StartPoll.sequential answers exits m s).intervalActive = false →
      (StartPoll.sequential answers exits m s).pending = [] →
      (StartPoll.sequential answers exits n s).attempts
          = (StartPoll.sequential answers exits m s).attempts ∧
        (StartPoll.sequential answers exits n s).resolved
          = (StartPoll.sequential answers exits m s).resolved ∧
        (StartPoll.sequential answers exits n s).intervalActive = false ∧
        (StartPoll.sequential answers exits n s).pending = [] := by
  intro n hmn hinactive hpending
  induction n with
  | zero =>
    have : m = 0 := by omega
    subst this
    exact ⟨rfl, rfl, hinactive, hpending⟩
  | succ n ih =>
    by_cases hm : m = n + 1
    · subst hm
      exact ⟨rfl, rfl, hinactive, hpending⟩
    · obtain ⟨h1, h2, h3, h4⟩ := ih (by omega)
      have := round_settled (StartPoll.sequential answers exits n s) (exits (n + 1))
        (answers (n + 1)) h3 h4
      simp only [StartPoll.sequential]
      exact ⟨this.1.trans h1, this.2.1.trans h2, this.2.2.1, this.2.2.2⟩

theorem round_success (child : Option Nat) (n : Nat) (exitsNow : Bool) :
    ((StartPoll.polling child n).round exitsNow true).resolved
        = some { success := true, message := "启动成功" } ∧
      ((StartPoll.polling child n).round exitsNow true).attempts = n + 1 ∧
      ((StartPoll.polling child n).round exitsNow true).intervalActive = false ∧
      ((StartPoll.polling child n).round exitsNow true).pending = [] := by
  cases exitsNow <;> simp [StartPoll.polling, StartPoll.round, StartPoll.step, StartPoll.resolve]

theorem round_last (child : Option Nat) (exitsNow : Bool) :
    ((StartPoll.polling child 119).round exitsNow false).resolved
        = some (if (child.isSome && !exitsNow) = true then
            { success := true, message := "启动成功（初始化中）" }
          else { success := false, message := "启动失败，请检查日志" }) ∧
      ((StartPoll.polling child 119).round exitsNow false).attempts = 120 ∧
      ((StartPoll.polling child 119).round exitsNow false).intervalActive = false ∧
      ((StartPoll.polling child 119).round exitsNow false).pending = [] := by
  cases exitsNow <;> cases child <;>
    simp [StartPoll.polling, StartPoll.round, StartPoll.step, StartPoll.resolve, maxAttempts]

set_option maxRecDepth 100000 in
/-- C19, as stated, fails when probes are answered late. If the 120th probe is
still unanswered when the timer fires again, a 121st probe is issued, and its
success resolves the call. If the probes 117 to 120 are all pending when probe
117 fails, the call resolves as `initialising` at once, and the success of
probe 118 changes nothing. -/
theorem polling_overlap_breaks_bound :
    ((StartPoll.spawned 0).run (failingRounds 119 ++ [.tick, .tick, .answer 121 true])).attempts
        = 121 ∧
      ((StartPoll.spawned 0).run
          (failingRounds 119 ++ [.tick, .tick, .answer 121 true])).resolved
        = some { success := true, message := "启动成功" } ∧
      ((StartPoll.spawned 0).run
          (failingRounds 116 ++ [.tick, .tick, .tick, .tick, .answer 117 false])).resolved
        = some { success := true, message := "启动成功（初始化中）" } ∧
      ((StartPoll.spawned 0).run
          (failingRounds 116 ++
            [.tick, .tick, .tick, .tick, .answer 117 false, .answer 118 true])).resolved
        = some { success := true, message := "启动成功（初始化中）" } := by
  decide

theorem sequential_succ (answers exits : Nat → Bool) (n : Nat) (s : StartPoll) :
    StartPoll.sequential answers exits (n + 1) s =
      (StartPoll.sequential answers exits n s).round (exits (n + 1)) (answers (n + 1)) :=
  rfl

theorem sequential_first_success (answers exits : Nat → Bool) (child : Nat) (i n : Nat)
    (h1 : 1 ≤ i) (h120 : i ≤ maxAttempts) (hn : i ≤ n) (htrue : answers i = true)
    (hfalse : ∀ j, 1 ≤ j → j < i → answers j = false) :
    (StartPoll.sequential answers exits n (StartPoll.spawned child)).resolved
        = some { success := true, message := "启动成功" } ∧
      (StartPoll.sequential answers exits n (StartPoll.spawned child)).attempts = i ∧
      (StartPoll.sequential answers exits n (StartPoll.spawned child)).intervalActive = false ∧
      (StartPoll.sequential answers exits n (StartPoll.spawned child)).pending = [] := by
  obtain ⟨k, rfl⟩ : ∃ k, i = k + 1 := ⟨i - 1, by omega⟩
  have hpre := sequential_unresolved answers exits child k (by omega)
    (fun j hj1 hj2 => hfalse j hj1 (by omega))
  have hat : StartPoll.sequential answers exits (k + 1) (StartPoll.spawned child)
      = (StartPoll.polling (if exitedBy exits k then none else some child) k).round
          (exits (k + 1)) true := by
    rw [sequential_succ, hpre, htrue]
  have hr := round_success (if exitedBy exits k then none else some child) k (exits (k + 1))
  rw [← hat] at hr
  have hs := sequential_settled answers exits (StartPoll.spawned child) (k + 1) n hn hr.2.2.1
    hr.2.2.2
  exact ⟨hs.2.1.trans hr.1, hs.1.trans hr.2.1, hs.2.2.1, hs.2.2.2⟩

theorem sequential_all_fail (answers exits : Nat → Bool) (child : Nat) (n : Nat)
    (hn : maxAttempts ≤ n) (hfalse : ∀ j, 1 ≤ j → j ≤ maxAttempts → answers j = false) :
    (StartPoll.sequential answers exits n (StartPoll.spawned child)).resolved
        = some (if exitedBy exits maxAttempts = true then
            { success := false, message := "启动失败，请检查日志" }
          else { success := true, message := "启动成功（初始化中）" }) ∧
      (StartPoll.sequential answers exits n (StartPoll.spawned child)).attempts = maxAttempts ∧
      (StartPoll.sequential answers exits n (StartPoll.spawned child)).intervalActive = false ∧
      (StartPoll.sequential answers exits n (StartPoll.spawned child)).pending = [] := by
  have hpre := sequential_unresolved answers exits child 119 (by decide)
    (fun j hj1 hj2 => hfalse j hj1 (by simp only [maxAttempts]; omega))
  have hans : answers 120 = false := hfalse 120 (by omega) (by simp [maxAttempts])
  have hat : StartPoll.sequential answers exits 120 (StartPoll.spawned child)
      = (StartPoll.polling (if exitedBy exits 119 then none else some child) 119).round
          (exits 120) false := by
    rw [sequential_succ answers exits 119, hpre, hans]
  have hr := round_last (if exitedBy exits 119 then none else some child) (exits 120)
  rw [← hat] at hr
  have hs := sequential_settled answers exits (StartPoll.spawned child) 120 n
    (by simpa [maxAttempts] using hn) hr.2.2.1 hr.2.2.2
  refine ⟨hs.2.1.trans (hr.1.trans ?_), hs.1.trans hr.2.1, hs.2.2.1, hs.2.2.2⟩
  have hex : exitedBy exits maxAttempts = (exitedBy exits 119 || exits 120) :=
    exitedBy_succ exits 119
  rw [hex]
  cases h119 : exitedBy exits 119 <;> cases h120 : exits 120 <;> simp

/-- C19, amended (readiness polling outcome of `startServer`): after the child
is spawned, with no spawn error, when every probe is answered before the timer
fires again, for every sequence of probe results the call issues at most 120
probes and resolves as follows: with a success as soon as some probe
`i <= 120` is the first to succeed, after exactly `i` probes; otherwise, when
the 120th probe has failed, with a degraded success (`initialising`) if the
handle is still present and with a failure if the child has exited; no other
outcome is possible. -/
theorem startServer_polling_outcome (answers exits : Nat → Bool) (child : Nat) (n : Nat)
    (hn : maxAttempts ≤ n) :
    (StartPoll.sequential answers exits n (StartPoll.spawned child)).attempts ≤ 120 ∧
      (StartPoll.sequential answers exits n (StartPoll.spawned child)).intervalActive = false ∧
      (∀ i, 1 ≤ i → i ≤ 120 → answers i = true → (∀ j, 1 ≤ j → j < i → answers j = false) →
        (StartPoll.sequential answers exits n (StartPoll.spawned child)).resolved
            = some { success := true, message := "启动成功" } ∧
          (StartPoll.sequential answers exits n (StartPoll.spawned child)).attempts = i) ∧
      ((∀ i, 1 ≤ i → i ≤ 120 → answers i = false) →
        (StartPoll.sequential answers exits n (StartPoll.spawned child)).attempts = 120 ∧
          (StartPoll.sequential answers exits n (StartPoll.spawned child)).resolved
            = some (if exitedBy exits 120 = true then
                { success := false, message := "启动失败，请检查日志" }
              else { success := true, message := "启动成功（初始化中）" })) ∧
      ((StartPoll.sequential answers exits n (StartPoll.spawned child)).resolved
          = some { success := true, message := "启动成功" } ∨
        (StartPoll.sequential answers exits n (StartPoll.spawned child)).resolved
          = some { success := true, message := "启动成功（初始化中）" } ∨
        (StartPoll.sequential answers exits n (StartPoll.spawned child)).resolved
          = some { success := false, message := "启动失败，请检查日志" }) := by
  have hsucc : ∀ i, 1 ≤ i → i ≤ 120 → answers i = true →
      (∀ j, 1 ≤ j → j < i → answers j = false) →
      (StartPoll.sequential answers exits n (StartPoll.spawned child)).resolved
          = some { success := true, message := "启动成功" } ∧
        (StartPoll.sequential answers exits n (StartPoll.spawned child)).attempts = i ∧
        (StartPoll.sequential answers exits n (StartPoll.spawned child)).intervalActive
          = false := by
    intro i h1 h120 htrue hfalse
    have hmax : maxAttempts = 120 := rfl
    have := sequential_first_success answers exits child i n h1 (by omega) (by omega) htrue
      hfalse
    exact ⟨this.1, this.2.1, this.2.2.1⟩
  have hfail : (∀ i, 1 ≤ i → i ≤ 120 → answers i = false) →
      (StartPoll.sequential answers exits n (StartPoll.spawned child)).attempts = 120 ∧
        (StartPoll.sequential answers exits n (StartPoll.spawned child)).resolved
          = some (if exitedBy exits 120 = true then
              { success := false, message := "启动失败，请检查日志" }
            else { success := true, message := "启动成功（初始化中）" }) ∧
        (StartPoll.sequential answers exits n (StartPoll.spawned child)).intervalActive
          = false := by
    intro hall
    have := sequential_all_fail answers exits child n hn hall
    exact ⟨this.2.1, this.1, this.2.2.1⟩
  by_cases hex : ∃ i, (1 ≤ i ∧ i ≤ 120) ∧ answers i = true
  · have hleast := Nat.find_spec hex
    have hmin : ∀ j, 1 ≤ j → j < Nat.find hex → answers j = false := by
      intro j hj1 hj2
      have := Nat.find_min hex hj2
      by_contra hne
      exact this ⟨⟨hj1, by omega⟩, by simpa using hne⟩
    obtain ⟨r1, r2, r3⟩ := hsucc (Nat.find hex) hleast.1.1 hleast.1.2 hleast.2 hmin
    refine ⟨by omega, r3, fun i a b c d => ⟨(hsucc i a b c d).1, (hsucc i a b c d).2.1⟩,
      fun hall => ⟨(hfail hall).1, (hfail hall).2.1⟩, Or.inl r1⟩
  · have hall : ∀ i, 1 ≤ i → i ≤ 120 → answers i = false := by
      intro i h1 h2
      by_contra hne
      exact hex ⟨i, ⟨h1, h2⟩, by simpa using hne⟩
    obtain ⟨r1, r2, r3⟩ := hfail hall
    refine ⟨by omega, r3, fun i a b c d => ⟨(hsucc i a b c d).1, (hsucc i a b c d).2.1⟩,
      fun hall => ⟨(hfail hall).1, (hfail hall).2.1⟩, ?_⟩
    rw [r2]
    split
    · exact Or.inr (Or.inr rfl)
    · exact Or.inr (Or.inl rfl)

/-- The polling when the third probe is the first to succeed: the call resolves
with a success after three probes. -/
theorem startServer_polling_outcome_witness :
    maxAttempts ≤ 120 ∧
      (StartPoll.sequential (fun i => decide (i = 3)) (fun _ => false) 120
          (StartPoll.spawned 0)).resolved = some { success := true, message := "启动成功" } ∧
      (StartPoll.sequential (fun i => decide (i = 3)) (fun _ => false) 120
          (StartPoll.spawned 0)).attempts = 3 :=
  ⟨by decide,
    (startServer_polling_outcome (fun i => decide (i = 3)) (fun _ => false) 0 120
      (by decide)).2.2.1 3 (by decide) (by decide) (by decide)
      (fun j _ hj => by simp; omega)⟩

theorem startServerSpawn_actions (homeDir : Path) (w : World) (acts : List StartAction) :
    (startServerSpawn homeDir w acts).1 = (startServerSpawn homeDir w []).1 ∧
      (startServerSpawn homeDir w acts).2 = acts ++ (startServerSpawn homeDir w []).2 ∧
      probeCount (startServerSpawn homeDir w []).2 = 0 := by
  unfold startServerSpawn
  simp only
  split <;> simp [probeCount]

theorem probeCount_append (a b : List StartAction) :
    probeCount (a ++ b) = probeCount a + probeCount b := by
  simp [probeCount]

theorem sequential_resolves (answers exits : Nat → Bool) (child : Nat) (n : Nat)
    (hn : maxAttempts ≤ n) :
    (StartPoll.sequential answers exits n (StartPoll.spawned child)).attempts ≤ maxAttempts ∧
      (StartPoll.sequential answers exits n (StartPoll.spawned child)).resolved.isSome
        = true := by
  by_cases hex : ∃ i, (1 ≤ i ∧ i ≤ maxAttempts) ∧ answers i = true
  · have hleast := Nat.find_spec hex
    have hmin : ∀ j, 1 ≤ j → j < Nat.find hex → answers j = false := by
      intro j hj1 hj2
      have := Nat.find_min hex hj2
      by_contra hne
      exact this ⟨⟨hj1, by omega⟩, by simpa using hne⟩
    have := sequential_first_success answers exits child (Nat.find hex) n hleast.1.1
      hleast.1.2 (by omega) hleast.2 hmin
    rw [this.1, this.2.1]
    exact ⟨hleast.1.2, rfl⟩
  · have hall : ∀ i, 1 ≤ i → i ≤ maxAttempts → answers i = false := by
      intro i h1 h2
      by_contra hne
      exact hex ⟨i, ⟨h1, h2⟩, by simpa using hne⟩
    have := sequential_all_fail answers exits child n hn hall
    rw [this.1, this.2.1]
    exact ⟨le_refl _, rfl⟩

theorem startServerPrelude_probes (homeDir : Path) (w : World) (handle : Option Nat)
    (answers : Nat → Bool) :
    probeCount (startServerPrelude homeDir w handle answers).2 ≤ 2 := by
  unfold startServerPrelude
  have h1 := startServerSpawn_actions homeDir w [.probe, .killPort, .wait 1000, .probe]
  have h2 := startServerSpawn_actions homeDir w [.probe]
  split
  · simp [probeCount]
  · split
    · split
      · simp [probeCount]
      · rw [h1.2.1, probeCount_append, h1.2.2]
        simp [probeCount]
    · rw [h2.2.1, probeCount_append, h2.2.2]
      simp [probeCount]

theorem resolve_fields (s : StartPoll) (result : Result) :
    (s.resolve result).resolved.isSome = true ∧
      (s.resolve result).intervalActive = s.intervalActive ∧
      (s.resolve result).attempts = s.attempts ∧
      (s.resolve result).pending = s.pending ∧
      (s.resolve result).sillyTavernProcess = s.sillyTavernProcess := by
  unfold StartPoll.resolve
  split
  · exact ⟨rfl, rfl, rfl, rfl, rfl⟩
  · next r h => exact ⟨by rw [h]; rfl, rfl, rfl, rfl, rfl⟩

theorem spawned_inv (child : Nat) : (StartPoll.spawned child).inv := by
  refine ⟨fun _ h => ?_, fun h => ?_⟩
  · simp [StartPoll.spawned, maxAttempts] at h
  · simp [StartPoll.spawned] at h

theorem step_pollInv (s : StartPoll) (ev : PollEvent) (h : s.inv) : (s.step ev).inv := by
  obtain ⟨h1, h2⟩ := h
  cases ev with
  | tick =>
    simp only [StartPoll.step]
    split
    · next hact =>
      refine ⟨fun _ hle => ?_, fun hf => ?_⟩
      · simp only at hle ⊢
        by_cases hlt : maxAttempts ≤ s.attempts
        · exact List.mem_append_left _ (h1 hact hlt)
        · have : s.attempts + 1 = maxAttempts := by omega
          rw [this]
          simp
      · simp only at hf
        rw [hact] at hf
        exact absurd hf (by simp)
    · exact ⟨h1, h2⟩
  | answer k isRunning =>
    simp only [StartPoll.step]
    split
    · split
      · refine ⟨fun ha => ?_, fun _ => (resolve_fields _ _).1⟩
        rw [(resolve_fields _ _).2.1] at ha
        simp at ha
      · split
        · split
          · refine ⟨fun ha => ?_, fun _ => (resolve_fields _ _).1⟩
            rw [(resolve_fields _ _).2.1] at ha
            simp at ha
          · refine ⟨fun ha => ?_, fun _ => (resolve_fields _ _).1⟩
            rw [(resolve_fields _ _).2.1] at ha
            simp at ha
        · next hlt =>
          refine ⟨fun _ hle => ?_, fun hf => h2 hf⟩
          simp only at hle hlt
          exact absurd hle hlt
    · exact ⟨h1, h2⟩
  | childExit =>
    simp only [StartPoll.step]
    exact ⟨h1, h2⟩
  | spawnError message =>
    simp only [StartPoll.step]
    refine ⟨fun ha hle => ?_, fun _ => (resolve_fields _ _).1⟩
    rw [(resolve_fields _ _).2.1] at ha
    rw [(resolve_fields _ _).2.2.1] at hle
    rw [(resolve_fields _ _).2.2.2.1]
    exact h1 ha hle

theorem step_attempts_le (s : StartPoll) (ev : PollEvent) :
    s.attempts ≤ (s.step ev).attempts ∧ (s.step ev).attempts ≤ s.attempts + 1 := by
  cases ev with
  | tick =>
    simp only [StartPoll.step]
    split
    · simp
    · simp
  | answer k isRunning =>
    simp only [StartPoll.step]
    split
    · split
      · rw [(resolve_fields _ _).2.2.1]; simp
      · split
        · split
          · rw [(resolve_fields _ _).2.2.1]; simp
          · rw [(resolve_fields _ _).2.2.1]; simp
        · simp
    · simp
  | childExit => simp [StartPoll.step]
  | spawnError message =>
    simp only [StartPoll.step]
    rw [(resolve_fields _ _).2.2.1]; simp

theorem run_pollInv (s : StartPoll) (evs : List PollEvent) (h : s.inv) : (s.run evs).inv := by
  induction evs generalizing s with
  | nil => exact h
  | cons ev evs ih => exact ih (s.step ev) (step_pollInv s ev h)

theorem timely_bound (k : Nat) (s : StartPoll) (evs : List PollEvent) (h : s.inv)
    (hb : s.attempts ≤ maxAttempts + k) (ht : s.timely k evs = true) :
    (s.run evs).attempts ≤ maxAttempts + k := by
  induction evs generalizing s with
  | nil => exact hb
  | cons ev evs ih =>
    simp only [StartPoll.timely, Bool.and_eq_true] at ht
    refine ih (s.step ev) (step_pollInv s ev h) ?_ ht.2
    cases ev with
    | tick =>
      have ht1 := ht.1
      simp only [Bool.or_eq_true, Bool.not_eq_true', List.all_eq_true, decide_eq_true_eq] at ht1
      simp only [StartPoll.step]
      split
      · next hact =>
        simp only
        by_cases hlt : maxAttempts ≤ s.attempts
        · rcases ht1 with hf | hall
          · rw [hact] at hf; exact absurd hf (by simp)
          · have := hall _ (h.1 hact hlt)
            omega
        · omega
      · exact hb
    | answer k isRunning =>
      have := (step_attempts_le s (.answer k isRunning))
      have hle : (s.step (.answer k isRunning)).attempts ≤ s.attempts := by
        simp only [StartPoll.step]
        split
        · split
          · rw [(resolve_fields _ _).2.2.1]
          · split
            · split
              · rw [(resolve_fields _ _).2.2.1]
              · rw [(resolve_fields _ _).2.2.1]
            · exact le_refl _
        · exact le_refl _
      omega
    | childExit => exact hb
    | spawnError message =>
      simp only [StartPoll.step]
      rw [(resolve_fields _ _).2.2.1]
      exact hb

theorem after_pollInv (s : StartPoll) (sched : Nat → PollEvent) (n : Nat) (h : s.inv) :
    (s.after sched n).inv := by
  induction n with
  | zero => exact h
  | succ n ih => exact step_pollInv _ _ ih

theorem after_attempts_mono (s : StartPoll) (sched : Nat → PollEvent) (n m : Nat)
    (h : n ≤ m) : (s.after sched n).attempts ≤ (s.after sched m).attempts := by
  induction m with
  | zero =>
    have : n = 0 := by omega
    subst this
    exact le_refl _
  | succ m ih =>
    by_cases hn : n = m + 1
    · subst hn; exact le_refl _
    · exact le_trans (ih (by omega)) (step_attempts_le _ _).1

theorem after_reaches (s : StartPoll) (sched : Nat → PollEvent) (h : s.inv)
    (hticks : ∀ n, (s.after sched n).intervalActive = true → ∃ m, n ≤ m ∧ sched m = .tick)
    (a : Nat) :
    ∃ n, (s.after sched n).resolved.isSome = true ∨ a ≤ (s.after sched n).attempts := by
  induction a with
  | zero => exact ⟨0, Or.inr (Nat.zero_le _)⟩
  | succ a ih =>
    obtain ⟨n, hn⟩ := ih
    rcases hn with hn | hn
    · exact ⟨n, Or.inl hn⟩
    · by_cases hact : (s.after sched n).intervalActive = true
      · obtain ⟨m, hnm, hm⟩ := hticks n hact
        by_cases hact2 : (s.after sched m).intervalActive = true
        · refine ⟨m + 1, Or.inr ?_⟩
          have hmono := after_attempts_mono s sched n m hnm
          show a + 1 ≤ ((s.after sched m).step (sched m)).attempts
          rw [hm]
          simp only [StartPoll.step, hact2, if_true]
          omega
        · exact ⟨m, Or.inl ((after_pollInv s sched m h).2 (by simpa using hact2))⟩
      · exact ⟨n, Or.inl ((after_pollInv s sched n h).2 (by simpa using hact))⟩

theorem after_resolves (s : StartPoll) (sched : Nat → PollEvent) (h : s.inv)
    (hticks : ∀ n, (s.after sched n).intervalActive = true → ∃ m, n ≤ m ∧ sched m = .tick)
    (hanswer : ∀ n, maxAttempts ∈ (s.after sched n).pending →
      ∃ m isRunning, n ≤ m ∧ sched m = .answer maxAttempts isRunning) :
    ∃ n, (s.after sched n).resolved.isSome = true := by
  obtain ⟨n, hn⟩ := after_reaches s sched h hticks maxAttempts
  rcases hn with hn | hn
  · exact ⟨n, hn⟩
  · by_cases hact : (s.after sched n).intervalActive = true
    · have hpend := (after_pollInv s sched n h).1 hact hn
      obtain ⟨m, isRunning, hnm, hm⟩ := hanswer n hpend
      have hmono := after_attempts_mono s sched n m hnm
      by_cases hact2 : (s.after sched m).intervalActive = true
      · have hpend2 := (after_pollInv s sched m h).1 hact2 (le_trans hn hmono)
        refine ⟨m + 1, ?_⟩
        show ((s.after sched m).step (sched m)).resolved.isSome = true
        rw [hm]
        have hc : (s.after sched m).pending.contains maxAttempts = true := by
          simpa using hpend2
        have hge : (s.after sched m).attempts ≥ maxAttempts := le_trans hn hmono
        simp only [StartPoll.step, hc, if_true]
        repeat' split
        all_goals exact (resolve_fields _ _).1
      · exact ⟨m, (after_pollInv s sched m h).2 (by simpa using hact2)⟩
    · exact ⟨n, (after_pollInv s sched n h).2 (by simpa using hact)⟩


theorem run_snoc (s : StartPoll) (evs : List PollEvent) (ev : PollEvent) :
    s.run (evs ++ [ev]) = (s.run evs).step ev := by
  simp [StartPoll.run, List.foldl_append]

/-- As long as no probe is answered, every firing of the timer issues one more
probe and the call does not return. -/
theorem unanswered_firings (child n : Nat) :
    ((StartPoll.spawned child).run (List.replicate n .tick)).attempts = n ∧
      ((StartPoll.spawned child).run (List.replicate n .tick)).resolved = none ∧
      ((StartPoll.spawned child).run (List.replicate n .tick)).intervalActive = true := by
  induction n with
  | zero => exact ⟨rfl, rfl, rfl⟩
  | succ n ih =>
    obtain ⟨h1, h2, h3⟩ := ih
    rw [List.replicate_succ', run_snoc]
    simp only [StartPoll.step, h3, if_true]
    exact ⟨by rw [h1], h2, trivial⟩

set_option maxRecDepth 100000 in
/-- C14, as stated, fails in its last clause: `maxAttempts`, the only bound in
the code, does not bound the probes of a call. At the sample home directory a
call that finds the port occupied and then free makes two probes and spawns; if the
first 119 probes of the polling fail and the 120th is still unanswered when the
timer has fired three more times, which takes 1500 ms while a probe may take
2000 ms, the call has made 123 probes of the polling, more than `maxAttempts`,
four of them are pending, and it has not returned. -/
theorem startServer_probes_exceed_bound :
    (startServerPrelude ["home"] sampleWorldInstalled none (fun i => decide (i = 0))).2
        = [.probe, .killPort, .wait 1000, .probe, .killPort, .wait 500,
            .spawn ["home", "st-versions", "1.13.5"]] ∧
      ((StartPoll.spawned 0).run (failingRounds 119 ++ [.tick, .tick, .tick, .tick])).attempts
        = 123 ∧
      ((StartPoll.spawned 0).run (failingRounds 119 ++ [.tick, .tick, .tick, .tick])).pending
        = [120, 121, 122, 123] ∧
      ((StartPoll.spawned 0).run (failingRounds 119 ++ [.tick, .tick, .tick, .tick])).resolved
        = none ∧
      ((StartPoll.spawned 0).run
          (failingRounds 119 ++ [.tick, .tick, .tick, .tick])).intervalActive = true := by
  decide

/-- C14, amended (occupied-port cycle of `startServer`): with no handle present,
if the first liveness probe of the port succeeds then port reclamation is
attempted exactly once before a second probe; if the second probe also
succeeds, `startServer()` returns the failure `already running, cannot reclaim`
after these two probes, without spawning a process and with the handle still
absent; if the second probe fails the start proceeds as for a free port: the
same outcome before the polling, the same further actions and, with the probes
of the polling answered in turn, the same result. A call makes at most two
probes before the spawn. After the spawn, whatever the order of timer firings,
answers and exits: the call has returned, and the timer is cleared, as soon as
the 120th probe of the polling has been issued and answered; the timer stays
set until the call returns; if no probe stays unanswered over `k` or more later
firings, the polling makes at most `120 + k` probes; and if the timer keeps
firing while it is set and the 120th probe is answered once it is pending, the
call returns. -/
theorem startServer_occupied_cycle (homeDir : Path) (w : World) (answers : Nat → Bool)
    (h0 : answers 0 = true) :
    (answers 1 = true →
        startServerPrelude homeDir w none answers =
            (.returned { success := false, message := "服务器已在运行中，无法自动清理端口" },
              [.probe, .killPort, .wait 1000, .probe]) ∧
          ∀ (child : Nat) (exits : Nat → Bool),
            (startServer homeDir w none child answers exits).result =
                some { success := false, message := "服务器已在运行中，无法自动清理端口" } ∧
              (startServer homeDir w none child answers exits).sillyTavernProcess = none ∧
              (startServer homeDir w none child answers exits).actions =
                [.probe, .killPort, .wait 1000, .probe] ∧
              (startServer homeDir w none child answers exits).probes = 2) ∧
      (answers 1 = false →
        (startServerPrelude homeDir w none answers).1 =
            (startServerPrelude homeDir w none (freePortAnswers answers)).1 ∧
          (∃ rest : List StartAction,
            (startServerPrelude homeDir w none (freePortAnswers answers)).2 = [.probe] ++ rest ∧
              (startServerPrelude homeDir w none answers).2 =
                [.probe, .killPort, .wait 1000, .probe] ++ rest) ∧
          ∀ (child : Nat) (exits : Nat → Bool),
            (startServer homeDir w none child answers exits).result =
                (startServer homeDir w none child (freePortAnswers answers) exits).result ∧
              (startServer homeDir w none child answers exits).sillyTavernProcess =
                (startServer homeDir w none child (freePortAnswers answers)
                  exits).sillyTavernProcess) ∧
      (∀ (handle : Option Nat) (answers2 : Nat → Bool),
        probeCount (startServerPrelude homeDir w handle answers2).2 ≤ 2) ∧
      (∀ (child : Nat) (evs : List PollEvent),
        (maxAttempts ≤ ((StartPoll.spawned child).run evs).attempts →
            maxAttempts ∉ ((StartPoll.spawned child).run evs).pending →
            ((StartPoll.spawned child).run evs).resolved.isSome = true ∧
              ((StartPoll.spawned child).run evs).intervalActive = false) ∧
          (((StartPoll.spawned child).run evs).resolved = none →
            ((StartPoll.spawned child).run evs).intervalActive = true) ∧
          ∀ k : Nat, StartPoll.timely k (StartPoll.spawned child) evs = true →
            ((StartPoll.spawned child).run evs).attempts ≤ maxAttempts + k) ∧
      (∀ (child : Nat) (sched : Nat → PollEvent),
        (∀ n, ((StartPoll.spawned child).after sched n).intervalActive = true →
            ∃ m, n ≤ m ∧ sched m = .tick) →
          (∀ n, maxAttempts ∈ ((StartPoll.spawned child).after sched n).pending →
            ∃ m isRunning, n ≤ m ∧ sched m = .answer maxAttempts isRunning) →
          ∃ n, ((StartPoll.spawned child).after sched n).resolved.isSome = true) := by
  refine ⟨?_, ?_, ?_, ?_, ?_⟩
  · intro h1
    have hpre : startServerPrelude homeDir w none answers =
        (.returned { success := false, message := "服务器已在运行中，无法自动清理端口" },
          [.probe, .killPort, .wait 1000, .probe]) := by
      simp [startServerPrelude, h0, h1]
    refine ⟨hpre, fun child exits => ?_⟩
    simp [startServer, hpre, probeCount]
  · intro h1
    have hs4 := startServerSpawn_actions homeDir w [.probe, .killPort, .wait 1000, .probe]
    have hs1 := startServerSpawn_actions homeDir w [.probe]
    have hpre : startServerPrelude homeDir w none answers =
        startServerSpawn homeDir w [.probe, .killPort, .wait 1000, .probe] := by
      simp [startServerPrelude, h0, h1]
    have hfree : startServerPrelude homeDir w none (freePortAnswers answers) =
        startServerSpawn homeDir w [.probe] := by
      simp [startServerPrelude, freePortAnswers]
    refine ⟨by rw [hpre, hfree, hs4.1, hs1.1],
      ⟨(startServerSpawn homeDir w []).2, by rw [hfree, hs1.2.1], by rw [hpre, hs4.2.1]⟩, ?_⟩
    intro child exits
    have hanswers : (fun i => answers (probeCount
          (startServerSpawn homeDir w [.probe, .killPort, .wait 1000, .probe]).2 + i - 1))
        = (fun i => freePortAnswers answers
            (probeCount (startServerSpawn homeDir w [.probe]).2 + i - 1)) := by
      funext i
      rw [hs4.2.1, hs1.2.1, probeCount_append, probeCount_append, hs4.2.2]
      simp only [probeCount, freePortAnswers]
      by_cases hi : i = 0
      · subst hi
        simpa using h1
      · have e1 : List.count StartAction.probe [.probe, .killPort, .wait 1000, .probe]
            + 0 + i - 1 = i + 1 := by
          simp [List.count_cons]; omega
        have e2 : List.count StartAction.probe [.probe] + 0 + i - 1 = i := by
          simp
        rw [e1, e2]
        simp [hi]
    unfold startServer
    rw [hpre, hfree]
    have hout : (startServerSpawn homeDir w [.probe, .killPort, .wait 1000, .probe]).1
        = (startServerSpawn homeDir w [.probe]).1 := by rw [hs4.1, hs1.1]
    cases hc4 : startServerSpawn homeDir w [.probe, .killPort, .wait 1000, .probe] with
    | mk out4 acts4 =>
      cases hc1 : startServerSpawn homeDir w [.probe] with
      | mk out1 acts1 =>
        rw [hc4, hc1] at hout hanswers
        simp only at hout hanswers
        subst hout
        cases out4 with
        | returned r => exact ⟨rfl, rfl⟩
        | spawned cwd =>
          simp only
          rw [hanswers]
          exact ⟨rfl, rfl⟩
  · intro handle answers2
    exact startServerPrelude_probes homeDir w handle answers2
  · intro child evs
    have hinv := run_pollInv (StartPoll.spawned child) evs (spawned_inv child)
    refine ⟨fun hge hnot => ?_, fun hnone => ?_, fun k ht => ?_⟩
    · have hoff : ((StartPoll.spawned child).run evs).intervalActive = false := by
        cases hact : ((StartPoll.spawned child).run evs).intervalActive with
        | false => rfl
        | true => exact absurd (hinv.1 hact hge) hnot
      exact ⟨hinv.2 hoff, hoff⟩
    · cases hact : ((StartPoll.spawned child).run evs).intervalActive with
      | true => rfl
      | false =>
        have := hinv.2 hact
        rw [hnone] at this
        exact absurd this (by simp)
    · exact timely_bound k (StartPoll.spawned child) evs (spawned_inv child)
        (by simp [StartPoll.spawned]) ht
  · intro child sched hticks hanswer
    exact after_resolves (StartPoll.spawned child) sched (spawned_inv child) hticks hanswer

set_option maxRecDepth 100000 in
/-- The cycle at the sample home directory: with both probes answered, the call
fails after two probes and one reclamation, without a spawn. And the polling
in which the first 119 probes fail at once and the next four are pending makes
no more than 120 + 3 probes, and it returns under the sample schedule. -/
theorem startServer_occupied_cycle_witness :
    (startServer ["home"] sampleWorld none 0 (fun _ => true) (fun _ => false)).actions
        = [.probe, .killPort, .wait 1000, .probe] ∧
      (startServer ["home"] sampleWorld none 0 (fun _ => true) (fun _ => false)).probes = 2 ∧
      (startServer ["home"] sampleWorld none 0 (fun _ => true)
        (fun _ => false)).sillyTavernProcess = none ∧
      StartPoll.timely 3 (StartPoll.spawned 0)
          (failingRounds 119 ++ [.tick, .tick, .tick, .tick]) = true ∧
      ((StartPoll.spawned 0).run (failingRounds 119 ++ [.tick, .tick, .tick, .tick])).attempts
        ≤ maxAttempts + 3 ∧
      ∃ n, ((StartPoll.spawned 0).after sampleSchedule n).resolved.isSome = true := by
  have ht : StartPoll.timely 3 (StartPoll.spawned 0)
      (failingRounds 119 ++ [.tick, .tick, .tick, .tick]) = true := by decide
  have hthm := startServer_occupied_cycle ["home"] sampleWorld (fun _ => true) rfl
  have hcycle := (hthm.1 rfl).2 0 (fun _ => false)
  refine ⟨hcycle.2.2.1, hcycle.2.2.2, hcycle.2.1, ht, ?_, ?_⟩
  · exact (hthm.2.2.2.1 0 _).2.2 3 ht
  · exact hthm.2.2.2.2 0 sampleSchedule
      (fun n _ => ⟨2 * n, by omega, by simp [sampleSchedule]⟩)
      (fun n _ => ⟨2 * n + 1, false, by omega, by simp [sampleSchedule, Nat.add_mod]⟩)

theorem step_serialInv (s : Supervisor) (ev : SupEvent) (h : s.serialInv)
    (hserial : ev = .startCall →
      s.startsPending = 0 ∧ (s.sillyTavernProcess = none → s.alive = [])) :
    (s.step ev).serialInv := by
  obtain ⟨halive, hpending, hstart⟩ := h
  cases ev with
  | startCall =>
    obtain ⟨h0, hnone⟩ := hserial rfl
    simp only [Supervisor.step]
    split
    · exact ⟨halive, hpending, hstart⟩
    · next hh =>
      have hn : s.sillyTavernProcess = none := by
        cases hp : s.sillyTavernProcess with
        | none => rfl
        | some c => rw [hp] at hh; simp at hh
      refine ⟨halive, by simp only; omega, fun _ => ⟨hnone hn, hn⟩⟩
  | startGivesUp =>
    simp only [Supervisor.step]
    refine ⟨halive, by simp only; omega, fun h1 => ?_⟩
    simp only at h1
    omega
  | startSpawns =>
    simp only [Supervisor.step]
    split
    · exact ⟨halive, hpending, hstart⟩
    · next hne =>
      have h1 : s.startsPending = 1 := by omega
      have hnil := (hstart h1).1
      refine ⟨by simp [hnil], by simp only; omega, fun h2 => ?_⟩
      simp only at h2
      omega
  | childExit child =>
    simp only [Supervisor.step]
    split
    · refine ⟨?_, hpending, fun h1 => ?_⟩
      · exact le_trans (List.length_erase_le _ _) halive
      · simp only [(hstart h1).1, List.erase_nil, and_self]
    · exact ⟨halive, hpending, hstart⟩
  | stopCall =>
    simp only [Supervisor.step]
    split
    · exact ⟨halive, hpending, hstart⟩
    · exact ⟨halive, hpending, hstart⟩
  | graceTimeout i =>
    simp only [Supervisor.step]
    split
    · exact ⟨halive, hpending, hstart⟩
    · split
      · exact ⟨halive, hpending, hstart⟩
      · exact ⟨halive, hpending, fun h1 => ⟨(hstart h1).1, rfl⟩⟩

theorem reachableSerial_inv (s : Supervisor) (h : Supervisor.ReachableSerial s) :
    s.serialInv := by
  induction h with
  | init => simp [Supervisor.serialInv, Supervisor.init]
  | step s ev _ hserial ih => exact step_serialInv s ev ih hserial

/-- C13, as stated, fails: a `startServer()` call made after a first call has
begun and before it has spawned is not rejected, and with the two calls
overlapping two spawned children are alive at a time. -/
theorem second_start_before_spawn_spawns :
    (Supervisor.init.step .startCall).startsPending = 1 ∧
      ((Supervisor.init.step .startCall).step .startCall).startsPending = 2 ∧
      (Supervisor.init.run overlappingStarts).alive = [0, 1] ∧
      (Supervisor.init.run overlappingStarts).spawnCount = 2 := by
  decide

/-- C13, amended (no second spawn): whenever the supervisor holds a handle, in
particular when `startServer()` is called again after a first call has
spawned its child and the child has not exited, `startServer()` returns the
failure `already running`, makes no probe, calls no port reclamation, spawns no
process and leaves the handle unchanged; and over any sequence of start, stop
and exit events in which a `startServer()` call is only made while no other
call is between its check and its spawn and, when no handle is held, no child
spawned earlier is still alive, at most one spawned child is alive at a time. -/
theorem startServer_no_second_spawn :
    (∀ (homeDir : Path) (w : World) (held child : Nat) (answers exits : Nat → Bool),
      startServerPrelude homeDir w (some held) answers =
          (.returned { success := false, message := "服务器已在运行中" }, []) ∧
        (startServer homeDir w (some held) child answers exits).result =
          some { success := false, message := "服务器已在运行中" } ∧
        (startServer homeDir w (some held) child answers exits).actions = [] ∧
        (startServer homeDir w (some held) child answers exits).probes = 0 ∧
        (startServer homeDir w (some held) child answers exits).sillyTavernProcess
          = some held) ∧
      (∀ s : Supervisor, s.sillyTavernProcess.isSome = true → s.step .startCall = s) ∧
      (∀ s : Supervisor, Supervisor.ReachableSerial s → s.alive.length ≤ 1) := by
  refine ⟨?_, ?_, ?_⟩
  · intro homeDir w held child answers exits
    have hpre : startServerPrelude homeDir w (some held) answers =
        (.returned { success := false, message := "服务器已在运行中" }, []) := by
      simp [startServerPrelude]
    refine ⟨hpre, ?_⟩
    simp [startServer, hpre, probeCount]
  · intro s hs
    simp [Supervisor.step, hs]
  · intro s hs
    exact (reachableSerial_inv s hs).1

/-- A second `startServer()` after the spawn of a first child is rejected, and
one child is alive. -/
theorem startServer_no_second_spawn_witness :
    ((Supervisor.init.step .startCall).step .startSpawns).sillyTavernProcess = some 0 ∧
      (((Supervisor.init.step .startCall).step .startSpawns).step .startCall)
        = ((Supervisor.init.step .startCall).step .startSpawns) ∧
      (((Supervisor.init.step .startCall).step .startSpawns).step .startCall).alive.length
        ≤ 1 :=
  ⟨by decide,
    startServer_no_second_spawn.2.1 ((Supervisor.init.step .startCall).step .startSpawns)
      (by decide),
    startServer_no_second_spawn.2.2 _
      (.step _ _ (.step _ _ (.step _ _ .init (fun _ => ⟨rfl, fun _ => rfl⟩))
        (fun h => by simp at h)) (fun _ => ⟨rfl, fun h => by simp [Supervisor.step, Supervisor.init] at h⟩))⟩

/-- C18, the code at the failing input: the server is started, stopped, its
child 0 exits within the grace window and clears the handle, the server is
started again with child 1, and the grace timer of the stop, still set, fires:
it finds a handle, sends SIGKILL to child 1 and clears the handle. -/
theorem stopServer_grace_timer_kills_next_child :
    (Supervisor.init.run (restartRun.take 6)).sillyTavernProcess = some 1 ∧
      (Supervisor.init.run (restartRun.take 6)).alive = [1] ∧
      (Supervisor.init.run (restartRun.take 6)).graceTimers = [0] ∧
      (Supervisor.init.run (restartRun.take 6)).signals = [(.SIGTERM, 0)] ∧
      (Supervisor.init.run restartRun).signals = [(.SIGTERM, 0), (.SIGKILL, 1)] ∧
      (Supervisor.init.run restartRun).sillyTavernProcess = none ∧
      (Supervisor.init.run restartRun).alive = [1] := by
  decide

end Launcher
